import Mathlib

/-! Mycelium mesh: bundle codec, repository, fabric and agent.

A shallow embedding of `internal/spore/spore.go`, `internal/repo/repo.go`,
`internal/fabric/fabric.go` and the plan handling of `internal/agent/agent.go`.

Modelling conventions.

* Go `[]byte` is `List UInt8`; Go `string` is `String`; `len(s)` of a string is
  `String.utf8ByteSize`.
* A Go function returning `(value, error)` returns an `Outcome`: `ok`, `error`
  (one constructor per `fmt.Errorf` site) or `panic` (a run-time panic, which
  ends the whole program when nothing recovers it; nothing in the repository does).
* Library code that is not part of the repository (SHA-256, Ed25519, base64,
  `encoding/json`, `archive/zip`) is a parameter, the record `Lib`.  What the
  library documentation fixes about control flow is written out around the
  parameter: `ed25519.Verify` panics on a public key that is not 32 bytes long,
  `ed25519.Sign` panics on a private key that is not 64 bytes long,
  `PrivateKey.Public` copies bytes 32.. of the key.
* `fmt.Sprintf("%x", bytes)` is `hexEncode`, `path/filepath` (Unix) is `Clean`,
  `Join`, `Dir`, both written out.
* The file system is a map from lexically cleaned paths to regular files plus a
  set of directories.  Symbolic links, permissions checks, the working directory
  and device faults on an already opened file are outside the model: the
  source's error returns for a failed `Write` or `io.Copy` on a regular file are
  not reachable in it.  An archive is read as a whole when it is opened.
* A Go map is a list of pairs with at most one pair per key (`mapGet`, `mapSet`);
  a buffered channel is the list of the values in it, oldest first.
* A goroutine is its program point (`Task`, or the index of a forwarder of the
  fabric); one step runs it to its next read or write of shared state.  A run is
  a list of such steps, in any order the scheduler may choose.
-/

namespace Mesh

/-- Go byte slices. -/
abbrev Bytes := List UInt8

/-- Result of a Go call that may return a value, return an error, or panic. -/
inductive Outcome (ε α : Type) where
  | ok (a : α)
  | error (e : ε)
  | panic (msg : String)
deriving DecidableEq, Repr

/-! ## Formatting and paths -/

/-- Lowercase hexadecimal digit of a number below 16. -/
def hexDigit (n : Nat) : Char :=
  ['0', '1', '2', '3', '4', '5', '6', '7', '8', '9', 'a', 'b', 'c', 'd', 'e', 'f'].getD n '0'

/-- Two hex digits of one byte, high nibble first. -/
def hexByte (b : UInt8) : List Char :=
  [hexDigit (b.toNat / 16), hexDigit (b.toNat % 16)]

/-- Hex digits of a byte string. -/
def hexChars : Bytes → List Char
  | [] => []
  | b :: bs => hexByte b ++ hexChars bs

/-- Go `fmt.Sprintf("%x", bs)` for a byte slice or byte array. -/
def hexEncode (bs : Bytes) : String := String.mk (hexChars bs)

/-- Put a character in front of the first word of a list of words. -/
def consHead (c : Char) : List (List Char) → List (List Char)
  | [] => [[c]]
  | w :: ws => (c :: w) :: ws

/-- Go `strings.Split(s, "/")` on a list of characters. -/
def splitSlash : List Char → List (List Char)
  | [] => [[]]
  | c :: cs => if c = '/' then [] :: splitSlash cs else consHead c (splitSlash cs)

/-- One step of `filepath.Clean`: the stack holds the kept components, last first.
Empty and `.` components are dropped; `..` removes the previous component when
there is one that is not `..`, is dropped at the root, and is kept otherwise. -/
def cleanStep (rooted : Bool) (stack : List (List Char)) (comp : List Char) :
    List (List Char) :=
  if comp = [] ∨ comp = ['.'] then stack
  else if comp = ['.', '.'] then
    match stack with
    | top :: rest => if top = ['.', '.'] then comp :: stack else rest
    | [] => if rooted then [] else [comp]
  else comp :: stack

/-- Components joined by single slashes. -/
def joinSlash : List (List Char) → List Char
  | [] => []
  | [a] => a
  | a :: b :: r => a ++ '/' :: joinSlash (b :: r)

/-- The components `filepath.Clean` keeps, first first. -/
def cleanComps (p : List Char) : List (List Char) :=
  ((splitSlash p).foldl (cleanStep (p.head? = some '/')) []).reverse

/-- Go `filepath.Clean` (Unix) on characters. -/
def cleanChars (p : List Char) : List Char :=
  if p.head? = some '/' then '/' :: joinSlash (cleanComps p)
  else if cleanComps p = [] then ['.']
  else joinSlash (cleanComps p)

/-- Go `filepath.Clean` (Unix). -/
def Clean (path : String) : String := String.mk (cleanChars path.data)

/-- Go `filepath.Join` of two elements: leading empty elements are ignored, the
rest is joined with a slash and cleaned; all empty gives the empty string. -/
def Join (a b : String) : String :=
  if a ≠ "" then Clean (a ++ "/" ++ b)
  else if b ≠ "" then Clean b
  else ""

/-- Characters of a path up to and including its last slash. -/
def dirPart (p : List Char) : List Char :=
  (p.reverse.dropWhile (fun c => c ≠ '/')).reverse

/-- Go `filepath.Dir` (Unix). -/
def Dir (path : String) : String := Clean (String.mk (dirPart path.data))

/-! ## File system -/

/-- A regular file: content and permission bits. -/
structure File where
  data : Bytes
  mode : Nat
deriving DecidableEq, Repr

/-- File system state, keyed by cleaned path. -/
structure FS where
  files : String → Option File
  dirs : String → Bool

/-- Permission bits of a file that `os.Create` makes (0666 under umask 022). -/
def createMode : Nat := 0o644

/-- Content of the regular file at a path (`os.ReadFile`, `os.Open` and read). -/
def FS.read (fs : FS) (p : String) : Option Bytes :=
  (fs.files (Clean p)).map File.data

/-- Go `os.Stat` succeeding: something exists at the path. -/
def FS.exists (fs : FS) (p : String) : Bool :=
  (fs.files (Clean p)).isSome || fs.dirs (Clean p)

/-- Replace what the file map holds at one key. -/
def FS.setFile (fs : FS) (key : String) (f : Option File) : FS :=
  { fs with files := fun q => if q = key then f else fs.files q }

/-- Go `os.Create`: fails on a directory or under a missing parent directory;
otherwise the file exists afterwards with empty content, keeping the mode of a
file that was already there. -/
def FS.create (fs : FS) (p : String) : Option FS :=
  if fs.dirs (Clean p) || !fs.dirs (Dir (Clean p)) then none
  else
    match fs.files (Clean p) with
    | some f => some (fs.setFile (Clean p) (some { f with data := [] }))
    | none => some (fs.setFile (Clean p) (some { data := [], mode := createMode }))

/-- Writing the whole content of an already created file. -/
def FS.write (fs : FS) (p : String) (bs : Bytes) : FS :=
  match fs.files (Clean p) with
  | some f => fs.setFile (Clean p) (some { f with data := bs })
  | none => fs

/-- Go `os.Chmod` on a regular file or directory (directories carry no mode here). -/
def FS.chmod (fs : FS) (p : String) (mode : Nat) : Option FS :=
  match fs.files (Clean p) with
  | some f => some (fs.setFile (Clean p) (some { f with mode := mode }))
  | none => if fs.dirs (Clean p) then some fs else none

/-- Go `os.Rename` of a regular file: the source must exist, the target must not be
a directory and must lie in an existing directory; renaming a file to itself
does nothing. -/
def FS.rename (fs : FS) (old new : String) : Option FS :=
  match fs.files (Clean old) with
  | none => none
  | some f =>
    if fs.dirs (Clean new) || !fs.dirs (Dir (Clean new)) then none
    else if Clean old = Clean new then some fs
    else some ((fs.setFile (Clean old) none).setFile (Clean new) (some f))

/-- The path and its ancestors, as `os.MkdirAll` walks them: each component
list prefix of the cleaned path. -/
def ancestors (p : String) : List String :=
  ((cleanComps p.data).inits.filter (fun cs => cs ≠ [])).map
    (fun cs => if p.data.head? = some '/' then String.mk ('/' :: joinSlash cs)
               else String.mk (joinSlash cs))

/-- Go `os.MkdirAll`: fails when the path or an ancestor is a regular file,
otherwise every one of them is a directory afterwards. -/
def FS.mkdirAll (fs : FS) (p : String) : Option FS :=
  if (ancestors p).any (fun a => (fs.files a).isSome) then none
  else some { fs with dirs := fun q => fs.dirs q || (ancestors p).contains q }

/-! ## Manifest and archive -/

/-- Go `spore.Nutrients`. -/
structure Nutrients where
  CPUMilli : Int
  MemoryMB : Int
deriving DecidableEq, Repr

/-- Go `spore.SLO`. -/
structure SLO where
  P99BudgetMs : Int
deriving DecidableEq, Repr

/-- Go `spore.Security`. -/
structure Security where
  LSMProfile : String
  ReadOnlyFS : Bool
deriving DecidableEq, Repr

/-- Go `spore.Manifest`.  `CreatedAt` is the instant as a number; `Env` lists the
pairs of the map. -/
structure Manifest where
  Kind : String
  Name : String
  Version : String
  Command : String
  Args : List String
  Env : List (String × String)
  Provides : List String
  Nutrients : Nutrients
  SLO : SLO
  Security : Security
  CreatedAt : Int
  BinarySHA256 : String
  Signature : String
  PublicKey : String
deriving DecidableEq, Repr

/-- What opening and reading one archive entry gives. -/
inductive EntryBody where
  | data (bs : Bytes)
  | openFails
  | readFails
deriving DecidableEq, Repr

/-- One entry of `zipReader.File`: its name and what reading it gives. -/
structure ZipFile where
  Name : String
  body : EntryBody
deriving DecidableEq, Repr

/-- Library functions the repository calls but does not define. -/
structure Lib where
  /-- The hash `crypto/sha256.Sum256`. -/
  sha256 : Bytes → Bytes
  /-- Encoder `base64.StdEncoding.EncodeToString`. -/
  b64enc : Bytes → String
  /-- Decoder `base64.StdEncoding.DecodeString`; `none` is a decoding error. -/
  b64dec : String → Option Bytes
  /-- Compact `json.Marshal` of a manifest; `none` is an error. -/
  marshal : Manifest → Option Bytes
  /-- Indented `json.MarshalIndent(m, "", "  ")`; `none` is an error. -/
  marshalIndent : Manifest → Option Bytes
  /-- Parser `json.Unmarshal` into a zero manifest; `none` is an error. -/
  unmarshal : Bytes → Option Manifest
  /-- Signer `ed25519.Sign` on a 64-byte private key. -/
  sign : Bytes → Bytes → Bytes
  /-- Check `ed25519.Verify` on a 32-byte public key: key, message, signature. -/
  edVerify : Bytes → Bytes → Bytes → Bool
  /-- The entries `zip.OpenReader` lists for a file content; `none` is an error. -/
  zipRead : Bytes → Option (List ZipFile)
  /-- The file content a `zip.Writer` leaves for entries created in this order. -/
  zipWrite : List (String × Bytes) → Bytes

/-- Go `ed25519.Verify`: panics when the public key is not 32 bytes long. -/
def ed25519Verify (L : Lib) (publicKey message sig : Bytes) : Outcome Unit Bool :=
  if publicKey.length ≠ 32 then .panic "ed25519: bad public key length"
  else .ok (L.edVerify publicKey message sig)

/-- Go `PrivateKey.Public` on a key of at least 32 bytes: a 32-byte copy of the
bytes from index 32 on, zero filled. -/
def publicOf (priv : Bytes) : Bytes :=
  (priv.drop 32 ++ List.replicate 32 0).take 32

/-! ## Verify -/

/-- The error returns of `Verify`, in source order. -/
inductive VerifyError where
  | openSpore
  | openManifest
  | readManifest
  | openBinary
  | readBinary
  | manifestNotFound
  | binaryNotFound
  | parseManifest
  | binaryHashMismatch (expected got : String)
  | decodePublicKey
  | decodeSignature
  | marshalWithoutSignature
  | signatureFailed
deriving DecidableEq, Repr

/-- The loop of `Verify` over `zipReader.File`: a later entry of the same name
replaces an earlier one; the first entry that cannot be opened or read ends
the loop with its error. -/
def readEntries : List ZipFile → Option Bytes → Option Bytes →
    Except VerifyError (Option Bytes × Option Bytes)
  | [], manifestData, binaryData => .ok (manifestData, binaryData)
  | file :: rest, manifestData, binaryData =>
    if file.Name = "manifest.json" then
      match file.body with
      | .openFails => .error .openManifest
      | .readFails => .error .readManifest
      | .data bs => readEntries rest (some bs) binaryData
    else if file.Name = "binary" then
      match file.body with
      | .openFails => .error .openBinary
      | .readFails => .error .readBinary
      | .data bs => readEntries rest manifestData (some bs)
    else readEntries rest manifestData binaryData

/-- Go `zip.OpenReader(path)`: the file must exist and be an archive. -/
def openReader (L : Lib) (fs : FS) (path : String) : Option (List ZipFile) :=
  (fs.read path).bind L.zipRead

/-- The checks of `Verify` once both entries are read (source lines 169 to 211). -/
def verifyData (L : Lib) (manifestData binaryData : Bytes) : Outcome VerifyError Manifest :=
  match L.unmarshal manifestData with
  | none => .error .parseManifest
  | some manifest =>
    let hash := L.sha256 binaryData
    let expectedHash := hexEncode hash
    if manifest.BinarySHA256 ≠ expectedHash then
      .error (.binaryHashMismatch expectedHash manifest.BinarySHA256)
    else
      match L.b64dec manifest.PublicKey with
      | none => .error .decodePublicKey
      | some pubKeyData =>
        match L.b64dec manifest.Signature with
        | none => .error .decodeSignature
        | some signature =>
          match L.marshal { manifest with Signature := "" } with
          | none => .error .marshalWithoutSignature
          | some manifestWithoutSig =>
            let signingData := manifestWithoutSig ++ hash
            let signingHash := L.sha256 signingData
            match ed25519Verify L pubKeyData signingHash signature with
            | .panic msg => .panic msg
            | .error _ => .error .signatureFailed
            | .ok false => .error .signatureFailed
            | .ok true => .ok manifest

/-- Go `spore.Verify` (spore.go lines 125 to 212). -/
def Verify (L : Lib) (fs : FS) (sporePath : String) : Outcome VerifyError Manifest :=
  match openReader L fs sporePath with
  | none => .error .openSpore
  | some files =>
    match readEntries files none none with
    | .error e => .error e
    | .ok (none, _) => .error .manifestNotFound
    | .ok (some _, none) => .error .binaryNotFound
    | .ok (some manifestData, some binaryData) => verifyData L manifestData binaryData

/-! ## Pack -/

/-- The error returns of `Pack` that the model reaches. -/
inductive PackError where
  | readBinary
  | marshalManifest
  | createSpore
  | marshalFinalManifest
deriving DecidableEq, Repr

/-- Go `spore.Pack` (spore.go lines 49 to 122).  `now` is what `time.Now()` returns.  The deferred
`zipWriter.Close` runs on every return after the archive file is created, so
the file then holds the entries created so far. -/
def Pack (L : Lib) (now : Int) (fs : FS) (binaryPath : String) (m : Manifest) (priv : Bytes)
    (outDir : String) : Outcome PackError (String × Manifest) × FS :=
  match fs.read binaryPath with
  | none => (.error .readBinary, fs)
  | some binaryData =>
    let hash := L.sha256 binaryData
    let m := { m with BinarySHA256 := hexEncode hash }
    let m := { m with CreatedAt := now }
    let m := { m with Kind := "Spore" }
    if priv.length < 32 then (.panic "slice bounds out of range", fs)
    else
      let pubKey := publicOf priv
      let m := { m with PublicKey := L.b64enc pubKey }
      match L.marshal m with
      | none => (.error .marshalManifest, fs)
      | some manifestData =>
        let signingData := manifestData ++ hash
        let signingHash := L.sha256 signingData
        if priv.length ≠ 64 then (.panic "ed25519: bad private key length", fs)
        else
          let signature := L.sign priv signingHash
          let m := { m with Signature := L.b64enc signature }
          let sporeName := m.Name ++ "-" ++ m.Version ++ ".spore"
          let sporePath := Join outDir sporeName
          match fs.create sporePath with
          | none => (.error .createSpore, fs)
          | some fs1 =>
            match L.marshalIndent m with
            | none =>
              (.error .marshalFinalManifest, fs1.write sporePath (L.zipWrite [("manifest.json", [])]))
            | some finalManifest =>
              (.ok (sporePath, m),
                fs1.write sporePath
                  (L.zipWrite [("manifest.json", finalManifest), ("binary", binaryData)]))

/-! ## Extract -/

/-- The error returns of `Extract` that the model reaches. -/
inductive ExtractError where
  | verification (e : VerifyError)
  | openSpore
  | createDest
  | openFile (name : String)
  | createFile (path : String)
  | extractFile (name : String)
  | chmodBinary
  | renameBinary (command : String)
deriving DecidableEq, Repr

/-- The loop of `Extract` over `zipReader.File`: every entry is written to
`filepath.Join(destDir, file.Name)`; the entry named `binary` is made
executable.  An entry that cannot be opened ends the loop before its file is
created; one that cannot be read ends it after, leaving the created file empty. -/
def extractEntries (destDir : String) : List ZipFile → FS → Option ExtractError × FS
  | [], fs => (none, fs)
  | file :: rest, fs =>
    match file.body with
    | .openFails => (some (.openFile file.Name), fs)
    | .readFails =>
      match fs.create (Join destDir file.Name) with
      | none => (some (.createFile (Join destDir file.Name)), fs)
      | some fs1 => (some (.extractFile file.Name), fs1)
    | .data bs =>
      match fs.create (Join destDir file.Name) with
      | none => (some (.createFile (Join destDir file.Name)), fs)
      | some fs1 =>
        if file.Name = "binary" then
          match (fs1.write (Join destDir file.Name) bs).chmod (Join destDir file.Name) 0o755 with
          | none => (some .chmodBinary, fs1.write (Join destDir file.Name) bs)
          | some fs3 => extractEntries destDir rest fs3
        else extractEntries destDir rest (fs1.write (Join destDir file.Name) bs)

/-- Go `spore.Extract` (spore.go lines 215 to 272). -/
def Extract (L : Lib) (fs : FS) (sporePath destDir : String) :
    Outcome ExtractError (Manifest × String) × FS :=
  match Verify L fs sporePath with
  | .panic msg => (.panic msg, fs)
  | .error e => (.error (.verification e), fs)
  | .ok manifest =>
    match openReader L fs sporePath with
    | none => (.error .openSpore, fs)
    | some files =>
      match fs.mkdirAll destDir with
      | none => (.error .createDest, fs)
      | some fs1 =>
        match extractEntries destDir files fs1 with
        | (some e, fs2) => (.error e, fs2)
        | (none, fs2) =>
          let oldBinaryPath := Join destDir "binary"
          let newBinaryPath := Join destDir manifest.Command
          match fs2.rename oldBinaryPath newBinaryPath with
          | none => (.error (.renameBinary manifest.Command), fs2)
          | some fs3 => (.ok (manifest, newBinaryPath), fs3)

/-! ## Repository -/

/-- Go `repo.Repo`. -/
structure Repo where
  Dir : String
deriving DecidableEq, Repr

/-- The error returns of `Put`. -/
inductive PutError where
  | openSpore
  | computeDigest
  | copyFile
deriving DecidableEq, Repr

/-- Go `repo.Open`. -/
def Open (fs : FS) (dir : String) : Option Repo × FS :=
  match fs.mkdirAll dir with
  | none => (none, fs)
  | some fs1 => (some { Dir := dir }, fs1)

/-- Go `Repo.Path` (repo.go lines 51 to 53). -/
def Repo.Path (r : Repo) (digest : String) : String :=
  Join r.Dir (digest ++ ".spore")

/-- Go `Repo.copyFile` (repo.go lines 56 to 71); the flag says whether it returned nil.  The source is
opened first, then `os.Create` empties the destination, then the source is
read as it is at that moment. -/
def Repo.copyFile (_r : Repo) (fs : FS) (src dst : String) : Bool × FS :=
  if !fs.exists src then (false, fs)
  else
    match fs.create dst with
    | none => (false, fs)
    | some fs1 =>
      match fs1.read src with
      | none => (false, fs1)
      | some bs => (true, fs1.write dst bs)

/-- Go `Repo.Put` (repo.go lines 25 to 48). -/
def Repo.Put (L : Lib) (r : Repo) (fs : FS) (sporePath : String) :
    Outcome PutError (String × String) × FS :=
  if !fs.exists sporePath then (.error .openSpore, fs)
  else
    match fs.read sporePath with
    | none => (.error .computeDigest, fs)
    | some content =>
      let digest := hexEncode (L.sha256 content)
      let storedPath := Join r.Dir (digest ++ ".spore")
      match r.copyFile fs sporePath storedPath with
      | (false, fs1) => (.error .copyFile, fs1)
      | (true, fs1) => (.ok (digest, storedPath), fs1)

/-! ## Sprout -/

/-- Go `fabric.Plan`. -/
structure Plan where
  AppName : String
  Digest : String
  Min : Int
  Max : Int
  Port : Int
deriving DecidableEq, Repr

/-- The command of an `exec.Cmd`. -/
structure Cmd where
  Path : String
  Args : List String
  Dir : String
  Env : List String
deriving DecidableEq, Repr

/-- Go `agent.procInfo`. -/
structure procInfo where
  AppName : String
  Digest : String
  Process : Cmd
  URL : String
  Port : Nat
deriving DecidableEq, Repr

/-- The fields of `agent.Agent` that `sproutProcess` reads. -/
structure Agent where
  ID : String
  Repo : Repo
  RunDir : String
deriving DecidableEq, Repr

/-- What the host answers during one `sproutProcess`. -/
structure Host where
  /-- The value of `time.Now().Unix()`. -/
  now : Int
  /-- The list `os.Environ()`. -/
  environ : List String
  /-- The order in which `range` visits the pairs of a map. -/
  rangeOrder : List (String × String) → List (String × String)
  /-- The port `findFreePort` returns; `none` is an error. -/
  freePort : Option Nat
  /-- The path `filepath.Abs` returns; `none` is an error. -/
  abs : String → Option String
  /-- Whether `cmd.Start` succeeds. -/
  start : Cmd → Bool
  /-- Whether `waitForHealth` sees a 200 before its deadline. -/
  healthy : String → Bool

/-- The error returns of `sproutProcess`. -/
inductive SproutError where
  | sporeNotFound
  | verification (e : VerifyError)
  | extraction (e : ExtractError)
  | freePort
  | absPath
  | startProcess
  | healthCheck
deriving DecidableEq, Repr

/-- The characters of a string that fit whole in its first `n` bytes. -/
def bytePrefix : Nat → List Char → List Char
  | _, [] => []
  | n, c :: cs => if c.utf8Size ≤ n then c :: bytePrefix (n - c.utf8Size) cs else []

/-- Go `agent.sproutProcess` (agent.go lines 170 to 234).  The slice `plan.Digest[:8]` panics on a digest
shorter than 8 bytes. -/
def sproutProcess (L : Lib) (a : Agent) (h : Host) (fs : FS) (plan : Plan) :
    Outcome SproutError procInfo × FS :=
  let sporePath := a.Repo.Path plan.Digest
  if !fs.exists sporePath then (.error .sporeNotFound, fs)
  else
    match Verify L fs sporePath with
    | .panic msg => (.panic msg, fs)
    | .error e => (.error (.verification e), fs)
    | .ok manifest =>
      if plan.Digest.utf8ByteSize < 8 then (.panic "slice bounds out of range", fs)
      else
        let extractDir := Join a.RunDir
          (plan.AppName ++ "-" ++ String.mk (bytePrefix 8 plan.Digest.data) ++ "-" ++ toString h.now)
        match Extract L fs sporePath extractDir with
        | (.panic msg, fs1) => (.panic msg, fs1)
        | (.error e, fs1) => (.error (.extraction e), fs1)
        | (.ok (_, binaryPath), fs1) =>
          match h.freePort with
          | none => (.error .freePort, fs1)
          | some port =>
            let env := h.environ
              ++ (h.rangeOrder manifest.Env).map (fun kv => kv.1 ++ "=" ++ kv.2)
              ++ ["PORT=" ++ toString port]
            match h.abs binaryPath with
            | none => (.error .absPath, fs1)
            | some absBinaryPath =>
              let cmd : Cmd :=
                { Path := absBinaryPath, Args := manifest.Args, Dir := extractDir, Env := env }
              if !h.start cmd then (.error .startProcess, fs1)
              else
                let url := "http://127.0.0.1:" ++ toString port
                if !h.healthy url then (.error .healthCheck, fs1)
                else
                  (.ok { AppName := plan.AppName, Digest := plan.Digest, Process := cmd,
                         URL := url, Port := port }, fs1)

/-! ## Fabric -/

/-- Lookup in a Go map with string keys, kept as a list of pairs with distinct keys. -/
def mapGet {V : Type} : List (String × V) → String → Option V
  | [], _ => none
  | (k, v) :: rest, key => if k = key then some v else mapGet rest key

/-- Assignment `m[key] = val` in a Go map. -/
def mapSet {V : Type} : List (String × V) → String → V → List (String × V)
  | [], key, val => [(key, val)]
  | (k, v) :: rest, key, val =>
    if k = key then (key, val) :: rest else (k, v) :: mapSet rest key val

/-- Go `fabric.Budget`. -/
structure Budget where
  AppName : String
  MaxInstances : Int
  CPUmilli : Int
  MemoryMB : Int
deriving DecidableEq, Repr

/-- Go `fabric.Endpoint`. -/
structure Endpoint where
  AppName : String
  URL : String
  NodeID : String
deriving DecidableEq, Repr

/-- Go `fabric.Fabric`.  A channel is the list of the values it holds, oldest
first; `subscribers` holds the channel made by each `SubscribePlans` call. -/
structure Fabric where
  plans : List Plan
  budgets : List (String × Budget)
  endpoints : List (String × List Endpoint)
  subscribers : List (List Plan)
deriving DecidableEq, Repr

/-- Capacity of the channel `plans` (fabric.go line 43). -/
def plansCap : Nat := 100

/-- Capacity of a subscriber channel (fabric.go line 65). -/
def subscriberCap : Nat := 10

/-- Go `fabric.New`. -/
def Fabric.New : Fabric :=
  { plans := [], budgets := [], endpoints := [], subscribers := [] }

/-- Go `Fabric.PublishPlan`: a send that does not block; a full channel drops the plan. -/
def Fabric.PublishPlan (f : Fabric) (p : Plan) : Fabric :=
  if f.plans.length < plansCap then { f with plans := f.plans ++ [p] } else f

/-- Go `Fabric.SubscribePlans`: a new channel is appended to `subscribers`; its
forwarding goroutine is the index of that channel, stepped by `Fabric.forward`. -/
def Fabric.SubscribePlans (f : Fabric) : Nat × Fabric :=
  (f.subscribers.length, { f with subscribers := f.subscribers ++ [[]] })

/-- Send without blocking on the `i`-th subscriber channel: a full channel, or
none with that index, leaves the channels as they are. -/
def sendTo (p : Plan) : Nat → List (List Plan) → List (List Plan)
  | _, [] => []
  | 0, ch :: rest => (if ch.length < subscriberCap then ch ++ [p] else ch) :: rest
  | i + 1, ch :: rest => ch :: sendTo p i rest

/-- One turn of the loop of the goroutine that the `i`-th `SubscribePlans` started
(fabric.go lines 69 to 77): it receives the oldest plan from the shared
channel `plans` and sends it to its own subscriber channel without blocking.
On an empty channel, or without such a goroutine, nothing happens. -/
def Fabric.forward (f : Fabric) (i : Nat) : Fabric :=
  match f.plans with
  | [] => f
  | p :: rest =>
    if i < f.subscribers.length then
      { f with plans := rest, subscribers := sendTo p i f.subscribers }
    else f

/-- Receive on the `i`-th channel: the oldest value, and the channels without it. -/
def recvFrom : Nat → List (List Plan) → Option Plan × List (List Plan)
  | _, [] => (none, [])
  | 0, ch :: rest =>
    match ch with
    | [] => (none, [] :: rest)
    | p :: ps => (some p, ps :: rest)
  | i + 1, ch :: rest => ((recvFrom i rest).1, ch :: (recvFrom i rest).2)

/-- The receive `plan := <-planCh` of the holder of the `i`-th subscriber channel
(agent.go line 72), when a plan is there. -/
def Fabric.receive (f : Fabric) (i : Nat) : Option Plan × Fabric :=
  ((recvFrom i f.subscribers).1, { f with subscribers := (recvFrom i f.subscribers).2 })

/-- Go `Fabric.SetBudget`. -/
def Fabric.SetBudget (f : Fabric) (b : Budget) : Fabric :=
  { f with budgets := mapSet f.budgets b.AppName b }

/-- Go `Fabric.GetBudget`; `none` is `exists == false`. -/
def Fabric.GetBudget (f : Fabric) (app : String) : Option Budget :=
  mapGet f.budgets app

/-- The loop of `RegisterEndpoint` (fabric.go lines 104 to 111): the first
endpoint with the node of `e` is replaced by `e`; `none` when there is none. -/
def replaceNode (e : Endpoint) : List Endpoint → Option (List Endpoint)
  | [] => none
  | ep :: rest =>
    if ep.NodeID = e.NodeID then some (e :: rest)
    else (replaceNode e rest).map (fun r => ep :: r)

/-- Go `Fabric.RegisterEndpoint` (fabric.go lines 98 to 115). -/
def Fabric.RegisterEndpoint (f : Fabric) (e : Endpoint) : Fabric :=
  let endpoints := (mapGet f.endpoints e.AppName).getD []
  match replaceNode e endpoints with
  | some replaced => { f with endpoints := mapSet f.endpoints e.AppName replaced }
  | none => { f with endpoints := mapSet f.endpoints e.AppName (endpoints ++ [e]) }

/-- Go `Fabric.Endpoints` (fabric.go lines 118 to 131): a copy of the list, or nil. -/
def Fabric.Endpoints (f : Fabric) (app : String) : List Endpoint :=
  match mapGet f.endpoints app with
  | none => []
  | some endpoints => endpoints

/-! ## Agent -/

/-- The state that the handlers of one agent read and write: its map `procs`,
the fabric, the file system, and the child processes that a successful
`sproutProcess` started and nothing has killed since. -/
structure AgentState where
  procs : List (String × procInfo)
  fab : Fabric
  fs : FS
  alive : List procInfo

/-- A goroutine of the agent at one of its program points: `launchProcess` at
its start, before the record is stored (agent.go line 155), before the endpoint
is registered (line 160); `blueGreenDeploy` at its start, before the sleep
(line 125), before the registration (line 128), before the record is swapped
(line 135), before the old child is killed (line 141). -/
inductive Task where
  | launch (plan : Plan)
  | launchRecord (plan : Plan) (proc : procInfo)
  | launchRegister (plan : Plan) (proc : procInfo)
  | blueGreen (plan : Plan) (oldProc : procInfo)
  | bgSleep (plan : Plan) (oldProc newProc : procInfo)
  | bgRegister (plan : Plan) (oldProc newProc : procInfo)
  | bgRecord (plan : Plan) (oldProc newProc : procInfo)
  | bgKill (plan : Plan) (oldProc newProc : procInfo)
deriving DecidableEq, Repr

/-- What one step of a goroutine did. -/
inductive Event where
  | sprouted (proc : procInfo)
  | sproutFailed (e : SproutError)
  | panicked (msg : String)
  | slept
  | registered (e : Endpoint)
  | recorded (app : String) (proc : procInfo)
  | killed (proc : procInfo)
deriving DecidableEq, Repr

/-- Go `Agent.handlePlan` (agent.go lines 79 to 113), run under the agent's lock.
It changes nothing itself; the result names the goroutine that the `go`
statement starts, if any.  `len(a.procs)` counts the records of all apps. -/
def handlePlan (s : AgentState) (plan : Plan) : AgentState × Option Task :=
  match mapGet s.procs plan.AppName with
  | some proc =>
    if proc.Digest = plan.Digest then (s, none)
    else (s, some (.blueGreen plan proc))
  | none =>
    match s.fab.GetBudget plan.AppName with
    | none => (s, none)
    | some budget =>
      if (s.procs.length : Int) ≥ budget.MaxInstances then (s, none)
      else (s, some (.launch plan))

/-- The state once `sproutProcess` has returned a record: the file system it
left, and one more live child. -/
def AgentState.withChild (s : AgentState) (fs1 : FS) (proc : procInfo) : AgentState :=
  { s with fs := fs1, alive := s.alive ++ [proc] }

/-- The state after `a.procs[app] = proc`. -/
def AgentState.withRecord (s : AgentState) (app : String) (proc : procInfo) : AgentState :=
  { s with procs := mapSet s.procs app proc }

/-- The state after `a.Fab.RegisterEndpoint(e)`. -/
def AgentState.withEndpoint (s : AgentState) (e : Endpoint) : AgentState :=
  { s with fab := s.fab.RegisterEndpoint e }

/-- The state after `proc.Process.Process.Kill()`. -/
def AgentState.withoutChild (s : AgentState) (proc : procInfo) : AgentState :=
  { s with alive := s.alive.erase proc }

/-- One step of a goroutine of the agent: the event, the state after it and the
program point reached, `none` when the function has returned.  A failed
`sproutProcess` ends the goroutine, and the child it may have started is dead
again (agent.go line 223); a panic ends the program.  The old record of a
rollout was made by `sproutProcess`, so the nil checks before `Kill` (line 140)
pass. -/
def Task.step (L : Lib) (a : Agent) (h : Host) (s : AgentState) :
    Task → Event × AgentState × Option Task
  | .launch plan =>
    match sproutProcess L a h s.fs plan with
    | (.panic msg, fs1) => (.panicked msg, { s with fs := fs1 }, none)
    | (.error e, fs1) => (.sproutFailed e, { s with fs := fs1 }, none)
    | (.ok proc, fs1) => (.sprouted proc, s.withChild fs1 proc, some (.launchRecord plan proc))
  | .launchRecord plan proc =>
    (.recorded plan.AppName proc, s.withRecord plan.AppName proc,
      some (.launchRegister plan proc))
  | .launchRegister plan proc =>
    let e : Endpoint := { AppName := plan.AppName, URL := proc.URL, NodeID := a.ID }
    (.registered e, s.withEndpoint e, none)
  | .blueGreen plan oldProc =>
    match sproutProcess L a h s.fs plan with
    | (.panic msg, fs1) => (.panicked msg, { s with fs := fs1 }, none)
    | (.error e, fs1) => (.sproutFailed e, { s with fs := fs1 }, none)
    | (.ok newProc, fs1) =>
      (.sprouted newProc, s.withChild fs1 newProc, some (.bgSleep plan oldProc newProc))
  | .bgSleep plan oldProc newProc => (.slept, s, some (.bgRegister plan oldProc newProc))
  | .bgRegister plan oldProc newProc =>
    let e : Endpoint := { AppName := plan.AppName, URL := newProc.URL, NodeID := a.ID }
    (.registered e, s.withEndpoint e, some (.bgRecord plan oldProc newProc))
  | .bgRecord plan oldProc newProc =>
    (.recorded plan.AppName newProc, s.withRecord plan.AppName newProc,
      some (.bgKill plan oldProc newProc))
  | .bgKill _ oldProc _ => (.killed oldProc, s.withoutChild oldProc, none)

/-- A goroutine run on its own for at most `n` steps: each event with the state
after it. -/
def Task.run (L : Lib) (a : Agent) (h : Host) : Nat → AgentState → Task →
    List (Event × AgentState)
  | 0, _, _ => []
  | n + 1, s, t =>
    match t.step L a h s with
    | (ev, s1, none) => [(ev, s1)]
    | (ev, s1, some t1) => (ev, s1) :: Task.run L a h n s1 t1

/-- Go `Agent.launchProcess` (agent.go lines 147 to 167), run without another
goroutine in between: its steps, three at most. -/
def launchProcess (L : Lib) (a : Agent) (h : Host) (s : AgentState) (plan : Plan) :
    List (Event × AgentState) :=
  Task.run L a h 3 s (.launch plan)

/-- Go `Agent.blueGreenDeploy` (agent.go lines 116 to 144), run without another
goroutine in between: its steps, five at most. -/
def blueGreenDeploy (L : Lib) (a : Agent) (h : Host) (s : AgentState) (plan : Plan)
    (oldProc : procInfo) : List (Event × AgentState) :=
  Task.run L a h 5 s (.blueGreen plan oldProc)

/-- The state after the last step of a run, the start state for an empty run. -/
def finalState (s : AgentState) (steps : List (Event × AgentState)) : AgentState :=
  match steps.getLast? with
  | none => s
  | some step => step.2

/-- The state halfway through a `launchProcess` that runs on its own: after the
sprout and the store of the record (agent.go line 155), before the endpoint is
registered (line 160). -/
def launchHalfway (L : Lib) (a : Agent) (h : Host) (s : AgentState) (plan : Plan) :
    AgentState :=
  finalState s (Task.run L a h 2 s (.launch plan))

/-- The state of one interleaving of a launch of `P1` and a rollout to `P2` that
starts halfway through it with `r1` as the old record: the rollout has done its
first four steps, and then the launch has registered its endpoint.  The next
step of the rollout is the kill of `r1`. -/
def rolloutBeforeKill (L : Lib) (a : Agent) (h1 h2 : Host) (s : AgentState) (P1 P2 : Plan)
    (r1 : procInfo) : AgentState :=
  (Task.step L a h1
    (finalState (launchHalfway L a h1 s P1)
      (Task.run L a h2 4 (launchHalfway L a h1 s P1) (.blueGreen P2 r1)))
    (.launchRegister P1 r1)).2.1

/-! ## Runs of the publish and subscribe side -/

/-- A call or a goroutine turn on the publish and subscribe side of the fabric. -/
inductive BusAction where
  | publish (p : Plan)
  | subscribe
  | forward (i : Nat)
  | receive (i : Nat)
deriving DecidableEq, Repr

/-- The fabric together with what the holder of each subscriber channel has
received from it so far. -/
structure Bus where
  fab : Fabric
  received : List (List Plan)
deriving DecidableEq, Repr

/-- Note a plan as received by the holder of the `i`-th channel. -/
def noteReceived (p : Plan) : Nat → List (List Plan) → List (List Plan)
  | _, [] => []
  | 0, l :: rest => (l ++ [p]) :: rest
  | i + 1, l :: rest => l :: noteReceived p i rest

/-- The effect of one action.  The actions of a run may come in any order:
`forward i` is one turn of the goroutine of the `i`-th subscription, `receive i`
one receive by the holder of its channel. -/
def Bus.step (b : Bus) : BusAction → Bus
  | .publish p => { b with fab := b.fab.PublishPlan p }
  | .subscribe => { fab := b.fab.SubscribePlans.2, received := b.received ++ [[]] }
  | .forward i => { b with fab := b.fab.forward i }
  | .receive i =>
    match (b.fab.receive i).1 with
    | none => b
    | some p => { fab := (b.fab.receive i).2, received := noteReceived p i b.received }

/-- A new fabric without subscribers. -/
def Bus.start : Bus := { fab := Fabric.New, received := [] }

/-- The state after a sequence of actions. -/
def Bus.run (b : Bus) (acts : List BusAction) : Bus := acts.foldl Bus.step b

/-! ## A small executable library

A concrete `Lib` on which the definitions above run.  Its hash is a checksum,
its signature is the public key followed by the message, its base64 is base16,
its JSON holds the seven string fields of a manifest one per line, its archive
format is a sequence of length-prefixed names and contents.  It is used to
evaluate the model at concrete inputs. -/

namespace Toy

/-- Bytes of the characters of a string. -/
def strBytes (s : String) : Bytes := s.data.map (fun c => UInt8.ofNat c.toNat)

/-- String of the characters with the given codes. -/
def bytesStr (bs : Bytes) : String := String.mk (bs.map (fun b => Char.ofNat b.toNat))

/-- A two-byte checksum. -/
def sha256 (bs : Bytes) : Bytes :=
  let n := bs.foldl (fun acc b => (acc * 31 + b.toNat + 1) % 65521) 7
  [UInt8.ofNat (n / 256), UInt8.ofNat (n % 256)]

/-- Value of a lowercase hex digit. -/
def hexVal (c : Char) : Option Nat :=
  let i := ['0', '1', '2', '3', '4', '5', '6', '7', '8', '9', 'a', 'b', 'c', 'd', 'e', 'f'].indexOf c
  if i < 16 then some i else none

/-- Base16 decoding of characters. -/
def hexDecode : List Char → Option Bytes
  | [] => some []
  | [_] => none
  | a :: b :: rest =>
    match hexVal a, hexVal b, hexDecode rest with
    | some x, some y, some bs => some (UInt8.ofNat (16 * x + y) :: bs)
    | _, _, _ => none

/-- The seven string fields of a manifest, one per line. -/
def fieldLines (m : Manifest) : Bytes :=
  strBytes (m.Kind ++ "\n" ++ m.Name ++ "\n" ++ m.Version ++ "\n" ++ m.Command ++ "\n"
    ++ m.BinarySHA256 ++ "\n" ++ m.Signature ++ "\n" ++ m.PublicKey)

/-- Parse seven lines into a manifest whose other fields are zero. -/
def parseLines (bs : Bytes) : Option Manifest :=
  match (bs.splitOn 10).map bytesStr with
  | [kind, name, version, command, sha, sig, pk] =>
    some { Kind := kind, Name := name, Version := version, Command := command, Args := [],
           Env := [], Provides := [], Nutrients := ⟨0, 0⟩, SLO := ⟨0⟩, Security := ⟨"", false⟩,
           CreatedAt := 0, BinarySHA256 := sha, Signature := sig, PublicKey := pk }
  | _ => none

/-- Length prefix of two bytes, high byte first. -/
def lenBytes (n : Nat) : Bytes := [UInt8.ofNat (n / 256), UInt8.ofNat (n % 256)]

/-- Archive file content for the given entries. -/
def zipWrite : List (String × Bytes) → Bytes
  | [] => []
  | (name, bs) :: rest =>
    lenBytes name.length ++ strBytes name ++ lenBytes bs.length ++ bs ++ zipWrite rest

/-- Entries of an archive file content; the first argument bounds the number of entries. -/
def zipReadAux : Nat → Bytes → Option (List ZipFile)
  | _, [] => some []
  | 0, _ :: _ => none
  | fuel + 1, a :: b :: rest =>
    let n := a.toNat * 256 + b.toNat
    if rest.length < n then none
    else
      match rest.drop n with
      | c :: d :: rest2 =>
        let k := c.toNat * 256 + d.toNat
        if rest2.length < k then none
        else
          (zipReadAux fuel (rest2.drop k)).map
            (fun es => { Name := bytesStr (rest.take n), body := .data (rest2.take k) } :: es)
      | _ => none
  | _ + 1, [_] => none

/-- The small library. -/
def lib : Lib where
  sha256 := sha256
  b64enc := hexEncode
  b64dec := fun s => hexDecode s.data
  marshal := fun m => some (fieldLines m)
  marshalIndent := fun m => some (32 :: fieldLines m)
  unmarshal := fun bs =>
    match bs with
    | 32 :: rest => parseLines rest
    | _ => parseLines bs
  sign := fun priv msg => publicOf priv ++ msg
  edVerify := fun pk msg sig => sig == pk ++ msg
  zipRead := fun bs => zipReadAux bs.length bs
  zipWrite := zipWrite

/-- A file system with directories `/`, `/in`, `/out`, `/repo` and `/run`. -/
def baseFS (files : List (String × File)) : FS where
  files := fun p => files.lookup p
  dirs := fun p => ["/", "/in", "/out", "/repo", "/run"].contains p

/-- A private key: 64 bytes, all equal. -/
def key (b : UInt8) : Bytes := List.replicate 64 b

/-- A manifest with the given name, command and signature field. -/
def manifest (name command sig : String) : Manifest :=
  { Kind := "", Name := name, Version := "v1", Command := command, Args := [], Env := [],
    Provides := [], Nutrients := ⟨0, 0⟩, SLO := ⟨0⟩, Security := ⟨"", false⟩, CreatedAt := 0,
    BinarySHA256 := "", Signature := sig, PublicKey := "" }

/-- A file system holding one binary, `/in/app`, with content `hi`. -/
def srcFS : FS := baseFS [("/in/app", ⟨[104, 105], 0o755⟩)]

/-- The file system after packing `/in/app` into `/out/a-v1.spore` with `key 1`. -/
def packedFS : FS := (Pack lib 0 srcFS "/in/app" (manifest "a" "a" "") (key 1) "/out").2

/-- The manifest that packing `/in/app` with `key 1` returns. -/
def packedManifest : Manifest :=
  { manifest "a" "a" "010101010101010101010101010101010101010101010101010101010101010100e2" with
    Kind := "Spore", BinarySHA256 := "2768",
    PublicKey := "0101010101010101010101010101010101010101010101010101010101010101" }

/-- A file system holding one archive, at `/repo/x.spore`, with the given
manifest and further entries. -/
def archiveFS (m : Manifest) (entries : List (String × Bytes)) : FS :=
  baseFS [("/repo/x.spore", ⟨zipWrite (("manifest.json", 32 :: fieldLines m) :: entries), 0o644⟩)]

/-- The packed archive, stored at `/repo/x.spore`. -/
def plainFS : FS := archiveFS packedManifest [("binary", [104, 105])]

/-- An archive whose manifest has the right hash and empty `public_key` and
`signature`. -/
def keylessFS : FS :=
  archiveFS { packedManifest with PublicKey := "", Signature := "" } [("binary", [104, 105])]

/-- The packed archive with a third entry named `../evil`. -/
def slipFS : FS := archiveFS packedManifest [("binary", [104, 105]), ("../evil", [1])]

/-- The packed archive with a third entry named `./binary`. -/
def aliasFS : FS := archiveFS packedManifest [("binary", [104, 105]), ("./binary", [1, 2])]

/-- A host on which every step of a sprout succeeds. -/
def host : Host where
  now := 0
  environ := []
  rangeOrder := id
  freePort := some 8080
  abs := some
  start := fun _ => true
  healthy := fun _ => true

/-- A second host: another instant and another free port. -/
def host2 : Host where
  now := 1
  environ := ["PATH=/bin", "PORT=1"]
  rangeOrder := id
  freePort := some 8081
  abs := some
  start := fun _ => true
  healthy := fun _ => true

/-- The packed archive stored in the repository under two digests. -/
def repoFS : FS :=
  baseFS [("/repo/digest001.spore",
      ⟨zipWrite [("manifest.json", 32 :: fieldLines packedManifest), ("binary", [104, 105])], 0o644⟩),
    ("/repo/digest002.spore",
      ⟨zipWrite [("manifest.json", 32 :: fieldLines packedManifest), ("binary", [104, 105])], 0o644⟩)]

/-- The agent `node-1` on the repository `/repo`. -/
def node1 : Agent := { ID := "node-1", Repo := { Dir := "/repo" }, RunDir := "/run" }

/-- A plan for the app `a` with the given digest. -/
def plan (digest : String) : Plan :=
  { AppName := "a", Digest := digest, Min := 1, Max := 1, Port := 0 }

/-- An agent that runs nothing, with a budget of two instances for the app `a`. -/
def idle : AgentState :=
  { procs := [],
    fab := Fabric.New.SetBudget { AppName := "a", MaxInstances := 2, CPUmilli := 0, MemoryMB := 0 },
    fs := repoFS, alive := [] }

/-- The record of the child sprouted from `digest001` on `host`. -/
def child1 : procInfo :=
  { AppName := "a", Digest := "digest001",
    Process := { Path := "/run/a-digest00-0/a", Args := [], Dir := "/run/a-digest00-0",
                 Env := ["PORT=8080"] },
    URL := "http://127.0.0.1:8080", Port := 8080 }

/-- The record of the child sprouted from the given digest on `host2`. -/
def child2 (digest : String) : procInfo :=
  { AppName := "a", Digest := digest,
    Process := { Path := "/run/a-digest00-1/a", Args := [], Dir := "/run/a-digest00-1",
                 Env := ["PATH=/bin", "PORT=1", "PORT=8081"] },
    URL := "http://127.0.0.1:8081", Port := 8081 }

/-- The agent once the child of `digest001` runs and is registered: `idle` after
the whole of `launchProcess`. -/
def running : AgentState :=
  finalState idle (launchProcess lib node1 host idle (plan "digest001"))

/-- The agent in the middle of that launch: the child runs and its record is
stored, its endpoint is not registered yet. -/
def midLaunch : AgentState :=
  finalState idle (Task.run lib node1 host 2 idle (.launch (plan "digest001")))

/-- The agent after `midLaunch`, when a rollout to `digest002` has done all but
its kill and the launch has then registered its endpoint. -/
def beforeKill : AgentState :=
  (Task.step lib node1 host
    (finalState midLaunch
      (Task.run lib node1 host2 4 midLaunch (.blueGreen (plan "digest002") child1)))
    (.launchRegister (plan "digest001") child1)).2.1

/-- The `env` map of a manifest on one line: `k=v` entries with `;` between them. -/
def envLine (env : List (String × String)) : Bytes :=
  strBytes (";".intercalate (env.map (fun kv => kv.1 ++ "=" ++ kv.2)))

/-- The pairs of an `env` line. -/
def parseEnv (bs : Bytes) : List (String × String) :=
  (bs.splitOn 59).filterMap (fun e =>
    match e.splitOn 61 with
    | [k, v] => some (bytesStr k, bytesStr v)
    | _ => none)

/-- The seven string fields of a manifest and its `env` map, one per line. -/
def fieldLinesEnv (m : Manifest) : Bytes := fieldLines m ++ 10 :: envLine m.Env

/-- Parse eight lines into a manifest whose other fields are zero. -/
def parseLinesEnv (bs : Bytes) : Option Manifest :=
  match bs.splitOn 10 with
  | [kind, name, version, command, sha, sig, pk, env] =>
    some { Kind := bytesStr kind, Name := bytesStr name, Version := bytesStr version,
           Command := bytesStr command, Args := [], Env := parseEnv env, Provides := [],
           Nutrients := ⟨0, 0⟩, SLO := ⟨0⟩, Security := ⟨"", false⟩, CreatedAt := 0,
           BinarySHA256 := bytesStr sha, Signature := bytesStr sig, PublicKey := bytesStr pk }
  | _ => none

/-- The small library with a manifest encoding that keeps the `env` map. -/
def libEnv : Lib :=
  { lib with
    marshal := fun m => some (fieldLinesEnv m)
    marshalIndent := fun m => some (32 :: fieldLinesEnv m)
    unmarshal := fun bs =>
      match bs with
      | 32 :: rest => parseLinesEnv rest
      | _ => parseLinesEnv bs }

/-- A manifest that sets `PATH`, `PORT` and `MODE` for the child. -/
def envManifest : Manifest :=
  { manifest "a" "a" "" with Env := [("PATH", "/opt"), ("PORT", "9"), ("MODE", "x")] }

/-- A repository holding, as `digest003`, the archive that `Pack` makes of
`/in/app` and `envManifest` with `key 1`. -/
def envRepoFS : FS :=
  baseFS [("/repo/digest003.spore",
    ⟨((Pack libEnv 0 srcFS "/in/app" envManifest (key 1) "/out").2.read "/out/a-v1.spore").getD [],
      0o644⟩)]

/-- A third host: its parent environment sets `PATH` and `PORT`, and a `range`
over a map visits the pairs in reverse. -/
def host3 : Host := { host2 with rangeOrder := List.reverse }

/-- The manifest that packing `/in/app` and `envManifest` with `key 1` returns. -/
def envPacked : Manifest :=
  { envManifest with
    Kind := "Spore", BinarySHA256 := "2768",
    Signature := "010101010101010101010101010101010101010101010101010101010101010102ad",
    PublicKey := "0101010101010101010101010101010101010101010101010101010101010101" }

/-- The record of the child sprouted from `digest003` on `host3`. -/
def childEnv : procInfo :=
  { AppName := "a", Digest := "digest003",
    Process := { Path := "/run/a-digest00-1/a", Args := [], Dir := "/run/a-digest00-1",
                 Env := ["PATH=/bin", "PORT=1", "MODE=x", "PORT=9", "PATH=/opt", "PORT=8081"] },
    URL := "http://127.0.0.1:8081", Port := 8081 }

/-- A plan for the app `b`. -/
def planB : Plan := { AppName := "b", Digest := "digest001", Min := 1, Max := 1, Port := 0 }

/-- The agent `running` once a budget of one instance is set for the app `b`. -/
def runningB : AgentState :=
  { running with
    fab := running.fab.SetBudget { AppName := "b", MaxInstances := 1, CPUmilli := 0, MemoryMB := 0 } }

/-- A fabric with two endpoints of the app `a`, of the nodes `n1` and `n2`, and a
budget for it. -/
def fabric2 : Fabric :=
  ((Fabric.New.SetBudget { AppName := "a", MaxInstances := 2, CPUmilli := 0, MemoryMB := 0 }
    ).RegisterEndpoint { AppName := "a", URL := "u1", NodeID := "n1" }
    ).RegisterEndpoint { AppName := "a", URL := "u2", NodeID := "n2" }

end Toy

/-! ## Notions used to state the properties -/

/-- The last entry of an archive with the given name. -/
def lastNamed (name : String) : List ZipFile → Option ZipFile
  | [] => none
  | f :: rest =>
    match lastNamed name rest with
    | some e => some e
    | none => if f.Name = name then some f else none

/-- The bytes `Pack` signs and `Verify` checks the signature against: SHA-256 of
the compact JSON of the manifest followed by the hash of the binary. -/
def signingHash (L : Lib) (m : Manifest) (hash : Bytes) : Option Bytes :=
  (L.marshal m).map (fun md => L.sha256 (md ++ hash))

/-- The manifest `Pack` serialises for signing: the input with hash, time, kind
and public key set, and the signature field as the caller passed it. -/
def packFill (L : Lib) (now : Int) (m : Manifest) (priv binaryData : Bytes) : Manifest :=
  { m with BinarySHA256 := hexEncode (L.sha256 binaryData), CreatedAt := now, Kind := "Spore",
           PublicKey := L.b64enc (publicOf priv) }

/-- Base64 decoding gives back the bytes that were encoded. -/
abbrev B64RoundTrips (L : Lib) (x : Bytes) : Prop := L.b64dec (L.b64enc x) = some x

/-- Opening the archive written for these entries lists them, all readable. -/
abbrev ZipRoundTrips (L : Lib) (es : List (String × Bytes)) : Prop :=
  L.zipRead (L.zipWrite es) = some (es.map (fun e => { Name := e.1, body := .data e.2 }))

/-- The archive written for manifest `m` and binary `bd` reads back: opening it
lists its two entries, and the manifest entry parses to `m`. -/
def ArchiveReadsBack (L : Lib) (m : Manifest) (bd : Bytes) : Prop :=
  ∀ md, L.marshalIndent m = some md →
    ZipRoundTrips L [("manifest.json", md), ("binary", bd)] ∧ L.unmarshal md = some m

/-- Two different manifests have different signing hashes over the same binary
hash: the compact JSON tells them apart and SHA-256 does not collide on them. -/
def DigestsDiffer (L : Lib) (hash : Bytes) (m1 m2 : Manifest) : Prop :=
  m1 ≠ m2 → signingHash L m1 hash ≠ signingHash L m2 hash

/-- The signature that `priv` makes over `d` validates only under the public
half of `priv`, and only for the message `d`. -/
def SignatureSound (L : Lib) (priv d : Bytes) : Prop :=
  ∀ pk msg, pk.length = 32 → L.edVerify pk msg (L.sign priv d) = true →
    pk = publicOf priv ∧ msg = d

/-- The key of an environment entry `key=value`: what comes before the first `=`. -/
def envKey (entry : String) : String :=
  String.mk (entry.data.takeWhile (fun c => c ≠ '='))

/-- The entry that counts for a key in the `Env` of an `exec.Cmd`: of several
entries with one key the last is used. -/
def envLast (env : List String) (key : String) : Option String :=
  (env.filter (fun e => decide (envKey e = key))).getLast?

/-- In how many endpoints of a list the node is the given one. -/
def nodeCount (node : String) (l : List Endpoint) : Nat :=
  l.countP (fun ep => decide (ep.NodeID = node))

/-- How many copies of a plan the channels of the fabric and the receivers hold. -/
def copies (p : Plan) (b : Bus) : Nat :=
  b.fab.plans.count p + ((b.fab.subscribers.map (List.count p)).sum
    + (b.received.map (List.count p)).sum)

/-- The last entry of an archive that `Extract` writes to the path of `binary`
in `destDir`: the last one whose name, joined to `destDir`, is that path. -/
def lastJoined (destDir : String) : List ZipFile → Option ZipFile
  | [] => none
  | f :: rest =>
    match lastJoined destDir rest with
    | some e => some e
    | none =>
      if Clean (Join destDir f.Name) = Clean (Join destDir "binary") then some f else none

/-- A path component that `filepath.Clean` keeps as it is: not empty, not `.`,
not `..`, and without a slash. -/
def PlainName (n : List Char) : Prop :=
  '/' ∉ n ∧ n ≠ [] ∧ n ≠ ['.'] ∧ n ≠ ['.', '.']

/-- The part of a cleaned joined path that comes before the last component. -/
def joinHead (a : List Char) : List Char :=
  (if a.head? = some '/' then ['/'] else []) ++
    (if cleanComps a = [] then [] else joinSlash (cleanComps a) ++ ['/'])

/-! ## Lemmas on `Verify` and `Pack` -/

theorem readEntries_binary (files : List ZipFile) :
    ∀ (md0 bd0 md bd : Option Bytes), readEntries files md0 bd0 = .ok (md, bd) →
      (∀ e, lastNamed "binary" files = some e → bd.map EntryBody.data = some e.body) ∧
      (lastNamed "binary" files = none → bd = bd0) := by
  induction files with
  | nil =>
    intro md0 bd0 md bd h
    simp only [readEntries, Except.ok.injEq, Prod.mk.injEq] at h
    simp [lastNamed, h.2]
  | cons f rest ih =>
    intro md0 bd0 md bd h
    unfold readEntries at h
    by_cases hm : f.Name = "manifest.json"
    · have hb : f.Name ≠ "binary" := by rw [hm]; decide
      rw [if_pos hm] at h
      cases hbody : f.body with
      | data bs =>
        rw [hbody] at h
        have := ih _ _ _ _ h
        simp only [lastNamed, hb, if_false]
        refine ⟨?_, ?_⟩
        · intro e he
          cases hl : lastNamed "binary" rest with
          | none => rw [hl] at he; simp at he
          | some e2 =>
            rw [hl] at he
            simp only [Option.some.injEq] at he
            exact this.1 e (by rw [hl, he])
        · intro hn
          cases hl : lastNamed "binary" rest with
          | none => exact this.2 hl
          | some e2 => rw [hl] at hn; simp at hn
      | openFails => rw [hbody] at h; simp at h
      | readFails => rw [hbody] at h; simp at h
    · rw [if_neg hm] at h
      by_cases hb : f.Name = "binary"
      · rw [if_pos hb] at h
        cases hbody : f.body with
        | data bs =>
          rw [hbody] at h
          have := ih _ _ _ _ h
          simp only [lastNamed, hb, if_true]
          refine ⟨?_, ?_⟩
          · intro e he
            cases hl : lastNamed "binary" rest with
            | none =>
              rw [hl] at he
              simp only [Option.some.injEq] at he
              rw [this.2 hl, ← he, hbody]
              rfl
            | some e2 =>
              rw [hl] at he
              simp only [Option.some.injEq] at he
              exact this.1 e (by rw [hl, he])
          · intro hn
            cases hl : lastNamed "binary" rest with
            | none => rw [hl] at hn; simp at hn
            | some e2 => rw [hl] at hn; simp at hn
        | openFails => rw [hbody] at h; simp at h
        | readFails => rw [hbody] at h; simp at h
      · rw [if_neg hb] at h
        have := ih _ _ _ _ h
        simp only [lastNamed, hb, if_false]
        refine ⟨?_, ?_⟩
        · intro e he
          cases hl : lastNamed "binary" rest with
          | none => rw [hl] at he; simp at he
          | some e2 =>
            rw [hl] at he
            simp only [Option.some.injEq] at he
            exact this.1 e (by rw [hl, he])
        · intro hn
          cases hl : lastNamed "binary" rest with
          | none => exact this.2 hl
          | some e2 => rw [hl] at hn; simp at hn

theorem Verify_of_entries (L : Lib) (fs : FS) (p : String) (files : List ZipFile)
    (md bd : Bytes) (ho : openReader L fs p = some files)
    (hr : readEntries files none none = .ok (some md, some bd)) :
    Verify L fs p = verifyData L md bd := by
  simp [Verify, ho, hr]

theorem Verify_ok_inv (L : Lib) (fs : FS) (p : String) (m : Manifest)
    (h : Verify L fs p = .ok m) :
    ∃ files md bd, openReader L fs p = some files ∧
      readEntries files none none = .ok (some md, some bd) ∧ verifyData L md bd = .ok m := by
  unfold Verify at h
  cases ho : openReader L fs p with
  | none => rw [ho] at h; simp at h
  | some files =>
    rw [ho] at h
    simp only at h
    cases hr : readEntries files none none with
    | error e => rw [hr] at h; simp at h
    | ok r =>
      obtain ⟨md, bd⟩ := r
      rw [hr] at h
      cases md with
      | none => simp at h
      | some md =>
        cases bd with
        | none => simp at h
        | some bd => exact ⟨files, md, bd, rfl, hr, h⟩

theorem verifyData_ok_inv (L : Lib) (md bd : Bytes) (m : Manifest)
    (h : verifyData L md bd = .ok m) :
    L.unmarshal md = some m ∧ m.BinarySHA256 = hexEncode (L.sha256 bd) ∧
      ∃ pk sig d, L.b64dec m.PublicKey = some pk ∧ L.b64dec m.Signature = some sig ∧
        signingHash L { m with Signature := "" } (L.sha256 bd) = some d ∧
        pk.length = 32 ∧ L.edVerify pk d sig = true := by
  unfold verifyData at h
  cases hu : L.unmarshal md with
  | none => rw [hu] at h; simp at h
  | some m0 =>
    rw [hu] at h
    simp only at h
    by_cases hh : m0.BinarySHA256 = hexEncode (L.sha256 bd)
    · rw [if_neg (by simpa using hh)] at h
      cases hpk : L.b64dec m0.PublicKey with
      | none => rw [hpk] at h; simp at h
      | some pk =>
        rw [hpk] at h
        cases hsg : L.b64dec m0.Signature with
        | none => rw [hsg] at h; simp at h
        | some sig =>
          rw [hsg] at h
          cases hma : L.marshal { m0 with Signature := "" } with
          | none => rw [hma] at h; simp at h
          | some mws =>
            rw [hma] at h
            simp only [ed25519Verify] at h
            by_cases hlen : pk.length = 32
            · rw [if_neg (by simpa using hlen)] at h
              cases hv : L.edVerify pk (L.sha256 (mws ++ L.sha256 bd)) sig with
              | false => rw [hv] at h; simp at h
              | true =>
                rw [hv] at h
                simp only [Outcome.ok.injEq] at h
                subst h
                exact ⟨rfl, hh, pk, sig, _, hpk, hsg, by simp [signingHash, hma], hlen, hv⟩
            · rw [if_pos (by simpa using hlen)] at h
              simp at h
    · rw [if_pos (by simpa using hh)] at h
      simp at h

theorem publicOf_length (priv : Bytes) : (publicOf priv).length = 32 := by
  simp [publicOf, List.length_take]

theorem read_write_create (fs fs1 : FS) (p : String) (bs : Bytes)
    (hc : fs.create p = some fs1) : (fs1.write p bs).read p = some bs := by
  unfold FS.create at hc
  split at hc
  · simp at hc
  · split at hc <;>
    · simp only [Option.some.injEq] at hc
      subst hc
      simp [FS.write, FS.read, FS.setFile]

theorem Verify_two_entries (L : Lib) (fs : FS) (p : String) (md bd : Bytes)
    (hfile : fs.read p = some (L.zipWrite [("manifest.json", md), ("binary", bd)]))
    (hzip : ZipRoundTrips L [("manifest.json", md), ("binary", bd)]) :
    Verify L fs p = verifyData L md bd := by
  apply Verify_of_entries L fs p
    [⟨"manifest.json", .data md⟩, ⟨"binary", .data bd⟩]
  · simp only [openReader, hfile, Option.some_bind]
    exact hzip
  · simp [readEntries]

theorem verifyData_eval (L : Lib) (md bd pk sg mws : Bytes) (m : Manifest)
    (hu : L.unmarshal md = some m) (hh : m.BinarySHA256 = hexEncode (L.sha256 bd))
    (hpk : L.b64dec m.PublicKey = some pk) (hsg : L.b64dec m.Signature = some sg)
    (hma : L.marshal { m with Signature := "" } = some mws) (hlen : pk.length = 32) :
    verifyData L md bd =
      if L.edVerify pk (L.sha256 (mws ++ L.sha256 bd)) sg = true then .ok m
      else .error .signatureFailed := by
  unfold verifyData
  rw [hu]
  simp only
  rw [if_neg (not_not.mpr hh), hpk]
  simp only
  rw [hsg]
  simp only
  rw [hma]
  simp only [ed25519Verify]
  rw [if_neg (not_not.mpr hlen)]
  cases L.edVerify pk (L.sha256 (mws ++ L.sha256 bd)) sg <;> simp

theorem Pack_ok_inv (L : Lib) (now : Int) (fs fs2 : FS) (binaryPath outDir sporePath : String)
    (m out : Manifest) (priv : Bytes)
    (h : Pack L now fs binaryPath m priv outDir = (.ok (sporePath, out), fs2)) :
    ∃ B d md fs1, fs.read binaryPath = some B ∧ priv.length = 64 ∧
      signingHash L (packFill L now m priv B) (L.sha256 B) = some d ∧
      out = { packFill L now m priv B with Signature := L.b64enc (L.sign priv d) } ∧
      sporePath = Join outDir (m.Name ++ "-" ++ m.Version ++ ".spore") ∧
      L.marshalIndent out = some md ∧ fs.create sporePath = some fs1 ∧
      fs2 = fs1.write sporePath (L.zipWrite [("manifest.json", md), ("binary", B)]) := by
  unfold Pack at h
  split at h
  · simp at h
  · rename_i B hB
    simp only at h
    split at h
    · simp at h
    · split at h
      · simp at h
      · rename_i manifestData hm
        split at h
        · simp at h
        · rename_i h64
          split at h
          · simp at h
          · rename_i fs1 hc
            split at h
            · simp at h
            · rename_i md hmi
              simp only [Prod.mk.injEq, Outcome.ok.injEq] at h
              obtain ⟨⟨hp, ho⟩, hf⟩ := h
              refine ⟨B, L.sha256 (manifestData ++ L.sha256 B), md, fs1, hB, not_not.mp h64, ?_, ?_,
                hp.symm, ?_, ?_, ?_⟩
              · simp only [signingHash, packFill]
                rw [hm]
                rfl
              · rw [← ho]; rfl
              · rw [← ho]; exact hmi
              · rw [← hp]; exact hc
              · rw [← hf, ← hp]

theorem packed_file (L : Lib) (now : Int) (fs fs2 : FS) (binaryPath outDir sporePath : String)
    (m out : Manifest) (priv B d : Bytes)
    (hpack : Pack L now fs binaryPath m priv outDir = (.ok (sporePath, out), fs2))
    (hB : fs.read binaryPath = some B)
    (hd : signingHash L (packFill L now m priv B) (L.sha256 B) = some d) :
    out = { packFill L now m priv B with Signature := L.b64enc (L.sign priv d) } ∧
    priv.length = 64 ∧
    ∃ md, L.marshalIndent out = some md ∧
      fs2.read sporePath = some (L.zipWrite [("manifest.json", md), ("binary", B)]) := by
  obtain ⟨B2, d2, md, fs1, hB2, h64, hd2, ho, _, hmi, hc, hf⟩ :=
    Pack_ok_inv L now fs fs2 binaryPath outDir sporePath m out priv hpack
  rw [hB] at hB2
  simp only [Option.some.injEq] at hB2
  subst hB2
  rw [hd] at hd2
  simp only [Option.some.injEq] at hd2
  subst hd2
  exact ⟨ho, h64, md, hmi, by rw [hf]; exact read_write_create fs fs1 sporePath _ hc⟩

theorem lastNamed_mem (name : String) (files : List ZipFile) (e : ZipFile)
    (h : lastNamed name files = some e) : e ∈ files ∧ e.Name = name := by
  induction files with
  | nil => simp [lastNamed] at h
  | cons f rest ih =>
    unfold lastNamed at h
    cases hl : lastNamed name rest with
    | some e2 =>
      rw [hl] at h
      simp only [Option.some.injEq] at h
      subst h
      exact ⟨List.mem_cons_of_mem _ (ih hl).1, (ih hl).2⟩
    | none =>
      rw [hl] at h
      simp only at h
      split at h
      · rename_i hn
        simp only [Option.some.injEq] at h
        subst h
        exact ⟨List.mem_cons_self _ _, hn⟩
      · simp at h

theorem Verify_ok_binary_entry (L : Lib) (fs : FS) (p : String) (m : Manifest)
    (files : List ZipFile) (h : Verify L fs p = .ok m) (ho : openReader L fs p = some files) :
    ∃ e bd, lastNamed "binary" files = some e ∧ e.body = .data bd := by
  obtain ⟨files2, md, bd, ho2, hr, _⟩ := Verify_ok_inv L fs p m h
  rw [ho] at ho2
  simp only [Option.some.injEq] at ho2
  subst ho2
  have hb := readEntries_binary files none none (some md) (some bd) hr
  cases hl : lastNamed "binary" files with
  | none => have := hb.2 hl; simp at this
  | some e =>
    have he := hb.1 e hl
    simp only [Option.map_some', Option.some.injEq] at he
    exact ⟨e, bd, rfl, he.symm⟩

/-! ## Lemmas on hex and paths -/

theorem hexDigit_inj : ∀ i < 16, ∀ j < 16, hexDigit i = hexDigit j → i = j := by decide

theorem hexDigit_ne_slash (i : Nat) : hexDigit i ≠ '/' := by
  by_cases h : i < 16
  · revert i
    decide
  · have : hexDigit i = '0' := by
      unfold hexDigit
      exact List.getD_eq_default _ _ (by simpa using h)
    rw [this]
    decide

theorem hexByte_inj (a b : UInt8) (h : hexByte a = hexByte b) : a = b := by
  simp only [hexByte, List.cons.injEq, and_true] at h
  have ha : a.toNat < 256 := a.val.isLt
  have hb : b.toNat < 256 := b.val.isLt
  have h1 := hexDigit_inj _ (by omega) _ (by omega) h.1
  have h2 := hexDigit_inj _ (Nat.mod_lt _ (by decide)) _ (Nat.mod_lt _ (by decide)) h.2
  have : a.toNat = b.toNat := by omega
  exact UInt8.ext this

theorem hexChars_inj : ∀ (a b : Bytes), hexChars a = hexChars b → a = b
  | [], [], _ => rfl
  | [], _ :: _, h => by simp [hexChars, hexByte] at h
  | _ :: _, [], h => by simp [hexChars, hexByte] at h
  | x :: xs, y :: ys, h => by
    simp only [hexChars] at h
    have := List.append_inj h (by simp [hexByte])
    rw [hexByte_inj x y this.1, hexChars_inj xs ys this.2]

theorem hexEncode_inj (a b : Bytes) (h : hexEncode a = hexEncode b) : a = b := by
  exact hexChars_inj a b (congrArg String.data h)

theorem hexChars_no_slash (bs : Bytes) : '/' ∉ hexChars bs := by
  induction bs with
  | nil => simp [hexChars]
  | cons b bs ih =>
    simp only [hexChars, hexByte, List.cons_append, List.nil_append, List.mem_cons, not_or]
    exact ⟨fun h => hexDigit_ne_slash _ h.symm, fun h => hexDigit_ne_slash _ h.symm, ih⟩

theorem splitSlash_ne_nil (p : List Char) : splitSlash p ≠ [] := by
  induction p with
  | nil => simp [splitSlash]
  | cons c cs ih =>
    unfold splitSlash
    split
    · simp
    · cases h : splitSlash cs with
      | nil => exact absurd h ih
      | cons w ws => simp [consHead]

theorem splitSlash_cons (c : Char) (cs : List Char) :
    splitSlash (c :: cs) =
      if c = '/' then [] :: splitSlash cs else consHead c (splitSlash cs) := rfl

theorem consHead_append (c : Char) (xs ys : List (List Char)) (h : xs ≠ []) :
    consHead c (xs ++ ys) = consHead c xs ++ ys := by
  cases xs with
  | nil => exact absurd rfl h
  | cons w ws => rfl

theorem splitSlash_append (a b : List Char) :
    splitSlash (a ++ '/' :: b) = splitSlash a ++ splitSlash b := by
  induction a with
  | nil => simp [splitSlash]
  | cons c cs ih =>
    rw [List.cons_append, splitSlash_cons, splitSlash_cons, ih]
    split
    · rfl
    · rw [consHead_append _ _ _ (splitSlash_ne_nil cs)]

theorem splitSlash_plain (n : List Char) (h : '/' ∉ n) : splitSlash n = [n] := by
  induction n with
  | nil => rfl
  | cons c cs ih =>
    simp only [List.mem_cons, not_or] at h
    simp only [splitSlash]
    rw [if_neg (fun hc => h.1 hc.symm), ih h.2]
    rfl

theorem cleanStep_plain (rooted : Bool) (st : List (List Char)) (n : List Char)
    (h : PlainName n) : cleanStep rooted st n = n :: st := by
  simp [cleanStep, h.2.1, h.2.2.1, h.2.2.2]

theorem joinSlash_snoc (st : List (List Char)) (n : List Char) :
    joinSlash (st ++ [n]) = if st = [] then n else joinSlash st ++ '/' :: n := by
  induction st with
  | nil => rfl
  | cons a r ih =>
    cases r with
    | nil => simp [joinSlash]
    | cons b r2 =>
      have ih2 : joinSlash (b :: (r2 ++ [n])) = joinSlash (b :: r2) ++ '/' :: n := by
        simpa using ih
      show a ++ '/' :: joinSlash (b :: (r2 ++ [n])) = _
      rw [ih2]
      simp [joinSlash]

theorem cleanComps_join (a n : List Char) (ha : a ≠ []) (h : PlainName n) :
    cleanComps (a ++ '/' :: n) = cleanComps a ++ [n] := by
  have hhead : (a ++ '/' :: n).head? = a.head? := by
    cases a with
    | nil => exact absurd rfl ha
    | cons c cs => rfl
  simp only [cleanComps, hhead, splitSlash_append, splitSlash_plain n h.1, List.foldl_append,
    List.foldl_cons, List.foldl_nil, cleanStep_plain _ _ n h, List.reverse_cons]

theorem cleanChars_join (a n : List Char) (ha : a ≠ []) (h : PlainName n) :
    cleanChars (a ++ '/' :: n) = joinHead a ++ n := by
  have hhead : (a ++ '/' :: n).head? = a.head? := by
    cases a with
    | nil => exact absurd rfl ha
    | cons c cs => rfl
  simp only [cleanChars, hhead, cleanComps_join a n ha h, joinSlash_snoc, joinHead]
  by_cases hr : a.head? = some '/' <;> by_cases hc : cleanComps a = [] <;> simp [hr, hc]

theorem cleanChars_plain (n : List Char) (h : PlainName n) : cleanChars n = n := by
  have hhead : n.head? ≠ some '/' := by
    cases n with
    | nil => simp
    | cons c cs =>
      have := h.1
      simp only [List.mem_cons, not_or] at this
      simpa using fun hc => this.1 hc.symm
  have hc : cleanComps n = [n] := by
    simp [cleanComps, splitSlash_plain n h.1, cleanStep_plain _ _ n h]
  simp [cleanChars, hhead, hc, joinSlash]

theorem Join_plain_inj (a b1 b2 : String) (h1 : PlainName b1.data) (h2 : PlainName b2.data)
    (h : Join a b1 = Join a b2) : b1 = b2 := by
  have hb1 : b1 ≠ "" := fun hb => h1.2.1 (by rw [hb])
  have hb2 : b2 ≠ "" := fun hb => h2.2.1 (by rw [hb])
  unfold Join at h
  by_cases ha : a = ""
  · rw [if_neg (not_not.mpr ha), if_neg (not_not.mpr ha), if_pos hb1, if_pos hb2] at h
    have h3 := congrArg String.data h
    simp only [Clean, cleanChars_plain _ h1, cleanChars_plain _ h2] at h3
    exact String.ext h3
  · rw [if_pos ha, if_pos ha] at h
    have had : a.data ≠ [] := fun hd => ha (String.ext hd)
    have h3 := congrArg String.data h
    simp only [Clean, String.data_append] at h3
    have e : ∀ b : String, a.data ++ "/".data ++ b.data = a.data ++ '/' :: b.data := by
      intro b; simp
    rw [e, e, cleanChars_join _ _ had h1, cleanChars_join _ _ had h2] at h3
    exact String.ext (List.append_cancel_left h3)

theorem digestName_plain (bs : Bytes) : PlainName (hexEncode bs ++ ".spore").data := by
  have hd : (hexEncode bs ++ ".spore").data = hexChars bs ++ ['.', 's', 'p', 'o', 'r', 'e'] := by
    simp [hexEncode]
  rw [hd]
  refine ⟨?_, ?_, ?_, ?_⟩
  · simp only [List.mem_append, not_or]
    exact ⟨hexChars_no_slash bs, by decide⟩
  · simp
  · intro h
    have := congrArg List.length h
    simp at this
  · intro h
    have := congrArg List.length h
    simp at this

theorem Join_clean_dir (a b : String) (hb : PlainName b.data) (hc : Clean a = a)
    (hdot : a ≠ ".") (hroot : a ≠ "/") : Join a b = a ++ "/" ++ b := by
  have hcd : cleanChars a.data = a.data := congrArg String.data hc
  have ha : a ≠ "" := by
    intro h
    rw [h] at hc
    exact absurd hc (by decide)
  have had : a.data ≠ [] := fun hd => ha (String.ext hd)
  unfold Join
  rw [if_pos ha]
  apply String.ext
  have e : (a ++ "/" ++ b).data = a.data ++ '/' :: b.data := by simp
  simp only [Clean]
  rw [e, cleanChars_join _ _ had hb]
  have : joinHead a.data = a.data ++ ['/'] := by
    unfold joinHead
    unfold cleanChars at hcd
    by_cases hr : a.data.head? = some '/'
    · rw [if_pos hr] at hcd ⊢
      by_cases hcs : cleanComps a.data = []
      · rw [hcs] at hcd
        exact absurd (String.ext hcd.symm : a = "/") hroot
      · rw [if_neg hcs]
        conv_rhs => rw [← hcd]
        simp
    · rw [if_neg hr] at hcd ⊢
      by_cases hcs : cleanComps a.data = []
      · rw [if_pos hcs] at hcd
        exact absurd (String.ext hcd.symm : a = ".") hdot
      · rw [if_neg hcs] at hcd ⊢
        rw [hcd]
        rfl
  rw [this]
  simp

/-! ## Lemmas on the file system -/

theorem setFile_other (fs : FS) (k q : String) (f : Option File) (h : q ≠ k) :
    (fs.setFile k f).files q = fs.files q := by
  simp [FS.setFile, h]

theorem setFile_at (fs : FS) (k : String) (f : Option File) :
    (fs.setFile k f).files k = f := by
  simp [FS.setFile]

theorem create_other (fs fs1 : FS) (p q : String) (hc : fs.create p = some fs1)
    (hq : q ≠ Clean p) : fs1.files q = fs.files q := by
  unfold FS.create at hc
  split at hc
  · simp at hc
  · split at hc <;>
    · simp only [Option.some.injEq] at hc
      subst hc
      exact setFile_other _ _ _ _ hq

theorem create_at (fs fs1 : FS) (p : String) (hc : fs.create p = some fs1) :
    ∃ mode, fs1.files (Clean p) = some ⟨[], mode⟩ := by
  unfold FS.create at hc
  split at hc
  · simp at hc
  · split at hc
    · rename_i f _
      simp only [Option.some.injEq] at hc
      subst hc
      exact ⟨f.mode, setFile_at _ _ _⟩
    · simp only [Option.some.injEq] at hc
      subst hc
      exact ⟨createMode, setFile_at _ _ _⟩

theorem write_other (fs : FS) (p q : String) (bs : Bytes) (hq : q ≠ Clean p) :
    (fs.write p bs).files q = fs.files q := by
  unfold FS.write
  split
  · exact setFile_other _ _ _ _ hq
  · rfl

theorem write_at (fs : FS) (p : String) (bs : Bytes) (f : File)
    (h : fs.files (Clean p) = some f) :
    (fs.write p bs).files (Clean p) = some { f with data := bs } := by
  unfold FS.write
  rw [h]
  exact setFile_at _ _ _

theorem chmod_other (fs fs1 : FS) (p q : String) (mode : Nat)
    (hc : fs.chmod p mode = some fs1) (hq : q ≠ Clean p) : fs1.files q = fs.files q := by
  unfold FS.chmod at hc
  split at hc
  · simp only [Option.some.injEq] at hc
    subst hc
    exact setFile_other _ _ _ _ hq
  · split at hc
    · simp only [Option.some.injEq] at hc
      subst hc
      rfl
    · simp at hc

theorem chmod_at (fs fs1 : FS) (p : String) (mode : Nat) (f : File)
    (hc : fs.chmod p mode = some fs1) (h : fs.files (Clean p) = some f) :
    fs1.files (Clean p) = some { f with mode := mode } := by
  unfold FS.chmod at hc
  rw [h] at hc
  simp only [Option.some.injEq] at hc
  subst hc
  exact setFile_at _ _ _

theorem rename_other (fs fs1 : FS) (old new q : String) (hr : fs.rename old new = some fs1)
    (h1 : q ≠ Clean old) (h2 : q ≠ Clean new) : fs1.files q = fs.files q := by
  unfold FS.rename at hr
  split at hr
  · simp at hr
  · split at hr
    · simp at hr
    · split at hr <;>
      · simp only [Option.some.injEq] at hr
        subst hr
        first
          | rfl
          | rw [setFile_other _ _ _ _ h2, setFile_other _ _ _ _ h1]

theorem rename_at (fs fs1 : FS) (old new : String) (hr : fs.rename old new = some fs1) :
    fs1.files (Clean new) = fs.files (Clean old) := by
  unfold FS.rename at hr
  split at hr
  · simp at hr
  · rename_i f hf
    split at hr
    · simp at hr
    · split at hr
      · rename_i heq
        simp only [Option.some.injEq] at hr
        subst hr
        rw [heq]
      · simp only [Option.some.injEq] at hr
        subst hr
        rw [setFile_at, hf]

theorem mkdirAll_files (fs fs1 : FS) (p : String) (h : fs.mkdirAll p = some fs1) :
    fs1.files = fs.files := by
  unfold FS.mkdirAll at h
  split at h
  · simp at h
  · simp only [Option.some.injEq] at h
    subst h
    rfl

/-! ## Lemmas on `Extract` and `Put` -/

theorem extractEntries_frame (destDir q : String) (files : List ZipFile) :
    ∀ fs : FS, (∀ f ∈ files, q ≠ Clean (Join destDir f.Name)) →
      (extractEntries destDir files fs).2.files q = fs.files q := by
  induction files with
  | nil => intro fs _; rfl
  | cons f rest ih =>
    intro fs hq
    have hf := hq f (List.mem_cons_self _ _)
    have hrest : ∀ g ∈ rest, q ≠ Clean (Join destDir g.Name) :=
      fun g hg => hq g (List.mem_cons_of_mem _ hg)
    rw [extractEntries]
    cases hb : f.body with
    | openFails => rfl
    | readFails =>
      cases hc : fs.create (Join destDir f.Name) with
      | none => rfl
      | some fs1 => exact create_other _ _ _ _ hc hf
    | data bs =>
      cases hc : fs.create (Join destDir f.Name) with
      | none => rfl
      | some fs1 =>
        simp only
        by_cases hn : f.Name = "binary"
        · rw [if_pos hn]
          cases hch : (fs1.write (Join destDir f.Name) bs).chmod (Join destDir f.Name) 0o755 with
          | none =>
            simp only
            rw [write_other _ _ _ _ hf, create_other _ _ _ _ hc hf]
          | some fs3 =>
            simp only
            rw [ih fs3 hrest, chmod_other _ _ _ _ _ hch hf, write_other _ _ _ _ hf,
              create_other _ _ _ _ hc hf]
        · rw [if_neg hn, ih _ hrest, write_other _ _ _ _ hf, create_other _ _ _ _ hc hf]

theorem extractEntries_binary (destDir : String) (files : List ZipFile) :
    ∀ fs fs2 : FS, extractEntries destDir files fs = (none, fs2) →
      (∀ f ∈ files, Clean (Join destDir f.Name) = Clean (Join destDir "binary") →
        f.Name = "binary") →
      (∀ e, lastNamed "binary" files = some e →
        ∃ bd, e.body = .data bd ∧
          fs2.files (Clean (Join destDir "binary")) = some ⟨bd, 0o755⟩) ∧
      (lastNamed "binary" files = none →
        fs2.files (Clean (Join destDir "binary")) = fs.files (Clean (Join destDir "binary"))) := by
  induction files with
  | nil =>
    intro fs fs2 h _
    simp only [extractEntries, Prod.mk.injEq, true_and] at h
    subst h
    simp [lastNamed]
  | cons f rest ih =>
    intro fs fs2 h hal
    have hrest : ∀ g ∈ rest, Clean (Join destDir g.Name) = Clean (Join destDir "binary") →
        g.Name = "binary" := fun g hg => hal g (List.mem_cons_of_mem _ hg)
    rw [extractEntries] at h
    cases hb : f.body with
    | openFails => rw [hb] at h; simp at h
    | readFails =>
      rw [hb] at h
      simp only at h
      cases hc : fs.create (Join destDir f.Name) with
      | none => rw [hc] at h; simp at h
      | some fs1 => rw [hc] at h; simp at h
    | data bs =>
      rw [hb] at h
      simp only at h
      cases hc : fs.create (Join destDir f.Name) with
      | none => rw [hc] at h; simp at h
      | some fs1 =>
        rw [hc] at h
        simp only at h
        by_cases hn : f.Name = "binary"
        · rw [if_pos hn] at h
          cases hch : (fs1.write (Join destDir f.Name) bs).chmod (Join destDir f.Name) 0o755 with
          | none => rw [hch] at h; simp at h
          | some fs3 =>
            rw [hch] at h
            simp only at h
            have hih := ih fs3 fs2 h hrest
            obtain ⟨mode, hcr⟩ := create_at fs fs1 _ hc
            have hw := write_at fs1 (Join destDir f.Name) bs _ hcr
            have h3 := chmod_at _ fs3 (Join destDir f.Name) 0o755 _ hch hw
            rw [hn] at h3
            simp only [lastNamed, hn, if_true]
            cases hl : lastNamed "binary" rest with
            | some e2 =>
              simp only [Option.some.injEq, reduceCtorEq, false_implies, and_true]
              intro e he
              exact hih.1 e (by rw [hl, he])
            | none =>
              simp only [Option.some.injEq, reduceCtorEq, false_implies, and_true]
              intro e he
              subst he
              exact ⟨bs, hb, by rw [hih.2 hl, h3]⟩
        · rw [if_neg hn] at h
          have hih := ih _ fs2 h hrest
          have hk : Clean (Join destDir "binary") ≠ Clean (Join destDir f.Name) :=
            fun hk => hn (hal f (List.mem_cons_self _ _) hk.symm)
          simp only [lastNamed, hn, if_false]
          cases hl : lastNamed "binary" rest with
          | some e2 =>
            simp only [Option.some.injEq, reduceCtorEq, false_implies, and_true]
            intro e he
            exact hih.1 e (by rw [hl, he])
          | none =>
            simp only [reduceCtorEq, false_implies, implies_true, true_and]
            rw [hih.2 hl, write_other _ _ _ _ hk, create_other _ _ _ _ hc hk]
            exact fun _ => rfl

theorem lastJoined_none (destDir : String) (files : List ZipFile)
    (h : lastJoined destDir files = none) :
    ∀ f ∈ files, Clean (Join destDir f.Name) ≠ Clean (Join destDir "binary") := by
  induction files with
  | nil => intro f hf; cases hf
  | cons g rest ih =>
    unfold lastJoined at h
    cases hl : lastJoined destDir rest with
    | some e => rw [hl] at h; simp at h
    | none =>
      rw [hl] at h
      simp only at h
      intro f hf
      rcases List.mem_cons.mp hf with hfg | hfr
      · subst hfg
        intro hj
        rw [if_pos hj] at h
        cases h
      · exact ih hl f hfr

theorem lastJoined_named (destDir : String) (files : List ZipFile) (e : ZipFile)
    (h : lastJoined destDir files = some e) (hn : e.Name = "binary") :
    lastNamed "binary" files = some e := by
  induction files with
  | nil => simp [lastJoined] at h
  | cons g rest ih =>
    unfold lastJoined at h
    unfold lastNamed
    cases hl : lastJoined destDir rest with
    | some e2 =>
      rw [hl] at h
      simp only [Option.some.injEq] at h
      subst h
      rw [ih hl]
    | none =>
      rw [hl] at h
      simp only at h
      split at h
      · simp only [Option.some.injEq] at h
        subst h
        cases hr : lastNamed "binary" rest with
        | none => simp [hn]
        | some e3 =>
          obtain ⟨hmem, hname⟩ := lastNamed_mem "binary" rest e3 hr
          exact absurd (by rw [hname]) (lastJoined_none destDir rest hl e3 hmem)
      · cases h

theorem extractEntries_last_joined (destDir : String) (files : List ZipFile) :
    ∀ fs fs2 : FS, extractEntries destDir files fs = (none, fs2) →
      (∀ e, lastJoined destDir files = some e →
        ∃ bd mode, e.body = .data bd ∧
          fs2.files (Clean (Join destDir "binary")) = some ⟨bd, mode⟩ ∧
          (e.Name = "binary" → mode = 0o755)) ∧
      (lastJoined destDir files = none →
        fs2.files (Clean (Join destDir "binary")) = fs.files (Clean (Join destDir "binary"))) := by
  induction files with
  | nil =>
    intro fs fs2 h
    simp only [extractEntries, Prod.mk.injEq, true_and] at h
    subst h
    simp [lastJoined]
  | cons f rest ih =>
    intro fs fs2 h
    rw [extractEntries] at h
    cases hb : f.body with
    | openFails => rw [hb] at h; simp at h
    | readFails =>
      rw [hb] at h
      simp only at h
      cases hc : fs.create (Join destDir f.Name) with
      | none => rw [hc] at h; simp at h
      | some fs1 => rw [hc] at h; simp at h
    | data bs =>
      rw [hb] at h
      simp only at h
      cases hc : fs.create (Join destDir f.Name) with
      | none => rw [hc] at h; simp at h
      | some fs1 =>
        rw [hc] at h
        simp only at h
        obtain ⟨mode, hcr⟩ := create_at fs fs1 _ hc
        have hw := write_at fs1 (Join destDir f.Name) bs _ hcr
        by_cases hn : f.Name = "binary"
        · rw [if_pos hn] at h
          cases hch : (fs1.write (Join destDir f.Name) bs).chmod (Join destDir f.Name) 0o755 with
          | none => rw [hch] at h; simp at h
          | some fs3 =>
            rw [hch] at h
            simp only at h
            have hih := ih fs3 fs2 h
            have h3 := chmod_at _ fs3 (Join destDir f.Name) 0o755 _ hch hw
            rw [hn] at h3
            unfold lastJoined
            cases hl : lastJoined destDir rest with
            | some e2 =>
              simp only [Option.some.injEq, reduceCtorEq, false_implies, and_true]
              intro e he
              exact hih.1 e (by rw [hl, he])
            | none =>
              simp only [hn, if_true, Option.some.injEq, reduceCtorEq, false_implies, and_true]
              intro e he
              subst he
              exact ⟨bs, 0o755, hb, by rw [hih.2 hl, h3], fun _ => rfl⟩
        · rw [if_neg hn] at h
          have hih := ih _ fs2 h
          unfold lastJoined
          cases hl : lastJoined destDir rest with
          | some e2 =>
            simp only [Option.some.injEq, reduceCtorEq, false_implies, and_true]
            intro e he
            exact hih.1 e (by rw [hl, he])
          | none =>
            simp only
            by_cases hj : Clean (Join destDir f.Name) = Clean (Join destDir "binary")
            · rw [if_pos hj]
              simp only [Option.some.injEq, reduceCtorEq, false_implies, and_true]
              intro e he
              subst he
              rw [hj] at hw
              exact ⟨bs, mode, hb, by rw [hih.2 hl, hw], fun h2 => absurd h2 hn⟩
            · rw [if_neg hj]
              simp only [reduceCtorEq, false_implies, implies_true, true_and]
              have hk : Clean (Join destDir "binary") ≠ Clean (Join destDir f.Name) :=
                fun hk => hj hk.symm
              rw [hih.2 hl, write_other _ _ _ _ hk, create_other _ _ _ _ hc hk]
              exact fun _ => rfl

theorem Put_ok_inv (L : Lib) (r : Repo) (fs : FS) (p d s : String)
    (h : (r.Put L fs p).1 = .ok (d, s)) :
    ∃ c, fs.read p = some c ∧ d = hexEncode (L.sha256 c) ∧ s = Join r.Dir (d ++ ".spore") := by
  unfold Repo.Put at h
  split at h
  · simp at h
  · split at h
    · simp at h
    · rename_i c hc
      simp only at h
      split at h
      · simp at h
      · simp only [Outcome.ok.injEq, Prod.mk.injEq] at h
        exact ⟨c, hc, h.1.symm, by rw [← h.2, ← h.1]⟩

/-! ## Facts about the small library -/

theorem Toy.signature_sound (priv d : Bytes) : SignatureSound Toy.lib priv d := by
  intro pk msg hlen h
  have h2 : publicOf priv ++ d = pk ++ msg := by simpa [Toy.lib] using h
  have := List.append_inj h2 ((publicOf_length priv).trans hlen.symm)
  exact ⟨this.1.symm, this.2.symm⟩

/-- The run of `Pack` on the small library that the concrete checks start from. -/
theorem Toy.pack_run :
    Pack Toy.lib 0 Toy.srcFS "/in/app" (Toy.manifest "a" "a" "") (Toy.key 1) "/out" =
      (.ok ("/out/a-v1.spore", Toy.packedManifest), Toy.packedFS) := by
  set_option maxRecDepth 1000000 in
  exact Prod.ext (by decide) rfl

/-- Reading back holds on the small library wherever both of its parts evaluate. -/
theorem Toy.reads_back (m : Manifest) (bd : Bytes)
    (hz : ZipRoundTrips Toy.lib [("manifest.json", 32 :: Toy.fieldLines m), ("binary", bd)])
    (hu : Toy.lib.unmarshal (32 :: Toy.fieldLines m) = some m) :
    ArchiveReadsBack Toy.lib m bd := by
  intro md h
  simp only [Toy.lib, Option.some.injEq] at h
  subst h
  exact ⟨hz, hu⟩

/-! ## Lemmas on the copy made by `Put` -/

theorem Put_ok_fs (L : Lib) (r : Repo) (fs : FS) (p d s : String)
    (h : (r.Put L fs p).1 = .ok (d, s)) :
    ∃ c fs1 bs, fs.read p = some c ∧ d = hexEncode (L.sha256 c) ∧
      s = Join r.Dir (d ++ ".spore") ∧ fs.create s = some fs1 ∧ fs1.read p = some bs ∧
      (r.Put L fs p).2 = fs1.write s bs := by
  unfold Repo.Put at h ⊢
  split at h
  · simp at h
  · rename_i hex
    rw [if_neg hex]
    split at h
    · simp at h
    · rename_i c hc
      simp only at h
      rw [hc]
      simp only
      unfold Repo.copyFile at h ⊢
      rw [if_neg hex] at h ⊢
      cases hcr : fs.create (Join r.Dir (hexEncode (L.sha256 c) ++ ".spore")) with
      | none => rw [hcr] at h; simp at h
      | some fs1 =>
        rw [hcr] at h
        simp only at h ⊢
        cases hrd : fs1.read p with
        | none => rw [hrd] at h; simp at h
        | some bs =>
          rw [hrd] at h
          simp only [Outcome.ok.injEq, Prod.mk.injEq] at h
          obtain ⟨hd, hs⟩ := h
          subst hd
          subst hs
          exact ⟨c, fs1, bs, rfl, rfl, rfl, hcr, hrd, rfl⟩

theorem put_stores_copy (L : Lib) (r : Repo) (fs : FS) (p d s : String) (c : Bytes)
    (hc : fs.read p = some c) (hput : (r.Put L fs p).1 = .ok (d, s))
    (hne : Clean p ≠ Clean s) : (r.Put L fs p).2.read s = some c := by
  obtain ⟨c2, fs1, bs, hc2, _, _, hcr, hrd, hfs⟩ := Put_ok_fs L r fs p d s hput
  rw [hfs, read_write_create fs fs1 s bs hcr]
  have : fs1.read p = fs.read p := by
    simp only [FS.read, create_other fs fs1 s (Clean p) hcr hne]
  rw [this, hc] at hrd
  exact hrd.symm

/-! ## Lemmas on the fabric -/

theorem mapGet_mapSet_same {V : Type} (m : List (String × V)) (k : String) (v : V) :
    mapGet (mapSet m k v) k = some v := by
  induction m with
  | nil => simp [mapSet, mapGet]
  | cons kv rest ih =>
    obtain ⟨k1, v1⟩ := kv
    by_cases h : k1 = k
    · simp [mapSet, mapGet, h]
    · simp [mapSet, mapGet, h, ih]

theorem mapGet_mapSet_other {V : Type} (m : List (String × V)) (k k2 : String) (v : V)
    (hne : k2 ≠ k) : mapGet (mapSet m k v) k2 = mapGet m k2 := by
  induction m with
  | nil => simp [mapSet, mapGet, hne.symm]
  | cons kv rest ih =>
    obtain ⟨k1, v1⟩ := kv
    by_cases h : k1 = k
    · have h2 : k1 ≠ k2 := fun h3 => hne (h3.symm.trans h)
      simp only [mapSet, h, if_true, mapGet]
      rw [if_neg hne.symm, if_neg hne.symm]
    · by_cases h2 : k1 = k2
      · subst h2
        simp only [mapSet, h, if_false, mapGet, if_true]
      · simp only [mapSet, h, if_false, mapGet, h2, ih]

theorem Endpoints_eq_getD (f : Fabric) (app : String) :
    f.Endpoints app = (mapGet f.endpoints app).getD [] := by
  unfold Fabric.Endpoints
  cases mapGet f.endpoints app <;> rfl

theorem Register_endpoints (f : Fabric) (e : Endpoint) :
    (f.RegisterEndpoint e).endpoints =
      mapSet f.endpoints e.AppName
        (match replaceNode e (f.Endpoints e.AppName) with
          | some replaced => replaced
          | none => f.Endpoints e.AppName ++ [e]) := by
  rw [Endpoints_eq_getD]
  unfold Fabric.RegisterEndpoint
  simp only
  split <;> rfl

theorem Endpoints_Register_same (f : Fabric) (e : Endpoint) :
    (f.RegisterEndpoint e).Endpoints e.AppName =
      match replaceNode e (f.Endpoints e.AppName) with
      | some replaced => replaced
      | none => f.Endpoints e.AppName ++ [e] := by
  rw [Endpoints_eq_getD, Register_endpoints, mapGet_mapSet_same]
  rfl

theorem Endpoints_Register_other (f : Fabric) (e : Endpoint) (app : String)
    (hne : app ≠ e.AppName) : (f.RegisterEndpoint e).Endpoints app = f.Endpoints app := by
  rw [Endpoints_eq_getD, Register_endpoints, mapGet_mapSet_other _ _ _ _ hne,
    ← Endpoints_eq_getD]

theorem replaceNode_none (e : Endpoint) (l : List Endpoint) :
    replaceNode e l = none ↔ ∀ ep ∈ l, ep.NodeID ≠ e.NodeID := by
  induction l with
  | nil => simp [replaceNode]
  | cons ep rest ih =>
    by_cases h : ep.NodeID = e.NodeID
    · simp [replaceNode, h]
    · simp [replaceNode, h, ih]

theorem replaceNode_some (e : Endpoint) (l r : List Endpoint) (h : replaceNode e l = some r) :
    r = l.set (l.findIdx (fun ep => decide (ep.NodeID = e.NodeID))) e ∧
      l.findIdx (fun ep => decide (ep.NodeID = e.NodeID)) < l.length := by
  induction l generalizing r with
  | nil => simp [replaceNode] at h
  | cons ep rest ih =>
    by_cases hn : ep.NodeID = e.NodeID
    · simp only [replaceNode, hn, if_true, Option.some.injEq] at h
      subst h
      simp [List.findIdx_cons, hn]
    · simp only [replaceNode, hn, if_false, Option.map_eq_some'] at h
      obtain ⟨r2, hr2, hr⟩ := h
      subst hr
      obtain ⟨h1, h2⟩ := ih r2 hr2
      simp [List.findIdx_cons, hn, ← h1, h2]

theorem replaceNode_mem (e : Endpoint) (l r : List Endpoint) (h : replaceNode e l = some r) :
    e ∈ r := by
  induction l generalizing r with
  | nil => simp [replaceNode] at h
  | cons ep rest ih =>
    by_cases hn : ep.NodeID = e.NodeID
    · simp only [replaceNode, hn, if_true, Option.some.injEq] at h
      subst h
      simp
    · simp only [replaceNode, hn, if_false, Option.map_eq_some'] at h
      obtain ⟨r2, hr2, hr⟩ := h
      subst hr
      exact List.mem_cons_of_mem _ (ih r2 hr2)

theorem countP_replaceNode (e : Endpoint) (node : String) (l r : List Endpoint)
    (h : replaceNode e l = some r) :
    r.countP (fun ep => decide (ep.NodeID = node)) =
      l.countP (fun ep => decide (ep.NodeID = node)) := by
  induction l generalizing r with
  | nil => simp [replaceNode] at h
  | cons ep rest ih =>
    by_cases hn : ep.NodeID = e.NodeID
    · simp only [replaceNode, hn, if_true, Option.some.injEq] at h
      subst h
      simp [List.countP_cons, hn]
    · simp only [replaceNode, hn, if_false, Option.map_eq_some'] at h
      obtain ⟨r2, hr2, hr⟩ := h
      subst hr
      simp [List.countP_cons, ih r2 hr2]

theorem Register_keeps_unique (f : Fabric) (e : Endpoint)
    (hf : ∀ app node, (f.Endpoints app).countP (fun ep => decide (ep.NodeID = node)) ≤ 1) :
    ∀ app node,
      ((f.RegisterEndpoint e).Endpoints app).countP (fun ep => decide (ep.NodeID = node)) ≤ 1 := by
  intro app node
  by_cases ha : app = e.AppName
  · subst ha
    rw [Endpoints_Register_same]
    cases hr : replaceNode e (f.Endpoints e.AppName) with
    | some r =>
      simp only
      rw [countP_replaceNode e node _ r hr]
      exact hf _ _
    | none =>
      simp only [List.countP_append, List.countP_cons, List.countP_nil]
      by_cases hn : e.NodeID = node
      · have h0 : (f.Endpoints e.AppName).countP (fun ep => decide (ep.NodeID = node)) = 0 := by
          rw [List.countP_eq_zero]
          intro ep hep
          have := (replaceNode_none e _).mp hr ep hep
          simpa [← hn] using this
        simp [h0, hn]
      · have := hf e.AppName node
        simp [hn]
        exact this
  · rw [Endpoints_Register_other f e app ha]
    exact hf _ _

theorem nodeCount_Register_same (f : Fabric) (e : Endpoint) :
    nodeCount e.NodeID ((f.RegisterEndpoint e).Endpoints e.AppName) =
      max 1 (nodeCount e.NodeID (f.Endpoints e.AppName)) := by
  unfold nodeCount
  rw [Endpoints_Register_same]
  cases hr : replaceNode e (f.Endpoints e.AppName) with
  | some r =>
    simp only
    rw [countP_replaceNode e e.NodeID _ r hr]
    have hex : ¬ ∀ ep ∈ f.Endpoints e.AppName, ep.NodeID ≠ e.NodeID := by
      intro hall
      rw [(replaceNode_none e _).mpr hall] at hr
      cases hr
    have hpos : 0 < (f.Endpoints e.AppName).countP (fun ep => decide (ep.NodeID = e.NodeID)) := by
      rw [List.countP_pos_iff]
      by_contra hno
      apply hex
      intro ep hep heq
      exact hno ⟨ep, hep, by simpa using heq⟩
    omega
  | none =>
    have h0 : (f.Endpoints e.AppName).countP (fun ep => decide (ep.NodeID = e.NodeID)) = 0 := by
      rw [List.countP_eq_zero]
      intro ep hep
      simpa using (replaceNode_none e _).mp hr ep hep
    simp [List.countP_append, h0]

theorem mem_Register_same (f : Fabric) (e : Endpoint) :
    e ∈ (f.RegisterEndpoint e).Endpoints e.AppName := by
  rw [Endpoints_Register_same]
  cases hr : replaceNode e (f.Endpoints e.AppName) with
  | some r => exact replaceNode_mem e _ r hr
  | none => simp

theorem unique_of_countP_le_one {α : Type} (p : α → Bool) (l : List α)
    (h : l.countP p ≤ 1) (x y : α) (hx : x ∈ l) (hy : y ∈ l) (hpx : p x = true)
    (hpy : p y = true) : x = y := by
  induction l with
  | nil => cases hx
  | cons z rest ih =>
    rw [List.countP_cons] at h
    rcases List.mem_cons.mp hx with hxz | hxr
    · rcases List.mem_cons.mp hy with hyz | hyr
      · rw [hxz, hyz]
      · have hpos : 0 < rest.countP p := List.countP_pos_iff.mpr ⟨y, hyr, hpy⟩
        subst hxz
        simp only [hpx, if_true] at h
        omega
    · rcases List.mem_cons.mp hy with hyz | hyr
      · have hpos : 0 < rest.countP p := List.countP_pos_iff.mpr ⟨x, hxr, hpx⟩
        subst hyz
        simp only [hpy, if_true] at h
        omega
      · exact ih (by omega) hxr hyr

/-! ## Lemmas on the agent -/

theorem handlePlan_launch (s : AgentState) (P : Plan) (b : Budget)
    (hnone : mapGet s.procs P.AppName = none) (hb : s.fab.GetBudget P.AppName = some b)
    (hroom : (s.procs.length : Int) < b.MaxInstances) :
    handlePlan s P = (s, some (.launch P)) := by
  simp [handlePlan, hnone, hb, hroom]

theorem launch_ok (L : Lib) (a : Agent) (h : Host) (s : AgentState) (plan : Plan)
    (proc : procInfo) (fs1 : FS) (hs : sproutProcess L a h s.fs plan = (.ok proc, fs1)) :
    launchProcess L a h s plan =
      [(.sprouted proc, s.withChild fs1 proc),
        (.recorded plan.AppName proc, (s.withChild fs1 proc).withRecord plan.AppName proc),
        (.registered { AppName := plan.AppName, URL := proc.URL, NodeID := a.ID },
          ((s.withChild fs1 proc).withRecord plan.AppName proc).withEndpoint
            { AppName := plan.AppName, URL := proc.URL, NodeID := a.ID })] := by
  simp [launchProcess, Task.run, Task.step, hs]

theorem blueGreen_ok (L : Lib) (a : Agent) (h : Host) (s : AgentState) (plan : Plan)
    (oldProc newProc : procInfo) (fs1 : FS)
    (hs : sproutProcess L a h s.fs plan = (.ok newProc, fs1)) :
    blueGreenDeploy L a h s plan oldProc =
      [(.sprouted newProc, s.withChild fs1 newProc),
        (.slept, s.withChild fs1 newProc),
        (.registered { AppName := plan.AppName, URL := newProc.URL, NodeID := a.ID },
          (s.withChild fs1 newProc).withEndpoint
            { AppName := plan.AppName, URL := newProc.URL, NodeID := a.ID }),
        (.recorded plan.AppName newProc,
          ((s.withChild fs1 newProc).withEndpoint
            { AppName := plan.AppName, URL := newProc.URL, NodeID := a.ID }).withRecord
              plan.AppName newProc),
        (.killed oldProc,
          (((s.withChild fs1 newProc).withEndpoint
            { AppName := plan.AppName, URL := newProc.URL, NodeID := a.ID }).withRecord
              plan.AppName newProc).withoutChild oldProc)] := by
  simp [blueGreenDeploy, Task.run, Task.step, hs]

theorem launchHalfway_ok (L : Lib) (a : Agent) (h : Host) (s : AgentState) (plan : Plan)
    (proc : procInfo) (fs1 : FS) (hs : sproutProcess L a h s.fs plan = (.ok proc, fs1)) :
    Task.run L a h 2 s (.launch plan) =
        [(.sprouted proc, s.withChild fs1 proc),
          (.recorded plan.AppName proc, (s.withChild fs1 proc).withRecord plan.AppName proc)] ∧
      launchHalfway L a h s plan = (s.withChild fs1 proc).withRecord plan.AppName proc := by
  have h1 : Task.run L a h 2 s (.launch plan) =
      [(.sprouted proc, s.withChild fs1 proc),
        (.recorded plan.AppName proc, (s.withChild fs1 proc).withRecord plan.AppName proc)] := by
    simp [Task.run, Task.step, hs]
  refine ⟨h1, ?_⟩
  unfold launchHalfway
  rw [h1]
  rfl

theorem blueGreen_four_ok (L : Lib) (a : Agent) (h : Host) (s : AgentState) (plan : Plan)
    (oldProc newProc : procInfo) (fs1 : FS)
    (hs : sproutProcess L a h s.fs plan = (.ok newProc, fs1)) :
    Task.run L a h 4 s (.blueGreen plan oldProc) =
      [(.sprouted newProc, s.withChild fs1 newProc),
        (.slept, s.withChild fs1 newProc),
        (.registered { AppName := plan.AppName, URL := newProc.URL, NodeID := a.ID },
          (s.withChild fs1 newProc).withEndpoint
            { AppName := plan.AppName, URL := newProc.URL, NodeID := a.ID }),
        (.recorded plan.AppName newProc,
          ((s.withChild fs1 newProc).withEndpoint
            { AppName := plan.AppName, URL := newProc.URL, NodeID := a.ID }).withRecord
              plan.AppName newProc)] := by
  simp [Task.run, Task.step, hs]

theorem sprout_ok_inv (L : Lib) (a : Agent) (h : Host) (fs fs1 : FS) (plan : Plan)
    (proc : procInfo) (hs : sproutProcess L a h fs plan = (.ok proc, fs1)) :
    ∃ m port, Verify L fs (a.Repo.Path plan.Digest) = .ok m ∧ h.freePort = some port ∧
      proc.AppName = plan.AppName ∧ proc.Digest = plan.Digest ∧ proc.Port = port ∧
      proc.URL = "http://127.0.0.1:" ++ toString port ∧
      proc.Process.Args = m.Args ∧
      proc.Process.Env = h.environ
        ++ (h.rangeOrder m.Env).map (fun kv => kv.1 ++ "=" ++ kv.2)
        ++ ["PORT=" ++ toString port] := by
  unfold sproutProcess at hs
  simp only at hs
  split at hs
  · simp at hs
  · split at hs
    · simp at hs
    · simp at hs
    · rename_i m hv
      split at hs
      · simp at hs
      · split at hs
        · simp at hs
        · simp at hs
        · split at hs
          · simp at hs
          · rename_i port hp
            split at hs
            · simp at hs
            · split at hs
              · simp at hs
              · split at hs
                · simp at hs
                · simp only [Prod.mk.injEq, Outcome.ok.injEq] at hs
                  obtain ⟨hp2, _⟩ := hs
                  subst hp2
                  exact ⟨m, port, hv, hp, rfl, rfl, rfl, rfl, rfl, rfl⟩

theorem envKey_port (x : String) : envKey ("PORT=" ++ x) = "PORT" := by
  have : ("PORT=" ++ x).data = 'P' :: 'O' :: 'R' :: 'T' :: '=' :: x.data := by
    simp [String.data_append]
  unfold envKey
  rw [this]
  rfl

/-! ## Lemmas on the publish and subscribe side -/

theorem sum_sendTo (p q : Plan) (i : Nat) (subs : List (List Plan)) :
    ((sendTo q i subs).map (List.count p)).sum ≤
      (subs.map (List.count p)).sum + (if q = p then 1 else 0) := by
  induction subs generalizing i with
  | nil => simp [sendTo]
  | cons ch rest ih =>
    cases i with
    | zero =>
      simp only [sendTo]
      split
      · simp only [List.map_cons, List.sum_cons, List.count_append, List.count_singleton]
        by_cases hq : q = p
        · simp [hq]; omega
        · have : (q == p) = false := by simpa using hq
          simp [hq, this]
      · simp
    | succ j =>
      simp only [sendTo, List.map_cons, List.sum_cons]
      have := ih j
      omega

theorem sum_recvFrom (p : Plan) (i : Nat) (subs : List (List Plan)) :
    (((recvFrom i subs).2).map (List.count p)).sum +
        (match (recvFrom i subs).1 with
          | some q => if q = p then 1 else 0
          | none => 0) =
      (subs.map (List.count p)).sum := by
  induction subs generalizing i with
  | nil => simp [recvFrom]
  | cons ch rest ih =>
    cases i with
    | zero =>
      cases ch with
      | nil => simp [recvFrom]
      | cons q qs =>
        simp only [recvFrom, List.map_cons, List.sum_cons, List.count_cons]
        by_cases hq : q = p
        · simp [hq]; omega
        · have : (q == p) = false := by simpa using hq
          simp [hq, this]
    | succ j =>
      simp only [recvFrom, List.map_cons, List.sum_cons]
      have := ih j
      omega

theorem sum_noteReceived (p q : Plan) (i : Nat) (rs : List (List Plan)) :
    ((noteReceived q i rs).map (List.count p)).sum ≤
      (rs.map (List.count p)).sum + (if q = p then 1 else 0) := by
  induction rs generalizing i with
  | nil => simp [noteReceived]
  | cons l rest ih =>
    cases i with
    | zero =>
      simp only [noteReceived, List.map_cons, List.sum_cons, List.count_append,
        List.count_singleton]
      by_cases hq : q = p
      · simp [hq]; omega
      · have : (q == p) = false := by simpa using hq
        simp [hq, this]
    | succ j =>
      simp only [noteReceived, List.map_cons, List.sum_cons]
      have := ih j
      omega

theorem copies_step (p : Plan) (b : Bus) (act : BusAction) :
    copies p (b.step act) ≤ copies p b + (if act = .publish p then 1 else 0) := by
  cases act with
  | publish q =>
    simp only [Bus.step, copies, Fabric.PublishPlan]
    split
    · simp only [List.count_append, List.count_singleton, BusAction.publish.injEq]
      by_cases hq : q = p
      · simp [hq]; omega
      · have : (q == p) = false := by simpa using hq
        simp [hq, this]
    · omega
  | subscribe =>
    simp [Bus.step, copies, Fabric.SubscribePlans]
  | forward i =>
    simp only [Bus.step, copies, Fabric.forward, reduceCtorEq, if_false, Nat.add_zero]
    cases hpl : b.fab.plans with
    | nil => simp [hpl]
    | cons q rest =>
      simp only
      split
      · simp only [List.count_cons]
        have := sum_sendTo p q i b.fab.subscribers
        by_cases hq : q = p
        · simp [hq] at this ⊢; omega
        · have h2 : (q == p) = false := by simpa using hq
          simp [hq, h2] at this ⊢; omega
      · simp [hpl]
  | receive i =>
    simp only [Bus.step, copies, Fabric.receive, reduceCtorEq, if_false, Nat.add_zero]
    have h1 := sum_recvFrom p i b.fab.subscribers
    cases hr : (recvFrom i b.fab.subscribers).1 with
    | none => simp
    | some q =>
      rw [hr] at h1
      simp only at h1 ⊢
      have h2 := sum_noteReceived p q i b.received
      omega

theorem copies_run (p : Plan) (acts : List BusAction) :
    ∀ b : Bus, copies p (b.run acts) ≤ copies p b + acts.count (.publish p) := by
  induction acts with
  | nil => intro b; simp [Bus.run]
  | cons act rest ih =>
    intro b
    have h1 := ih (b.step act)
    have h2 := copies_step p b act
    simp only [Bus.run, List.foldl_cons] at h1 ⊢
    rw [List.count_cons]
    by_cases ha : act = .publish p
    · simp only [ha, if_true, beq_self_eq_true] at h2 ⊢
      rw [ha] at h1
      omega
    · have hb : (act == BusAction.publish p) = false := by simpa using ha
      simp only [ha, if_false, hb, Nat.add_zero] at h2 ⊢
      simp only [Bool.false_eq_true, if_false, Nat.add_zero]
      omega

theorem holders_le_sum (p : Plan) (rs : List (List Plan)) :
    (rs.filter (fun l => decide (p ∈ l))).length ≤ (rs.map (List.count p)).sum := by
  induction rs with
  | nil => simp
  | cons l rest ih =>
    simp only [List.filter_cons, List.map_cons, List.sum_cons]
    by_cases hm : p ∈ l
    · have : 0 < l.count p := List.count_pos_iff.mpr hm
      simp [hm]
      omega
    · simp [hm]
      omega

/-! ## C1: Pack, then Verify -/

/-- Round trip for an input manifest whose signature field is empty: when `Pack`
succeeds, the archive reads back, base64 decodes what it encoded and the
signature validates for the message it was made over, `Verify` returns the
manifest `Pack` returned, whose `binary_sha256` is the hex SHA-256 of the binary
and whose signature is the one made over the signing hash. -/
theorem pack_verify_roundtrip (L : Lib) (now : Int) (fs fs2 : FS)
    (binaryPath outDir sporePath : String) (m out : Manifest) (priv B d : Bytes)
    (hpack : Pack L now fs binaryPath m priv outDir = (.ok (sporePath, out), fs2))
    (hB : fs.read binaryPath = some B)
    (hd : signingHash L (packFill L now m priv B) (L.sha256 B) = some d)
    (hsig : m.Signature = "")
    (hback : ArchiveReadsBack L out B)
    (hkey : B64RoundTrips L (publicOf priv)) (hsg : B64RoundTrips L (L.sign priv d))
    (hval : L.edVerify (publicOf priv) d (L.sign priv d) = true) :
    Verify L fs2 sporePath = .ok out ∧ out.BinarySHA256 = hexEncode (L.sha256 B) ∧
      L.b64dec out.PublicKey = some (publicOf priv) ∧
      L.b64dec out.Signature = some (L.sign priv d) ∧
      signingHash L { out with Signature := "" } (L.sha256 B) = some d := by
  obtain ⟨ho, _, md, hmi, hfile⟩ :=
    packed_file L now fs fs2 binaryPath outDir sporePath m out priv B d hpack hB hd
  obtain ⟨hzip, hu⟩ := hback md hmi
  have hsha : out.BinarySHA256 = hexEncode (L.sha256 B) := by rw [ho]; rfl
  have hpk : L.b64dec out.PublicKey = some (publicOf priv) := by rw [ho]; exact hkey
  have hsg2 : L.b64dec out.Signature = some (L.sign priv d) := by rw [ho]; exact hsg
  have hpre : ({ out with Signature := "" } : Manifest) = packFill L now m priv B := by
    rw [ho]
    simp only [packFill]
    rw [← hsig]
  have hd2 : signingHash L { out with Signature := "" } (L.sha256 B) = some d := by
    rw [hpre]; exact hd
  refine ⟨?_, hsha, hpk, hsg2, hd2⟩
  rw [Verify_two_entries L fs2 sporePath md B hfile hzip]
  simp only [signingHash, Option.map_eq_some'] at hd2
  obtain ⟨mws, hma, hdd⟩ := hd2
  rw [verifyData_eval L md B (publicOf priv) (L.sign priv d) mws out hu hsha hpk hsg2 hma
    (publicOf_length priv), hdd, if_pos hval]

/-- C1, round trip of `Pack` and `Verify`, fails on the code for an input
manifest that already carries a signature: `Pack` never empties the signature
field before serialising the manifest for signing (its comment says "manifest
without signature"), while `Verify` empties it before checking.  For every
input manifest with a non-empty `signature` for which `Pack` succeeds, `Verify`
on the archive `Pack` wrote returns the signature-verification-failed error,
given that the archive reads back, base64 decodes what it encoded, the two
serialisations have different signing hashes and the signature validates only
for the message it was made over. -/
theorem pack_presigned_verify_fails (L : Lib) (now : Int) (fs fs2 : FS)
    (binaryPath outDir sporePath : String) (m out : Manifest) (priv B d : Bytes)
    (hpack : Pack L now fs binaryPath m priv outDir = (.ok (sporePath, out), fs2))
    (hB : fs.read binaryPath = some B)
    (hd : signingHash L (packFill L now m priv B) (L.sha256 B) = some d)
    (hsig : m.Signature ≠ "")
    (hback : ArchiveReadsBack L out B)
    (hkey : B64RoundTrips L (publicOf priv)) (hsg : B64RoundTrips L (L.sign priv d))
    (hmar : (L.marshal { out with Signature := "" }).isSome = true)
    (hcol : DigestsDiffer L (L.sha256 B) { out with Signature := "" } (packFill L now m priv B))
    (hsound : SignatureSound L priv d) :
    Verify L fs2 sporePath = .error .signatureFailed := by
  obtain ⟨ho, _, md, hmi, hfile⟩ :=
    packed_file L now fs fs2 binaryPath outDir sporePath m out priv B d hpack hB hd
  obtain ⟨hzip, hu⟩ := hback md hmi
  have hsha : out.BinarySHA256 = hexEncode (L.sha256 B) := by rw [ho]; rfl
  have hpk : L.b64dec out.PublicKey = some (publicOf priv) := by rw [ho]; exact hkey
  have hsg2 : L.b64dec out.Signature = some (L.sign priv d) := by rw [ho]; exact hsg
  have hne : ({ out with Signature := "" } : Manifest) ≠ packFill L now m priv B := by
    intro h
    have := congrArg Manifest.Signature h
    simp only [packFill] at this
    exact hsig this.symm
  have hdig := hcol hne
  rw [hd] at hdig
  obtain ⟨mws, hma⟩ := Option.isSome_iff_exists.mp hmar
  rw [Verify_two_entries L fs2 sporePath md B hfile hzip,
    verifyData_eval L md B (publicOf priv) (L.sign priv d) mws out hu hsha hpk hsg2 hma
      (publicOf_length priv)]
  rw [if_neg]
  intro hv
  have := (hsound _ _ (publicOf_length priv) hv).2
  apply hdig
  simp [signingHash, hma, this]

/-- Witness for C1 on the small library: packing `/in/app` with an input
manifest whose signature field is `x` succeeds, and the archive does not verify. -/
theorem pack_presigned_verify_fails_witness :
    Verify Toy.lib
        (Pack Toy.lib 0 Toy.srcFS "/in/app" (Toy.manifest "a" "a" "x") (Toy.key 1) "/out").2
        "/out/a-v1.spore" = .error .signatureFailed := by
  set_option maxRecDepth 1000000 in
  exact pack_presigned_verify_fails Toy.lib 0 Toy.srcFS _ "/in/app" "/out" "/out/a-v1.spore"
    (Toy.manifest "a" "a" "x")
    { packFill Toy.lib 0 (Toy.manifest "a" "a" "x") (Toy.key 1) [104, 105] with
      Signature := Toy.lib.b64enc (Toy.lib.sign (Toy.key 1) [55, 18]) }
    (Toy.key 1) [104, 105] [55, 18]
    (Prod.ext (by decide) rfl) (by decide) (by decide) (by decide)
    (by
      intro md h
      simp only [Toy.lib, Option.some.injEq] at h
      subst h
      exact ⟨by decide, by decide⟩)
    (by decide) (by decide) (by decide) (fun _ => by decide) (Toy.signature_sound _ _)

/-! ## C2: The binary hash -/

/-- C2, invariant M1 and binary tamper detection.  When `Verify` returns a
manifest, its `binary_sha256` is the lowercase hex SHA-256 of the bytes of the
archive's (last) entry named `binary`.  And when the archive has both entries,
the manifest parses, and its `binary_sha256` differs from that hex digest,
`Verify` returns the binary-hash-mismatch error, whatever the `public_key` and
`signature` fields hold: no base64 or signature check is reached. -/
theorem verify_binary_hash (L : Lib) (fs : FS) (sporePath : String) :
    (∀ m, Verify L fs sporePath = .ok m →
      ∃ files e bd, openReader L fs sporePath = some files ∧
        lastNamed "binary" files = some e ∧ e.body = .data bd ∧
        m.BinarySHA256 = hexEncode (L.sha256 bd)) ∧
    (∀ files md bd manifest, openReader L fs sporePath = some files →
      readEntries files none none = .ok (some md, some bd) →
      L.unmarshal md = some manifest →
      manifest.BinarySHA256 ≠ hexEncode (L.sha256 bd) →
      Verify L fs sporePath =
        .error (.binaryHashMismatch (hexEncode (L.sha256 bd)) manifest.BinarySHA256)) := by
  constructor
  · intro m h
    obtain ⟨files, md, bd, ho, hr, hv⟩ := Verify_ok_inv L fs sporePath m h
    have hb := readEntries_binary files none none (some md) (some bd) hr
    cases hl : lastNamed "binary" files with
    | none => have := hb.2 hl; simp at this
    | some e =>
      have he := hb.1 e hl
      simp only [Option.map_some', Option.some.injEq] at he
      exact ⟨files, e, bd, ho, hl, he.symm, (verifyData_ok_inv L md bd m hv).2.1⟩
  · intro files md bd manifest ho hr hu hne
    rw [Verify_of_entries L fs sporePath files md bd ho hr]
    simp [verifyData, hu, hne]

/-- Witness for C2 on the small library: the packed archive verifies and its
manifest carries the hash of the binary entry; with the binary entry replaced,
`Verify` reports the hash mismatch. -/
theorem verify_binary_hash_witness :
    (∃ files e bd, openReader Toy.lib Toy.packedFS "/out/a-v1.spore" = some files ∧
      lastNamed "binary" files = some e ∧ e.body = .data bd ∧
      Toy.packedManifest.BinarySHA256 = hexEncode (Toy.lib.sha256 bd)) ∧
    Verify Toy.lib (Toy.archiveFS Toy.packedManifest [("binary", [104, 120])]) "/repo/x.spore" =
      .error (.binaryHashMismatch "2777" "2768") := by
  refine ⟨(verify_binary_hash Toy.lib Toy.packedFS "/out/a-v1.spore").1 Toy.packedManifest
      (by set_option maxRecDepth 1000000 in decide), ?_⟩
  exact (verify_binary_hash Toy.lib (Toy.archiveFS Toy.packedManifest [("binary", [104, 120])])
      "/repo/x.spore").2
    [⟨"manifest.json", .data (32 :: Toy.fieldLines Toy.packedManifest)⟩, ⟨"binary", .data [104, 120]⟩]
    (32 :: Toy.fieldLines Toy.packedManifest) [104, 120] Toy.packedManifest
    (by set_option maxRecDepth 1000000 in decide)
    (by set_option maxRecDepth 1000000 in rfl)
    (by set_option maxRecDepth 1000000 in decide)
    (by set_option maxRecDepth 1000000 in decide)

/-! ## C3: A changed manifest -/

/-- Counterexample to C3 as stated: the bundle packed from `/in/app` with its
`public_key` field changed to `!`, which is not base64, the binary and the
signature left as packed.  `Verify` fails with the public-key decoding error
of source line 185, which is neither the binary-hash-mismatch nor the
signature-verification-failed error. -/
theorem changed_public_key_decode_error :
    (Pack Toy.lib 0 Toy.srcFS "/in/app" (Toy.manifest "a" "a" "") (Toy.key 1) "/out").1 =
      .ok ("/out/a-v1.spore", Toy.packedManifest) ∧
    Toy.packedFS.read "/out/a-v1.spore" =
      some (Toy.zipWrite [("manifest.json", 32 :: Toy.fieldLines Toy.packedManifest),
        ("binary", [104, 105])]) ∧
    Verify Toy.lib
        (Toy.archiveFS { Toy.packedManifest with PublicKey := "!" } [("binary", [104, 105])])
        "/repo/x.spore" = .error .decodePublicKey ∧
    Verify Toy.lib
        (Toy.archiveFS { Toy.packedManifest with PublicKey := "!" } [("binary", [104, 105])])
        "/repo/x.spore" ≠ .error .signatureFailed ∧
    ∀ expected got, Verify Toy.lib
        (Toy.archiveFS { Toy.packedManifest with PublicKey := "!" } [("binary", [104, 105])])
        "/repo/x.spore" ≠ .error (.binaryHashMismatch expected got) := by
  set_option maxRecDepth 1000000 in
  have hv : Verify Toy.lib
      (Toy.archiveFS { Toy.packedManifest with PublicKey := "!" } [("binary", [104, 105])])
      "/repo/x.spore" = .error .decodePublicKey := by decide
  set_option maxRecDepth 1000000 in
  exact ⟨by decide, by decide, hv, by rw [hv]; decide, fun _ _ => by rw [hv]; simp⟩

/-- C3 as amended, manifest tamper detection.  Take a bundle produced by `Pack`
and replace `manifest.json` by the serialisation of a manifest `m2` that
differs from the packed one and has the same `signature`, the binary entry left
as packed.  Given that the archive reads back, the changed manifest has a
signing hash different from the one that was signed, the signature validates
only for the message it was made over, and the changed `public_key`, when it
decodes, decodes to 32 bytes, `Verify` fails with the binary-hash-mismatch
error, the public-key decoding error, or the signature-verification-failed
error. -/
theorem verify_rejects_changed_manifest (L : Lib) (now : Int) (fs fs2 fs3 : FS)
    (binaryPath outDir sporePath path : String) (m out m2 : Manifest) (priv B d md2 : Bytes)
    (hpack : Pack L now fs binaryPath m priv outDir = (.ok (sporePath, out), fs2))
    (hB : fs.read binaryPath = some B)
    (hd : signingHash L (packFill L now m priv B) (L.sha256 B) = some d)
    (hsame : m2.Signature = out.Signature) (hchg : m2 ≠ out)
    (hmd2 : L.marshalIndent m2 = some md2)
    (hfile : fs3.read path = some (L.zipWrite [("manifest.json", md2), ("binary", B)]))
    (hback : ArchiveReadsBack L m2 B)
    (hsg : B64RoundTrips L (L.sign priv d))
    (hmar : (L.marshal { m2 with Signature := "" }).isSome = true)
    (hcol : DigestsDiffer L (L.sha256 B) { m2 with Signature := "" } (packFill L now m priv B))
    (hsound : SignatureSound L priv d)
    (hlen : ∀ pk, L.b64dec m2.PublicKey = some pk → pk.length = 32) :
    Verify L fs3 path = .error (.binaryHashMismatch (hexEncode (L.sha256 B)) m2.BinarySHA256) ∨
    Verify L fs3 path = .error .decodePublicKey ∨
    Verify L fs3 path = .error .signatureFailed := by
  obtain ⟨ho, _, _, _, _⟩ :=
    packed_file L now fs fs2 binaryPath outDir sporePath m out priv B d hpack hB hd
  obtain ⟨hzip, hu⟩ := hback md2 hmd2
  have hsg2 : L.b64dec m2.Signature = some (L.sign priv d) := by rw [hsame, ho]; exact hsg
  rw [Verify_two_entries L fs3 path md2 B hfile hzip]
  by_cases hsha : m2.BinarySHA256 = hexEncode (L.sha256 B)
  · cases hpk : L.b64dec m2.PublicKey with
    | none =>
      right; left
      simp [verifyData, hu, hsha, hpk]
    | some pk =>
      right; right
      obtain ⟨mws, hma⟩ := Option.isSome_iff_exists.mp hmar
      rw [verifyData_eval L md2 B pk (L.sign priv d) mws m2 hu hsha hpk hsg2 hma (hlen pk hpk)]
      rw [if_neg]
      intro hv
      have hmsg := (hsound _ _ (hlen pk hpk) hv).2
      have hne : ({ m2 with Signature := "" } : Manifest) ≠ packFill L now m priv B := by
        intro h
        apply hchg
        rw [ho]
        rw [ho] at hsame
        rw [← h]
        cases m2
        simp only at hsame
        simp [hsame]
      have hdig := hcol hne
      rw [hd] at hdig
      apply hdig
      simp [signingHash, hma, hmsg]
  · left
    simp [verifyData, hu, hsha]

/-- Witness for C3 as amended on the small library: the packed bundle with its
`name` changed to `b`. -/
theorem verify_rejects_changed_manifest_witness :
    Verify Toy.lib (Toy.archiveFS { Toy.packedManifest with Name := "b" } [("binary", [104, 105])])
        "/repo/x.spore" = .error (.binaryHashMismatch (hexEncode (Toy.lib.sha256 [104, 105])) "2768") ∨
    Verify Toy.lib (Toy.archiveFS { Toy.packedManifest with Name := "b" } [("binary", [104, 105])])
        "/repo/x.spore" = .error .decodePublicKey ∨
    Verify Toy.lib (Toy.archiveFS { Toy.packedManifest with Name := "b" } [("binary", [104, 105])])
        "/repo/x.spore" = .error .signatureFailed := by
  set_option maxRecDepth 1000000 in
  exact verify_rejects_changed_manifest Toy.lib 0 Toy.srcFS Toy.packedFS _ "/in/app" "/out"
    "/out/a-v1.spore" "/repo/x.spore" (Toy.manifest "a" "a" "") Toy.packedManifest
    { Toy.packedManifest with Name := "b" }
    (Toy.key 1) [104, 105] [0, 226]
    (32 :: Toy.fieldLines { Toy.packedManifest with Name := "b" })
    Toy.pack_run (by decide) (by decide) (by decide) (by decide) rfl (by decide)
    (Toy.reads_back _ _ (by decide) (by decide))
    (by decide) (by decide) (fun _ => by decide) (Toy.signature_sound _ _)
    (by
      intro pk h
      have : pk = publicOf (Toy.key 1) := by
        have h2 : Toy.lib.b64dec Toy.packedManifest.PublicKey = some (publicOf (Toy.key 1)) := by
          decide
        exact Option.some.inj (h.symm.trans h2)
      rw [this]
      exact publicOf_length _)

/-! ## C4: A foreign public key -/

/-- C4, wrong-key rejection.  Take a bundle packed with key `priv` and replace
the manifest's `public_key` by the base64 of the public half of another key
`priv2` (a different public half), everything else unchanged.  Given that the
archive reads back, base64 decodes what it encoded and the packed signature
validates only under the signer's public key, `Verify` returns the
signature-verification-failed error. -/
theorem verify_rejects_wrong_key (L : Lib) (now : Int) (fs fs2 fs3 : FS)
    (binaryPath outDir sporePath path : String) (m out : Manifest) (priv priv2 B d md2 : Bytes)
    (hpack : Pack L now fs binaryPath m priv outDir = (.ok (sporePath, out), fs2))
    (hB : fs.read binaryPath = some B)
    (hd : signingHash L (packFill L now m priv B) (L.sha256 B) = some d)
    (hother : publicOf priv2 ≠ publicOf priv)
    (hmd2 : L.marshalIndent { out with PublicKey := L.b64enc (publicOf priv2) } = some md2)
    (hfile : fs3.read path = some (L.zipWrite [("manifest.json", md2), ("binary", B)]))
    (hback : ArchiveReadsBack L { out with PublicKey := L.b64enc (publicOf priv2) } B)
    (hkey : B64RoundTrips L (publicOf priv2)) (hsg : B64RoundTrips L (L.sign priv d))
    (hmar : (L.marshal { out with PublicKey := L.b64enc (publicOf priv2),
                                  Signature := "" }).isSome = true)
    (hsound : SignatureSound L priv d) :
    Verify L fs3 path = .error .signatureFailed := by
  obtain ⟨ho, _, _, _, _⟩ :=
    packed_file L now fs fs2 binaryPath outDir sporePath m out priv B d hpack hB hd
  obtain ⟨hzip, hu⟩ := hback md2 hmd2
  have hsg2 : L.b64dec out.Signature = some (L.sign priv d) := by rw [ho]; exact hsg
  have hsha : out.BinarySHA256 = hexEncode (L.sha256 B) := by rw [ho]; rfl
  obtain ⟨mws, hma⟩ := Option.isSome_iff_exists.mp hmar
  rw [Verify_two_entries L fs3 path md2 B hfile hzip,
    verifyData_eval L md2 B (publicOf priv2) (L.sign priv d) mws _ hu hsha hkey hsg2 hma
      (publicOf_length priv2)]
  rw [if_neg]
  intro hv
  exact hother (hsound _ _ (publicOf_length priv2) hv).1

/-- Witness for C4 on the small library: the bundle packed with `key 1`, its
`public_key` replaced by the public half of `key 2`, fails signature
verification. -/
theorem verify_rejects_wrong_key_witness :
    Verify Toy.lib
        (Toy.archiveFS { Toy.packedManifest with PublicKey := hexEncode (publicOf (Toy.key 2)) }
          [("binary", [104, 105])])
        "/repo/x.spore" = .error .signatureFailed := by
  set_option maxRecDepth 1000000 in
  exact verify_rejects_wrong_key Toy.lib 0 Toy.srcFS Toy.packedFS _ "/in/app" "/out"
    "/out/a-v1.spore" "/repo/x.spore" (Toy.manifest "a" "a" "") Toy.packedManifest
    (Toy.key 1) (Toy.key 2) [104, 105] [0, 226]
    (32 :: Toy.fieldLines
      { Toy.packedManifest with PublicKey := hexEncode (publicOf (Toy.key 2)) })
    Toy.pack_run (by decide) (by decide) (by decide) rfl (by decide)
    (Toy.reads_back _ _ (by decide) (by decide))
    (by decide) (by decide) (by decide) (Toy.signature_sound _ _)

/-! ## C5: A missing public key -/

/-- C5, required manifest fields, fails on the code for an empty or missing
`public_key`.  When the archive has both entries, the manifest parses, its
`binary_sha256` is right, its `public_key` is empty (base64 decodes the empty
string to no bytes), its `signature` decodes and the manifest serialises,
`Verify` does not return: `ed25519.Verify` panics on the key of length 0. -/
theorem verify_empty_public_key_panics (L : Lib) (fs : FS) (path : String)
    (files : List ZipFile) (md bd sig mws : Bytes) (m : Manifest)
    (ho : openReader L fs path = some files)
    (hr : readEntries files none none = .ok (some md, some bd))
    (hu : L.unmarshal md = some m) (hh : m.BinarySHA256 = hexEncode (L.sha256 bd))
    (hpk : m.PublicKey = "") (h0 : L.b64dec "" = some [])
    (hsg : L.b64dec m.Signature = some sig)
    (hma : L.marshal { m with Signature := "" } = some mws) :
    Verify L fs path = .panic "ed25519: bad public key length" := by
  have hdec : L.b64dec m.PublicKey = some [] := by rw [hpk]; exact h0
  rw [Verify_of_entries L fs path files md bd ho hr]
  unfold verifyData
  rw [hu]
  simp only
  rw [if_neg (not_not.mpr hh), hdec]
  simp only
  rw [hsg]
  simp only
  rw [hma]
  simp [ed25519Verify]

/-- Witness for C5 on the small library: a manifest with the right hash and
empty `public_key` and `signature`. -/
theorem verify_empty_public_key_panics_witness :
    Verify Toy.lib
        (Toy.archiveFS { Toy.packedManifest with PublicKey := "", Signature := "" }
          [("binary", [104, 105])])
        "/repo/x.spore" = .panic "ed25519: bad public key length" := by
  set_option maxRecDepth 1000000 in
  exact verify_empty_public_key_panics Toy.lib _ "/repo/x.spore"
    [⟨"manifest.json", .data (32 :: Toy.fieldLines
        { Toy.packedManifest with PublicKey := "", Signature := "" })⟩,
      ⟨"binary", .data [104, 105]⟩]
    (32 :: Toy.fieldLines { Toy.packedManifest with PublicKey := "", Signature := "" })
    [104, 105] [] (Toy.fieldLines { Toy.packedManifest with PublicKey := "", Signature := "" })
    { Toy.packedManifest with PublicKey := "", Signature := "" }
    (by decide) (by rfl) (by decide) (by decide) rfl (by decide) (by decide) rfl

/-! ## C6: Sprout -/

/-- C6, sprout never crashes the agent, fails on the code in two ways.  When
the file at `repo.Path(plan.Digest)` exists: if it verifies and the digest is
shorter than 8 bytes, `sproutProcess` does not return, because the slice
`plan.Digest[:8]` panics before anything is extracted; and if `Verify` panics
(a `public_key` that decodes to a key of a length other than 32),
`sproutProcess` panics with it. -/
theorem sprout_panics (L : Lib) (a : Agent) (h : Host) (fs : FS) (plan : Plan)
    (hex : fs.exists (a.Repo.Path plan.Digest) = true) :
    (∀ m, Verify L fs (a.Repo.Path plan.Digest) = .ok m → plan.Digest.utf8ByteSize < 8 →
      sproutProcess L a h fs plan = (.panic "slice bounds out of range", fs)) ∧
    (∀ msg, Verify L fs (a.Repo.Path plan.Digest) = .panic msg →
      sproutProcess L a h fs plan = (.panic msg, fs)) := by
  constructor
  · intro m hv hshort
    simp [sproutProcess, hex, hv, hshort]
  · intro msg hv
    simp [sproutProcess, hex, hv]

/-- Witness for C6 on the small library: the plan digest `x` with a valid bundle
stored at `/repo/x.spore`, and the same plan with a bundle whose manifest has
an empty `public_key`. -/
theorem sprout_panics_witness :
    sproutProcess Toy.lib { ID := "node-1", Repo := { Dir := "/repo" }, RunDir := "/run" }
        Toy.host Toy.plainFS { AppName := "a", Digest := "x", Min := 1, Max := 1, Port := 0 } =
      (.panic "slice bounds out of range", Toy.plainFS) ∧
    sproutProcess Toy.lib { ID := "node-1", Repo := { Dir := "/repo" }, RunDir := "/run" }
        Toy.host Toy.keylessFS { AppName := "a", Digest := "x", Min := 1, Max := 1, Port := 0 } =
      (.panic "ed25519: bad public key length", Toy.keylessFS) := by
  set_option maxRecDepth 1000000 in
  exact ⟨(sprout_panics Toy.lib _ Toy.host Toy.plainFS _ (by decide)).1 Toy.packedManifest
      (by decide) (by decide),
    (sprout_panics Toy.lib _ Toy.host Toy.keylessFS _ (by decide)).2 _ (by decide)⟩

/-! ## C7: Entry names in Extract -/

/-- Counterexample to C7: an archive that passes `Verify` and has a third entry
named `../evil`.  `Extract` into `/run/x` succeeds, and afterwards the file
`/run/evil`, outside `/run/x` and absent before, holds the entry's bytes. -/
theorem extract_writes_outside_dest :
    Verify Toy.lib Toy.slipFS "/repo/x.spore" = .ok Toy.packedManifest ∧
    (Extract Toy.lib Toy.slipFS "/repo/x.spore" "/run/x").1 =
      .ok (Toy.packedManifest, "/run/x/a") ∧
    Toy.slipFS.files "/run/evil" = none ∧
    (Extract Toy.lib Toy.slipFS "/repo/x.spore" "/run/x").2.files "/run/evil" =
      some ⟨[1], 0o644⟩ := by
  set_option maxRecDepth 1000000 in
  exact ⟨by decide, by decide, by decide, by decide⟩

/-- C7 as amended, what `Extract` writes.  `Extract` refuses no entry name.
Whatever it returns, it leaves every file unchanged whose path is neither
`filepath.Join(destDir, name)` for an entry name of the archive nor
`filepath.Join(destDir, manifest.Command)`; those joined paths are the only
ones it creates, writes or renames. -/
theorem extract_only_joined_paths (L : Lib) (fs : FS) (sporePath destDir q : String)
    (hq : ∀ files, openReader L fs sporePath = some files →
      ∀ f ∈ files, q ≠ Clean (Join destDir f.Name))
    (hcmd : ∀ m, Verify L fs sporePath = .ok m → q ≠ Clean (Join destDir m.Command)) :
    (Extract L fs sporePath destDir).2.files q = fs.files q := by
  unfold Extract
  cases hv : Verify L fs sporePath with
  | panic msg => rfl
  | error e => rfl
  | ok m =>
    simp only
    cases ho : openReader L fs sporePath with
    | none => rfl
    | some files =>
      simp only
      cases hm : fs.mkdirAll destDir with
      | none => rfl
      | some fs1 =>
        simp only
        have hfr := extractEntries_frame destDir q files fs1 (hq files ho)
        rw [mkdirAll_files fs fs1 destDir hm] at hfr
        cases hx : extractEntries destDir files fs1 with
        | mk err fs2 =>
          rw [hx] at hfr
          cases err with
          | some e => exact hfr
          | none =>
            simp only
            cases hr : fs2.rename (Join destDir "binary") (Join destDir m.Command) with
            | none => exact hfr
            | some fs3 =>
              simp only
              obtain ⟨e, _, hl, _⟩ := Verify_ok_binary_entry L fs sporePath m files hv ho
              have hmem := lastNamed_mem "binary" files e hl
              have hold : q ≠ Clean (Join destDir "binary") := by
                have := hq files ho e hmem.1
                rwa [hmem.2] at this
              rw [rename_other fs2 fs3 _ _ q hr hold (hcmd m hv)]
              exact hfr

/-- Witness for C7 as amended on the small library: extracting the archive with
the entry `../evil` leaves the archive file itself as it was. -/
theorem extract_only_joined_paths_witness :
    (Extract Toy.lib Toy.slipFS "/repo/x.spore" "/run/x").2.files "/repo/x.spore" =
      Toy.slipFS.files "/repo/x.spore" := by
  set_option maxRecDepth 1000000 in
  have ho : openReader Toy.lib Toy.slipFS "/repo/x.spore" =
      some [⟨"manifest.json", .data (32 :: Toy.fieldLines Toy.packedManifest)⟩,
        ⟨"binary", .data [104, 105]⟩, ⟨"../evil", .data [1]⟩] := by decide
  set_option maxRecDepth 1000000 in
  have hv : Verify Toy.lib Toy.slipFS "/repo/x.spore" = .ok Toy.packedManifest := by decide
  set_option maxRecDepth 1000000 in
  exact extract_only_joined_paths Toy.lib Toy.slipFS "/repo/x.spore" "/run/x" "/repo/x.spore"
    (by
      intro files h
      rw [ho] at h
      simp only [Option.some.injEq] at h
      subst h
      decide)
    (by
      intro m h
      rw [hv] at h
      simp only [Outcome.ok.injEq] at h
      subst h
      decide)

/-! ## C8: Extract after a failed Verify -/

/-- C8, Extract propagates a verification failure and touches nothing.  When
`Verify` returns an error for the archive, `Extract` returns an error wrapping
it (no manifest, no path) and the file system is exactly as before: the
destination directory is not created and no entry is written. -/
theorem extract_verify_failure (L : Lib) (fs : FS) (sporePath destDir : String)
    (e : VerifyError) (h : Verify L fs sporePath = .error e) :
    Extract L fs sporePath destDir = (.error (.verification e), fs) := by
  simp [Extract, h]

/-- Witness for C8 on the small library: an archive whose binary entry was
replaced is not extracted. -/
theorem extract_verify_failure_witness :
    Extract Toy.lib (Toy.archiveFS Toy.packedManifest [("binary", [104, 120])])
        "/repo/x.spore" "/run/x" =
      (.error (.verification (.binaryHashMismatch "2777" "2768")),
        Toy.archiveFS Toy.packedManifest [("binary", [104, 120])]) :=
  extract_verify_failure Toy.lib _ "/repo/x.spore" "/run/x" _
    (by set_option maxRecDepth 1000000 in decide)

/-! ## C9: The extracted binary -/

/-- C9, the file that `Extract` returns.  When `Extract` succeeds, the manifest
it returns is the one `Verify` returns and the path it returns is
`filepath.Join(destDir, manifest.Command)`.  `Verify` has hashed the last entry
named `binary`.  The file at the returned path holds the bytes of the last
entry that is written to the path of `binary` in `destDir`, whatever the name
of that entry is; when its name is `binary`, it is the entry that `Verify`
hashed and the file has mode 0755. -/
theorem extract_binary_is_last_joined (L : Lib) (fs fs2 : FS)
    (sporePath destDir path : String) (m : Manifest)
    (h : Extract L fs sporePath destDir = (.ok (m, path), fs2)) :
    Verify L fs sporePath = .ok m ∧ path = Join destDir m.Command ∧
      ∃ files v vb e bd mode, openReader L fs sporePath = some files ∧
        lastNamed "binary" files = some v ∧ v.body = .data vb ∧
        lastJoined destDir files = some e ∧ e.body = .data bd ∧
        fs2.files (Clean path) = some ⟨bd, mode⟩ ∧
        (e.Name = "binary" → e = v ∧ mode = 0o755) := by
  unfold Extract at h
  cases hv : Verify L fs sporePath with
  | panic msg => rw [hv] at h; simp at h
  | error e => rw [hv] at h; simp at h
  | ok m2 =>
    rw [hv] at h
    simp only at h
    cases ho : openReader L fs sporePath with
    | none => rw [ho] at h; simp at h
    | some files =>
      rw [ho] at h
      simp only at h
      cases hm : fs.mkdirAll destDir with
      | none => rw [hm] at h; simp at h
      | some fs1 =>
        rw [hm] at h
        simp only at h
        cases hx : extractEntries destDir files fs1 with
        | mk err fsx =>
          rw [hx] at h
          cases err with
          | some e => simp at h
          | none =>
            simp only at h
            cases hr : fsx.rename (Join destDir "binary") (Join destDir m2.Command) with
            | none => rw [hr] at h; simp at h
            | some fs3 =>
              rw [hr] at h
              simp only [Prod.mk.injEq, Outcome.ok.injEq] at h
              obtain ⟨⟨hm2, hp⟩, hf⟩ := h
              subst hm2 hf hp
              obtain ⟨v, vb, hl, hvb⟩ := Verify_ok_binary_entry L fs sporePath m2 files hv ho
              obtain ⟨hvmem, hvname⟩ := lastNamed_mem "binary" files v hl
              cases hj : lastJoined destDir files with
              | none =>
                exact absurd (by rw [hvname]) (lastJoined_none destDir files hj v hvmem)
              | some e =>
                obtain ⟨bd, mode, hbd, hfile, hmode⟩ :=
                  (extractEntries_last_joined destDir files fs1 fsx hx).1 e hj
                refine ⟨rfl, rfl, files, v, vb, e, bd, mode, rfl, hl, hvb, hj, hbd,
                  by rw [rename_at fsx fs3 _ _ hr, hfile], ?_⟩
                intro hn
                have := lastJoined_named destDir files e hj hn
                rw [hl] at this
                simp only [Option.some.injEq] at this
                exact ⟨this.symm, hmode hn⟩

/-- Witness for C9 on the small library: an archive that passes `Verify`, whose
entry `binary` holds the bytes `hi`, with a third entry named `./binary` that
holds the bytes 1, 2.  `Extract` into `/run/x` succeeds and returns `/run/x/a`;
the entry that `Verify` hashed is `binary`, the last entry written to its path
is `./binary`, and the executable file at `/run/x/a` holds the bytes 1, 2. -/
theorem extract_binary_is_last_joined_witness :
    lastNamed "binary" [⟨"manifest.json", .data (32 :: Toy.fieldLines Toy.packedManifest)⟩,
        ⟨"binary", .data [104, 105]⟩, ⟨"./binary", .data [1, 2]⟩] =
      some ⟨"binary", .data [104, 105]⟩ ∧
    lastJoined "/run/x" [⟨"manifest.json", .data (32 :: Toy.fieldLines Toy.packedManifest)⟩,
        ⟨"binary", .data [104, 105]⟩, ⟨"./binary", .data [1, 2]⟩] =
      some ⟨"./binary", .data [1, 2]⟩ ∧
    openReader Toy.lib Toy.aliasFS "/repo/x.spore" =
      some [⟨"manifest.json", .data (32 :: Toy.fieldLines Toy.packedManifest)⟩,
        ⟨"binary", .data [104, 105]⟩, ⟨"./binary", .data [1, 2]⟩] ∧
    (Extract Toy.lib Toy.aliasFS "/repo/x.spore" "/run/x").2.files "/run/x/a" =
      some ⟨[1, 2], 0o755⟩ ∧
    (Verify Toy.lib Toy.aliasFS "/repo/x.spore" = .ok Toy.packedManifest ∧
      "/run/x/a" = Join "/run/x" Toy.packedManifest.Command ∧
      ∃ files v vb e bd mode, openReader Toy.lib Toy.aliasFS "/repo/x.spore" = some files ∧
        lastNamed "binary" files = some v ∧ v.body = .data vb ∧
        lastJoined "/run/x" files = some e ∧ e.body = .data bd ∧
        (Extract Toy.lib Toy.aliasFS "/repo/x.spore" "/run/x").2.files (Clean "/run/x/a") =
          some ⟨bd, mode⟩ ∧
        (e.Name = "binary" → e = v ∧ mode = 0o755)) := by
  set_option maxRecDepth 1000000 in
  exact ⟨by decide, by decide, by decide, by decide,
    extract_binary_is_last_joined Toy.lib Toy.aliasFS _ "/repo/x.spore" "/run/x" "/run/x/a"
      Toy.packedManifest (Prod.ext (by decide) rfl)⟩

/-- The failing input evaluated: an archive that passes `Verify`, whose entry
`binary` holds the bytes `hi`, with a third entry named `./binary`.  `Extract` into
`/run/x` succeeds and returns `/run/x/a`, and the file there, executable,
holds the bytes of the third entry, not those of the entry `binary`. -/
theorem extract_alias_replaces_binary :
    openReader Toy.lib Toy.aliasFS "/repo/x.spore" =
      some [⟨"manifest.json", .data (32 :: Toy.fieldLines Toy.packedManifest)⟩,
        ⟨"binary", .data [104, 105]⟩, ⟨"./binary", .data [1, 2]⟩] ∧
    Verify Toy.lib Toy.aliasFS "/repo/x.spore" = .ok Toy.packedManifest ∧
    (Extract Toy.lib Toy.aliasFS "/repo/x.spore" "/run/x").1 =
      .ok (Toy.packedManifest, "/run/x/a") ∧
    (Extract Toy.lib Toy.aliasFS "/repo/x.spore" "/run/x").2.files "/run/x/a" =
      some ⟨[1, 2], 0o755⟩ := by
  set_option maxRecDepth 1000000 in
  exact ⟨by decide, by decide, by decide, by decide⟩

/-- The result of `Extract` on an archive in which only entries named `binary`
are written to the path of `binary`.  When `Extract` succeeds, the
manifest it returns is the one `Verify` returns, the path it returns is
`filepath.Join(destDir, manifest.Command)`, and, provided that no entry with
another name is joined to the path of `binary` in `destDir`, the file at the
returned path holds the bytes of the archive's (last) entry named `binary`
with mode 0755, whatever the command is. -/
theorem extract_result (L : Lib) (fs fs2 : FS) (sporePath destDir path : String)
    (m : Manifest) (h : Extract L fs sporePath destDir = (.ok (m, path), fs2))
    (halias : ∀ files, openReader L fs sporePath = some files →
      ∀ f ∈ files, Clean (Join destDir f.Name) = Clean (Join destDir "binary") →
        f.Name = "binary") :
    Verify L fs sporePath = .ok m ∧ path = Join destDir m.Command ∧
      ∃ files e bd, openReader L fs sporePath = some files ∧
        lastNamed "binary" files = some e ∧ e.body = .data bd ∧
        fs2.files (Clean path) = some ⟨bd, 0o755⟩ := by
  unfold Extract at h
  cases hv : Verify L fs sporePath with
  | panic msg => rw [hv] at h; simp at h
  | error e => rw [hv] at h; simp at h
  | ok m2 =>
    rw [hv] at h
    simp only at h
    cases ho : openReader L fs sporePath with
    | none => rw [ho] at h; simp at h
    | some files =>
      rw [ho] at h
      simp only at h
      cases hm : fs.mkdirAll destDir with
      | none => rw [hm] at h; simp at h
      | some fs1 =>
        rw [hm] at h
        simp only at h
        cases hx : extractEntries destDir files fs1 with
        | mk err fsx =>
          rw [hx] at h
          cases err with
          | some e => simp at h
          | none =>
            simp only at h
            cases hr : fsx.rename (Join destDir "binary") (Join destDir m2.Command) with
            | none => rw [hr] at h; simp at h
            | some fs3 =>
              rw [hr] at h
              simp only [Prod.mk.injEq, Outcome.ok.injEq] at h
              obtain ⟨⟨hm2, hp⟩, hf⟩ := h
              subst hm2 hf hp
              obtain ⟨e, bd, hl, hbd⟩ := Verify_ok_binary_entry L fs sporePath m2 files hv ho
              obtain ⟨bd2, hbd2, hfile⟩ :=
                (extractEntries_binary destDir files fs1 fsx hx (halias files ho)).1 e hl
              rw [hbd] at hbd2
              simp only [EntryBody.data.injEq] at hbd2
              subst hbd2
              exact ⟨rfl, rfl, files, e, bd, rfl, hl, hbd,
                by rw [rename_at fsx fs3 _ _ hr, hfile]⟩

/-- The packed archive of the small library extracted into `/run/x`, an
instance of `extract_result`. -/
theorem extract_result_witness :
    Verify Toy.lib Toy.plainFS "/repo/x.spore" = .ok Toy.packedManifest ∧
    "/run/x/a" = Join "/run/x" Toy.packedManifest.Command ∧
    ∃ files e bd, openReader Toy.lib Toy.plainFS "/repo/x.spore" = some files ∧
      lastNamed "binary" files = some e ∧ e.body = .data bd ∧
      (Extract Toy.lib Toy.plainFS "/repo/x.spore" "/run/x").2.files (Clean "/run/x/a") =
        some ⟨bd, 0o755⟩ := by
  set_option maxRecDepth 1000000 in
  have ho : openReader Toy.lib Toy.plainFS "/repo/x.spore" =
      some [⟨"manifest.json", .data (32 :: Toy.fieldLines Toy.packedManifest)⟩,
        ⟨"binary", .data [104, 105]⟩] := by decide
  set_option maxRecDepth 1000000 in
  exact extract_result Toy.lib Toy.plainFS _ "/repo/x.spore" "/run/x" "/run/x/a"
    Toy.packedManifest (Prod.ext (by decide) rfl)
    (by
      intro files h
      rw [ho] at h
      simp only [Option.some.injEq] at h
      subst h
      decide)

/-! ## C10: Content-addressed Put -/

/-- C10, content-addressed Put.  For two successful `Put` calls on a
repository, on inputs with contents `c1` and `c2`: equal contents give equal
digests and equal stored paths; different contents, when SHA-256 does not
collide on them, give different digests and different stored paths; and each
returned stored path is `Path(digest)`, that is, `filepath.Join(dir,
digest + ".spore")`, which is the directory, a slash and `digest.spore` as
written whenever the directory is given as a clean path other than `.` and `/`. -/
theorem put_content_addressed (L : Lib) (r : Repo) (fs1 fs2 : FS) (p1 p2 : String)
    (c1 c2 : Bytes) (d1 s1 d2 s2 : String)
    (hc1 : fs1.read p1 = some c1) (hc2 : fs2.read p2 = some c2)
    (h1 : (r.Put L fs1 p1).1 = .ok (d1, s1)) (h2 : (r.Put L fs2 p2).1 = .ok (d2, s2))
    (hcf : L.sha256 c1 = L.sha256 c2 → c1 = c2) :
    (c1 = c2 → d1 = d2 ∧ s1 = s2) ∧ (c1 ≠ c2 → d1 ≠ d2 ∧ s1 ≠ s2) ∧
      s1 = r.Path d1 ∧ s2 = r.Path d2 ∧
      (Clean r.Dir = r.Dir → r.Dir ≠ "." → r.Dir ≠ "/" →
        r.Path d1 = r.Dir ++ "/" ++ (d1 ++ ".spore")) := by
  obtain ⟨c1', hr1, hd1, hs1⟩ := Put_ok_inv L r fs1 p1 d1 s1 h1
  obtain ⟨c2', hr2, hd2, hs2⟩ := Put_ok_inv L r fs2 p2 d2 s2 h2
  rw [hc1] at hr1
  rw [hc2] at hr2
  simp only [Option.some.injEq] at hr1 hr2
  subst hr1 hr2
  have hdne : c1 ≠ c2 → d1 ≠ d2 := by
    intro hne hd
    rw [hd1, hd2] at hd
    exact hne (hcf (hexEncode_inj _ _ hd))
  refine ⟨?_, ?_, hs1, hs2, ?_⟩
  rotate_right
  · intro hcl hdot hroot
    have hp1 : PlainName (d1 ++ ".spore").data := by rw [hd1]; exact digestName_plain _
    exact Join_clean_dir r.Dir _ hp1 hcl hdot hroot
  · intro hc
    have hd : d1 = d2 := by rw [hd1, hd2, hc]
    exact ⟨hd, by rw [hs1, hs2, hd]⟩
  · intro hne
    refine ⟨hdne hne, ?_⟩
    intro hs
    rw [hs1, hs2] at hs
    have hp1 : PlainName (d1 ++ ".spore").data := by rw [hd1]; exact digestName_plain _
    have hp2 : PlainName (d2 ++ ".spore").data := by rw [hd2]; exact digestName_plain _
    have := congrArg String.data (Join_plain_inj r.Dir _ _ hp1 hp2 hs)
    simp only [String.data_append] at this
    exact hdne hne (String.ext (List.append_cancel_right this))

/-- Witness for C10 on the small library: two files with equal content and one
with another content, put into the repository `/repo`. -/
theorem put_content_addressed_witness :
    (("013b" : String) = "013b" ∧ ("/repo/013b.spore" : String) = "/repo/013b.spore") ∧
    (("013b" : String) ≠ "013c" ∧ ("/repo/013b.spore" : String) ≠ "/repo/013c.spore") ∧
    "/repo/013b.spore" = Repo.Path { Dir := "/repo" } "013b" ∧
    Repo.Path { Dir := "/repo" } "013b" = "/repo" ++ "/" ++ ("013b" ++ ".spore") := by
  set_option maxRecDepth 1000000 in
  have ha := put_content_addressed Toy.lib { Dir := "/repo" }
    (Toy.baseFS [("/in/a", ⟨[97], 0o644⟩), ("/in/b", ⟨[97], 0o644⟩)])
    (Toy.baseFS [("/in/a", ⟨[97], 0o644⟩), ("/in/b", ⟨[97], 0o644⟩)])
    "/in/a" "/in/b" [97] [97] "013b" "/repo/013b.spore" "013b" "/repo/013b.spore"
    (by decide) (by decide) (by decide) (by decide) (by decide)
  set_option maxRecDepth 1000000 in
  have hb := put_content_addressed Toy.lib { Dir := "/repo" }
    (Toy.baseFS [("/in/a", ⟨[97], 0o644⟩)]) (Toy.baseFS [("/in/c", ⟨[98], 0o644⟩)])
    "/in/a" "/in/c" [97] [98] "013b" "/repo/013b.spore" "013c" "/repo/013c.spore"
    (by decide) (by decide) (by decide) (by decide) (by decide)
  exact ⟨ha.1 rfl, hb.2.1 (by decide), hb.2.2.1,
    hb.2.2.2.2 (by decide) (by decide) (by decide)⟩

/-! ## C11: The copy stored by Put -/

/-- C11, the copy stored by Put.  After a successful `Put` of a file with
content `c`, the returned digest is the hex SHA-256 of `c` and the returned
path is `Path(digest)`.  When the input path is another file than the stored
path, the file at the stored path holds `c`.  When the input path is the stored
path itself, the stored file is empty afterwards: `copyFile` truncates it with
`os.Create` before it reads the source (repo.go lines 57 to 70). -/
theorem put_stored_content (L : Lib) (r : Repo) (fs : FS) (p d s : String)
    (c : Bytes) (hc : fs.read p = some c) (hput : (r.Put L fs p).1 = .ok (d, s)) :
    d = hexEncode (L.sha256 c) ∧ s = r.Path d ∧
    (Clean p ≠ Clean s → (r.Put L fs p).2.read s = some c) ∧
    (Clean p = Clean s → (r.Put L fs p).2.read s = some []) := by
  obtain ⟨c2, fs1, bs, hc2, hd, hs, hcr, hrd, hfs⟩ := Put_ok_fs L r fs p d s hput
  rw [hc] at hc2
  simp only [Option.some.injEq] at hc2
  subst hc2
  refine ⟨hd, hs, put_stores_copy L r fs p d s c hc hput, ?_⟩
  intro halias
  rw [hfs, read_write_create fs fs1 s bs hcr]
  obtain ⟨mode, hat⟩ := create_at fs fs1 s hcr
  simp only [FS.read, halias, hat, Option.map_some', Option.some.injEq] at hrd
  rw [← hrd]

/-- Witness for C11 on the small library: the repository `/repo` holds the one
byte `a` under its digest `013b`, and that entry is put again by its own path.
`Put` returns the digest `013b`, and the entry is empty afterwards, which is
not the content that has this digest. -/
theorem put_stored_content_witness :
    (Toy.baseFS [("/repo/013b.spore", ⟨[97], 0o644⟩)]).read "/repo/013b.spore" = some [97] ∧
    (Repo.Put Toy.lib { Dir := "/repo" } (Toy.baseFS [("/repo/013b.spore", ⟨[97], 0o644⟩)])
      "/repo/013b.spore").1 = .ok ("013b", "/repo/013b.spore") ∧
    hexEncode (Toy.lib.sha256 []) ≠ "013b" ∧
    ("013b" = hexEncode (Toy.lib.sha256 [97]) ∧
      "/repo/013b.spore" = Repo.Path { Dir := "/repo" } "013b" ∧
      (Clean "/repo/013b.spore" ≠ Clean "/repo/013b.spore" →
        (Repo.Put Toy.lib { Dir := "/repo" } (Toy.baseFS [("/repo/013b.spore", ⟨[97], 0o644⟩)])
          "/repo/013b.spore").2.read "/repo/013b.spore" = some [97]) ∧
      (Clean "/repo/013b.spore" = Clean "/repo/013b.spore" →
        (Repo.Put Toy.lib { Dir := "/repo" } (Toy.baseFS [("/repo/013b.spore", ⟨[97], 0o644⟩)])
          "/repo/013b.spore").2.read "/repo/013b.spore" = some [])) := by
  set_option maxRecDepth 1000000 in
  exact ⟨by decide, by decide, by decide,
    put_stored_content Toy.lib { Dir := "/repo" }
      (Toy.baseFS [("/repo/013b.spore", ⟨[97], 0o644⟩)]) "/repo/013b.spore" "013b"
      "/repo/013b.spore" [97] (by decide) (by decide)⟩

/-! ## C12: One endpoint per node -/

/-- C12, endpoint uniqueness per node.  Starting from a new fabric, after any
finite sequence of `RegisterEndpoint` calls, for every app and every node the
list `Endpoints(app)` has at most one entry with that node. -/
theorem endpoint_unique_per_node (es : List Endpoint) (app node : String) :
    ((es.foldl Fabric.RegisterEndpoint Fabric.New).Endpoints app).countP
      (fun ep => decide (ep.NodeID = node)) ≤ 1 := by
  have key : ∀ (l : List Endpoint) (f : Fabric),
      (∀ app node, (f.Endpoints app).countP (fun ep => decide (ep.NodeID = node)) ≤ 1) →
      ∀ app node, ((l.foldl Fabric.RegisterEndpoint f).Endpoints app).countP
        (fun ep => decide (ep.NodeID = node)) ≤ 1 := by
    intro l
    induction l with
    | nil => intro f hf; exact hf
    | cons e rest ih =>
      intro f hf
      exact ih (f.RegisterEndpoint e) (Register_keeps_unique f e hf)
  exact key es Fabric.New (by intro a n; simp [Fabric.New, Fabric.Endpoints, mapGet]) app node

/-! ## C13: Replace or append -/

/-- C13, `RegisterEndpoint` replaces or appends.  For every fabric and endpoint
`e`: when `Endpoints(e.app)` has an entry with the node of `e`, the new list is
the old one with `e` set at the index of the first such entry, so length and
order are kept; when it has none, the new list is the old one with `e`
appended; `Endpoints` of every other app and all budgets are unchanged. -/
theorem register_replace_or_append (f : Fabric) (e : Endpoint) :
    ((∃ ep ∈ f.Endpoints e.AppName, ep.NodeID = e.NodeID) →
      (f.RegisterEndpoint e).Endpoints e.AppName =
        (f.Endpoints e.AppName).set
          ((f.Endpoints e.AppName).findIdx (fun ep => decide (ep.NodeID = e.NodeID))) e ∧
      (f.Endpoints e.AppName).findIdx (fun ep => decide (ep.NodeID = e.NodeID)) <
        (f.Endpoints e.AppName).length ∧
      ((f.RegisterEndpoint e).Endpoints e.AppName).length = (f.Endpoints e.AppName).length) ∧
    ((∀ ep ∈ f.Endpoints e.AppName, ep.NodeID ≠ e.NodeID) →
      (f.RegisterEndpoint e).Endpoints e.AppName = f.Endpoints e.AppName ++ [e]) ∧
    (∀ app, app ≠ e.AppName → (f.RegisterEndpoint e).Endpoints app = f.Endpoints app) ∧
    (f.RegisterEndpoint e).budgets = f.budgets := by
  refine ⟨?_, ?_, Endpoints_Register_other f e, ?_⟩
  · intro hex
    rw [Endpoints_Register_same]
    cases hr : replaceNode e (f.Endpoints e.AppName) with
    | none =>
      obtain ⟨ep, hep, hn⟩ := hex
      exact absurd hn ((replaceNode_none e _).mp hr ep hep)
    | some r =>
      obtain ⟨h1, h2⟩ := replaceNode_some e _ r hr
      simp only
      refine ⟨h1, h2, ?_⟩
      rw [h1, List.length_set]
  · intro hall
    rw [Endpoints_Register_same, (replaceNode_none e _).mpr hall]
  · unfold Fabric.RegisterEndpoint
    simp only
    split <;> rfl

/-- Witness for C13: on a fabric with the endpoints of `n1` and `n2` for the app
`a`, an endpoint of `n2` replaces the second entry, an endpoint of `n3` is
appended, and the budget stays. -/
theorem register_replace_or_append_witness :
    Toy.fabric2.Endpoints "a" =
      [{ AppName := "a", URL := "u1", NodeID := "n1" },
        { AppName := "a", URL := "u2", NodeID := "n2" }] ∧
    (Toy.fabric2.RegisterEndpoint { AppName := "a", URL := "u3", NodeID := "n2" }).Endpoints "a" =
      [{ AppName := "a", URL := "u1", NodeID := "n1" },
        { AppName := "a", URL := "u3", NodeID := "n2" }] ∧
    (Toy.fabric2.RegisterEndpoint { AppName := "a", URL := "u3", NodeID := "n3" }).Endpoints "a" =
      Toy.fabric2.Endpoints "a" ++ [{ AppName := "a", URL := "u3", NodeID := "n3" }] ∧
    ((Toy.fabric2.RegisterEndpoint { AppName := "a", URL := "u3", NodeID := "n2" }).Endpoints "a"
        = (Toy.fabric2.Endpoints "a").set
            ((Toy.fabric2.Endpoints "a").findIdx (fun ep => decide (ep.NodeID = "n2")))
            { AppName := "a", URL := "u3", NodeID := "n2" } ∧
      (Toy.fabric2.Endpoints "a").findIdx (fun ep => decide (ep.NodeID = "n2")) <
        (Toy.fabric2.Endpoints "a").length ∧
      ((Toy.fabric2.RegisterEndpoint
          { AppName := "a", URL := "u3", NodeID := "n2" }).Endpoints "a").length =
        (Toy.fabric2.Endpoints "a").length) ∧
    (Toy.fabric2.RegisterEndpoint { AppName := "a", URL := "u3", NodeID := "n2" }).Endpoints "b" =
      Toy.fabric2.Endpoints "b" ∧
    (Toy.fabric2.RegisterEndpoint { AppName := "a", URL := "u3", NodeID := "n2" }).budgets =
      Toy.fabric2.budgets :=
  ⟨by decide, by decide,
    (register_replace_or_append Toy.fabric2
      { AppName := "a", URL := "u3", NodeID := "n3" }).2.1 (by decide),
    (register_replace_or_append Toy.fabric2
      { AppName := "a", URL := "u3", NodeID := "n2" }).1
      ⟨{ AppName := "a", URL := "u2", NodeID := "n2" }, by decide, rfl⟩,
    (register_replace_or_append Toy.fabric2
      { AppName := "a", URL := "u3", NodeID := "n2" }).2.2.1 "b" (by decide),
    (register_replace_or_append Toy.fabric2
      { AppName := "a", URL := "u3", NodeID := "n2" }).2.2.2⟩

/-! ## C14: Who receives a published plan -/

/-- C14, a published plan reaches one subscriber.  Every forwarding goroutine
takes its plans from the one channel `f.plans` (fabric.go line 70), so a plan is
taken by one of them only.  In every run of publishes, subscriptions, forwarding
turns and receives from a new fabric in which `p` is published at most once, at
most one subscriber receives `p`, however many there are. -/
theorem plan_reaches_one_subscriber (acts : List BusAction) (p : Plan)
    (hpub : acts.count (.publish p) ≤ 1) :
    ((Bus.start.run acts).received.filter (fun l => decide (p ∈ l))).length ≤ 1 := by
  have h1 := copies_run p acts Bus.start
  have h2 := holders_le_sum p (Bus.start.run acts).received
  have h3 : copies p Bus.start = 0 := by simp [copies, Bus.start, Fabric.New]
  simp only [copies] at h1 h3
  omega

/-- Witness for C14: two subscribers, then one plan is published, each forwarder
gets a turn and each subscriber tries to receive.  No channel is ever full, all
channels end empty, the first subscriber has the plan and the second has
nothing. -/
theorem plan_reaches_one_subscriber_witness :
    ((Bus.start.run [.subscribe, .subscribe, .publish (Toy.plan "d"), .forward 0, .forward 1,
        .receive 0, .receive 1]).received.filter
      (fun l => decide (Toy.plan "d" ∈ l))).length ≤ 1 ∧
    (Bus.start.run [.subscribe, .subscribe, .publish (Toy.plan "d"), .forward 0, .forward 1,
        .receive 0, .receive 1]).received = [[Toy.plan "d"], []] ∧
    (Bus.start.run [.subscribe, .subscribe, .publish (Toy.plan "d"), .forward 0, .forward 1,
        .receive 0, .receive 1]).fab.plans = [] ∧
    (Bus.start.run [.subscribe, .subscribe, .publish (Toy.plan "d"), .forward 0, .forward 1,
        .receive 0, .receive 1]).fab.subscribers = [[], []] :=
  ⟨plan_reaches_one_subscriber _ _ (by decide), by decide, by decide, by decide⟩

/-! ## C15: Two plans for one app -/

/-- C15, two plans for one app that has no record.  `handlePlan` reads the map
`procs` under the lock, but the record is stored only after `sproutProcess` has
returned in the goroutine it started (agent.go lines 112 and 155).  So when a
second plan for the app is handled before that, both plans start a launch; once
both launches have run, both children are alive, both for this app, and the map
holds the record of the second only: no record refers to the first child. -/
theorem two_plans_two_children (L : Lib) (a : Agent) (h1 h2 : Host) (s : AgentState)
    (P1 P2 : Plan) (b : Budget) (r1 r2 : procInfo) (fs1 fs2 : FS)
    (hnone : mapGet s.procs P1.AppName = none) (happ : P2.AppName = P1.AppName)
    (hb : s.fab.GetBudget P1.AppName = some b) (hroom : (s.procs.length : Int) < b.MaxInstances)
    (hs1 : sproutProcess L a h1 s.fs P1 = (.ok r1, fs1))
    (hs2 : sproutProcess L a h2 fs1 P2 = (.ok r2, fs2)) :
    handlePlan s P1 = (s, some (.launch P1)) ∧ handlePlan s P2 = (s, some (.launch P2)) ∧
    r1.AppName = P1.AppName ∧ r2.AppName = P1.AppName ∧
    (finalState (finalState s (launchProcess L a h1 s P1))
      (launchProcess L a h2 (finalState s (launchProcess L a h1 s P1)) P2)).alive =
        s.alive ++ [r1, r2] ∧
    mapGet (finalState (finalState s (launchProcess L a h1 s P1))
      (launchProcess L a h2 (finalState s (launchProcess L a h1 s P1)) P2)).procs P1.AppName =
        some r2 ∧
    (∀ k, k ≠ P1.AppName →
      mapGet (finalState (finalState s (launchProcess L a h1 s P1))
        (launchProcess L a h2 (finalState s (launchProcess L a h1 s P1)) P2)).procs k =
          mapGet s.procs k) := by
  have hp1 := handlePlan_launch s P1 b hnone hb hroom
  have hp2 := handlePlan_launch s P2 b (by rw [happ]; exact hnone) (by rw [happ]; exact hb) hroom
  have hl1 := launch_ok L a h1 s P1 r1 fs1 hs1
  have hf1 : (finalState s (launchProcess L a h1 s P1)).fs = fs1 := by
    rw [hl1]; rfl
  have hl2 := launch_ok L a h2 (finalState s (launchProcess L a h1 s P1)) P2 r2 fs2
    (by rw [hf1]; exact hs2)
  obtain ⟨_, _, _, _, ha1, _⟩ := sprout_ok_inv L a h1 s.fs fs1 P1 r1 hs1
  obtain ⟨_, _, _, _, ha2, _⟩ := sprout_ok_inv L a h2 fs1 fs2 P2 r2 hs2
  refine ⟨hp1, hp2, ha1, ha2.trans happ, ?_, ?_, ?_⟩
  · rw [hl2, hl1]
    simp [finalState, AgentState.withChild, AgentState.withRecord, AgentState.withEndpoint]
  · rw [hl2, hl1]
    simp [finalState, AgentState.withChild, AgentState.withRecord, AgentState.withEndpoint,
      happ, mapGet_mapSet_same]
  · intro k hk
    rw [hl2, hl1]
    simp [finalState, AgentState.withChild, AgentState.withRecord, AgentState.withEndpoint,
      happ, mapGet_mapSet_other _ _ _ _ hk]

/-- Witness for C15 on the small library: the idle agent gets the plans for
`digest001` and `digest002` of the app `a`; afterwards two children of `a` are
alive and the only record is that of the second. -/
theorem two_plans_two_children_witness :
    (finalState (finalState Toy.idle
        (launchProcess Toy.lib Toy.node1 Toy.host Toy.idle (Toy.plan "digest001")))
      (launchProcess Toy.lib Toy.node1 Toy.host2
        (finalState Toy.idle
          (launchProcess Toy.lib Toy.node1 Toy.host Toy.idle (Toy.plan "digest001")))
        (Toy.plan "digest002"))).procs = [("a", Toy.child2 "digest002")] ∧
    (handlePlan Toy.idle (Toy.plan "digest001") =
        (Toy.idle, some (.launch (Toy.plan "digest001"))) ∧
      handlePlan Toy.idle (Toy.plan "digest002") =
        (Toy.idle, some (.launch (Toy.plan "digest002"))) ∧
      Toy.child1.AppName = (Toy.plan "digest001").AppName ∧
      (Toy.child2 "digest002").AppName = (Toy.plan "digest001").AppName ∧
      (finalState (finalState Toy.idle
          (launchProcess Toy.lib Toy.node1 Toy.host Toy.idle (Toy.plan "digest001")))
        (launchProcess Toy.lib Toy.node1 Toy.host2
          (finalState Toy.idle
            (launchProcess Toy.lib Toy.node1 Toy.host Toy.idle (Toy.plan "digest001")))
          (Toy.plan "digest002"))).alive = Toy.idle.alive ++ [Toy.child1, Toy.child2 "digest002"] ∧
      mapGet (finalState (finalState Toy.idle
          (launchProcess Toy.lib Toy.node1 Toy.host Toy.idle (Toy.plan "digest001")))
        (launchProcess Toy.lib Toy.node1 Toy.host2
          (finalState Toy.idle
            (launchProcess Toy.lib Toy.node1 Toy.host Toy.idle (Toy.plan "digest001")))
          (Toy.plan "digest002"))).procs (Toy.plan "digest001").AppName =
        some (Toy.child2 "digest002") ∧
      (∀ k, k ≠ (Toy.plan "digest001").AppName →
        mapGet (finalState (finalState Toy.idle
            (launchProcess Toy.lib Toy.node1 Toy.host Toy.idle (Toy.plan "digest001")))
          (launchProcess Toy.lib Toy.node1 Toy.host2
            (finalState Toy.idle
              (launchProcess Toy.lib Toy.node1 Toy.host Toy.idle (Toy.plan "digest001")))
            (Toy.plan "digest002"))).procs k = mapGet Toy.idle.procs k)) := by
  set_option maxRecDepth 1000000 in
  exact ⟨by decide,
    two_plans_two_children Toy.lib Toy.node1 Toy.host Toy.host2 Toy.idle (Toy.plan "digest001")
      (Toy.plan "digest002") { AppName := "a", MaxInstances := 2, CPUmilli := 0, MemoryMB := 0 }
      Toy.child1 (Toy.child2 "digest002") _ _ (by decide) (by decide) (by decide) (by decide)
      (Prod.ext (by decide) rfl) (Prod.ext (by decide) rfl)⟩

/-! ## C16: The budget gate -/

/-- C16, the budget gate for an app without a record.  In a state with no
record for `P.app`, `handlePlan(P)` changes nothing and starts no goroutine when
no budget is set for `P.app`, and when the number of records the agent holds,
`len(a.procs)` over all its apps, is at least `budget.MaxInstances`; otherwise
it changes nothing itself and starts the one goroutine `launchProcess(P)`. -/
theorem handlePlan_budget_gate (s : AgentState) (P : Plan)
    (hnone : mapGet s.procs P.AppName = none) :
    (s.fab.GetBudget P.AppName = none → handlePlan s P = (s, none)) ∧
    (∀ b, s.fab.GetBudget P.AppName = some b → (s.procs.length : Int) ≥ b.MaxInstances →
      handlePlan s P = (s, none)) ∧
    (∀ b, s.fab.GetBudget P.AppName = some b → (s.procs.length : Int) < b.MaxInstances →
      handlePlan s P = (s, some (.launch P))) := by
  refine ⟨?_, ?_, ?_⟩
  · intro hb
    simp [handlePlan, hnone, hb]
  · intro b hb hge
    simp [handlePlan, hnone, hb, hge]
  · intro b hb hlt
    simp [handlePlan, hnone, hb, hlt]

/-- Witness for C16: the idle agent with a budget of two starts a launch; without
a budget it starts none; and the agent that runs `a` starts none for the app
`b` with a budget of one, its one record being counted. -/
theorem handlePlan_budget_gate_witness :
    handlePlan Toy.idle (Toy.plan "digest001") =
      (Toy.idle, some (.launch (Toy.plan "digest001"))) ∧
    handlePlan { Toy.idle with fab := Fabric.New } (Toy.plan "digest001") =
      ({ Toy.idle with fab := Fabric.New }, none) ∧
    handlePlan Toy.runningB Toy.planB = (Toy.runningB, none) := by
  set_option maxRecDepth 1000000 in
  exact ⟨(handlePlan_budget_gate Toy.idle (Toy.plan "digest001") (by decide)).2.2
      { AppName := "a", MaxInstances := 2, CPUmilli := 0, MemoryMB := 0 } (by decide) (by decide),
    (handlePlan_budget_gate { Toy.idle with fab := Fabric.New } (Toy.plan "digest001")
      (by decide)).1 (by decide),
    (handlePlan_budget_gate Toy.runningB Toy.planB (by decide)).2.1
      { AppName := "b", MaxInstances := 1, CPUmilli := 0, MemoryMB := 0 } (by decide) (by decide)⟩

/-! ## C17: A failed sprout -/

/-- C17, a failed sprout changes nothing.  When `sproutProcess` returns an error
for `P`, `launchProcess` and `blueGreenDeploy` end after that one step: nothing
is registered, no record is stored, nothing is killed; the map of records, the
fabric (so `Endpoints(P.app)` too) and the live children are as before. -/
theorem failed_sprout_changes_nothing (L : Lib) (a : Agent) (h : Host) (s : AgentState)
    (P : Plan) (oldProc : procInfo) (e : SproutError) (fs1 : FS)
    (hs : sproutProcess L a h s.fs P = (.error e, fs1)) :
    launchProcess L a h s P = [(.sproutFailed e, { s with fs := fs1 })] ∧
    blueGreenDeploy L a h s P oldProc = [(.sproutFailed e, { s with fs := fs1 })] ∧
    (finalState s (launchProcess L a h s P)).procs = s.procs ∧
    (finalState s (launchProcess L a h s P)).fab = s.fab ∧
    (finalState s (launchProcess L a h s P)).alive = s.alive ∧
    (finalState s (blueGreenDeploy L a h s P oldProc)).procs = s.procs ∧
    (finalState s (blueGreenDeploy L a h s P oldProc)).fab = s.fab ∧
    (finalState s (blueGreenDeploy L a h s P oldProc)).alive = s.alive := by
  have h1 : launchProcess L a h s P = [(.sproutFailed e, { s with fs := fs1 })] := by
    simp [launchProcess, Task.run, Task.step, hs]
  have h2 : blueGreenDeploy L a h s P oldProc = [(.sproutFailed e, { s with fs := fs1 })] := by
    simp [blueGreenDeploy, Task.run, Task.step, hs]
  rw [h1, h2]
  simp [finalState]

/-- Witness for C17: the agent that runs `digest001` gets a rollout to
`digest009`, which the repository does not hold.  The sprout fails with
`sporeNotFound`, and the endpoint of the old child is still the registered
one. -/
theorem failed_sprout_changes_nothing_witness :
    sproutProcess Toy.lib Toy.node1 Toy.host2 Toy.running.fs (Toy.plan "digest009") =
      (.error .sporeNotFound,
        (sproutProcess Toy.lib Toy.node1 Toy.host2 Toy.running.fs (Toy.plan "digest009")).2) ∧
    Toy.running.fab.Endpoints "a" =
      [{ AppName := "a", URL := "http://127.0.0.1:8080", NodeID := "node-1" }] ∧
    Toy.running.procs = [("a", Toy.child1)] ∧ Toy.running.alive = [Toy.child1] ∧
    (finalState Toy.running (blueGreenDeploy Toy.lib Toy.node1 Toy.host2 Toy.running
      (Toy.plan "digest009") Toy.child1)).procs = Toy.running.procs ∧
    (finalState Toy.running (blueGreenDeploy Toy.lib Toy.node1 Toy.host2 Toy.running
      (Toy.plan "digest009") Toy.child1)).fab = Toy.running.fab ∧
    (finalState Toy.running (blueGreenDeploy Toy.lib Toy.node1 Toy.host2 Toy.running
      (Toy.plan "digest009") Toy.child1)).alive = Toy.running.alive := by
  set_option maxRecDepth 1000000 in
  exact ⟨Prod.ext (by decide) rfl, by decide, by decide, by decide,
    (failed_sprout_changes_nothing Toy.lib Toy.node1 Toy.host2 Toy.running
      (Toy.plan "digest009") Toy.child1 .sporeNotFound _ (Prod.ext (by decide) rfl)).2.2.2.2.2⟩

/-! ## C18: The order of a rollout -/

/-- C18, a rollout beside a launch that has not finished.  `launchProcess`
stores the record before it registers the endpoint (agent.go lines 155 and
160), and `handlePlan` starts a rollout from the record alone.  For a launch of
`P1` on a node that has no endpoint of the app yet, and a plan `P2` for the
same app with another digest that is handled between those two steps:
`handlePlan` starts `blueGreenDeploy(P2, r1)`; after its sprout and after its
sleep `Endpoints(app)` has no entry of this node (and is empty when it was
empty); and when the launch registers its endpoint before the rollout kills
the old child, the one entry of this node is that of the old child `r1`,
which is alive, and the next step of the rollout kills it. -/
theorem rollout_beside_launch (L : Lib) (a : Agent) (h1 h2 : Host) (s : AgentState)
    (P1 P2 : Plan) (r1 r2 : procInfo) (fs1 fs2 : FS)
    (happ : P2.AppName = P1.AppName) (hdig : P2.Digest ≠ P1.Digest)
    (hnone : nodeCount a.ID (s.fab.Endpoints P1.AppName) = 0)
    (hs1 : sproutProcess L a h1 s.fs P1 = (.ok r1, fs1))
    (hs2 : sproutProcess L a h2 fs1 P2 = (.ok r2, fs2)) :
    (Task.run L a h1 2 s (.launch P1)).map Prod.fst =
      [.sprouted r1, .recorded P1.AppName r1] ∧
    handlePlan (launchHalfway L a h1 s P1) P2 =
      (launchHalfway L a h1 s P1, some (.blueGreen P2 r1)) ∧
    (Task.run L a h2 4 (launchHalfway L a h1 s P1) (.blueGreen P2 r1)).map
        (fun st => (st.1, nodeCount a.ID (st.2.fab.Endpoints P1.AppName))) =
      [(.sprouted r2, 0), (.slept, 0),
        (.registered { AppName := P2.AppName, URL := r2.URL, NodeID := a.ID }, 1),
        (.recorded P2.AppName r2, 1)] ∧
    (s.fab.Endpoints P1.AppName = [] →
      ∀ st ∈ (Task.run L a h2 4 (launchHalfway L a h1 s P1) (.blueGreen P2 r1)).take 2,
        st.2.fab.Endpoints P1.AppName = []) ∧
    ({ AppName := P1.AppName, URL := r1.URL, NodeID := a.ID } : Endpoint) ∈
      (rolloutBeforeKill L a h1 h2 s P1 P2 r1).fab.Endpoints P1.AppName ∧
    (∀ ep ∈ (rolloutBeforeKill L a h1 h2 s P1 P2 r1).fab.Endpoints P1.AppName,
      ep.NodeID = a.ID → ep = { AppName := P1.AppName, URL := r1.URL, NodeID := a.ID }) ∧
    r1 ∈ (rolloutBeforeKill L a h1 h2 s P1 P2 r1).alive ∧
    Task.step L a h2 (rolloutBeforeKill L a h1 h2 s P1 P2 r1) (.bgKill P2 r1 r2) =
      (.killed r1, (rolloutBeforeKill L a h1 h2 s P1 P2 r1).withoutChild r1, none) := by
  obtain ⟨hrun, hmid⟩ := launchHalfway_ok L a h1 s P1 r1 fs1 hs1
  obtain ⟨_, _, _, _, _, hd1, _⟩ := sprout_ok_inv L a h1 s.fs fs1 P1 r1 hs1
  have hfs : (launchHalfway L a h1 s P1).fs = fs1 := by rw [hmid]; rfl
  have hfour := blueGreen_four_ok L a h2 (launchHalfway L a h1 s P1) P2 r1 r2 fs2
    (by rw [hfs]; exact hs2)
  have hfab : (launchHalfway L a h1 s P1).fab = s.fab := by rw [hmid]; rfl
  have hreg2 := nodeCount_Register_same s.fab
    { AppName := P1.AppName, URL := r2.URL, NodeID := a.ID }
  simp only at hreg2
  rw [hnone] at hreg2
  have hreg1 := nodeCount_Register_same
    (s.fab.RegisterEndpoint { AppName := P1.AppName, URL := r2.URL, NodeID := a.ID })
    { AppName := P1.AppName, URL := r1.URL, NodeID := a.ID }
  simp only at hreg1
  rw [hreg2] at hreg1
  have hmem := mem_Register_same
    (s.fab.RegisterEndpoint { AppName := P1.AppName, URL := r2.URL, NodeID := a.ID })
    { AppName := P1.AppName, URL := r1.URL, NodeID := a.ID }
  simp only at hmem
  have hbk : (rolloutBeforeKill L a h1 h2 s P1 P2 r1).fab =
      (s.fab.RegisterEndpoint { AppName := P1.AppName, URL := r2.URL, NodeID := a.ID }
        ).RegisterEndpoint { AppName := P1.AppName, URL := r1.URL, NodeID := a.ID } := by
    unfold rolloutBeforeKill
    rw [hfour]
    simp [finalState, Task.step, AgentState.withChild, AgentState.withEndpoint,
      AgentState.withRecord, hfab, happ]
  have hal : (rolloutBeforeKill L a h1 h2 s P1 P2 r1).alive = s.alive ++ [r1] ++ [r2] := by
    unfold rolloutBeforeKill
    rw [hfour]
    simp [finalState, Task.step, AgentState.withChild, AgentState.withEndpoint,
      AgentState.withRecord, hmid]
  refine ⟨?_, ?_, ?_, ?_, ?_, ?_, ?_, rfl⟩
  · rw [hrun]; rfl
  · have hrec : mapGet (launchHalfway L a h1 s P1).procs P2.AppName = some r1 := by
      rw [hmid, happ]
      simp [AgentState.withRecord, AgentState.withChild, mapGet_mapSet_same]
    have hne : ¬ r1.Digest = P2.Digest := by
      rw [hd1]; exact fun h3 => hdig h3.symm
    simp [handlePlan, hrec, hne]
  · rw [hfour]
    simp only [List.map_cons, List.map_nil, AgentState.withChild, AgentState.withEndpoint,
      AgentState.withRecord, hfab, happ, hnone, hreg2]
    simp
  · intro hempty st hst
    rw [hfour] at hst
    simp only [List.take_succ_cons, List.take_zero, List.mem_cons, List.mem_nil_iff,
      or_false] at hst
    rcases hst with h3 | h3 <;> subst h3 <;>
      simpa [AgentState.withChild, hfab] using hempty
  · rw [hbk]; exact hmem
  · intro ep hep hid
    rw [hbk] at hep
    exact unique_of_countP_le_one (fun ep => decide (ep.NodeID = a.ID)) _
      (by unfold nodeCount at hreg1; omega) ep _ hep hmem (by simpa using hid) (by simp)
  · rw [hal]; simp

/-- Witness for C18 on the small library: the idle agent launches `digest001`,
and the plan for `digest002` is handled halfway through that launch.  The
rollout runs with `Endpoints("a")` empty until its own registration, and it
kills the first child while the registered URL is that child's. -/
theorem rollout_beside_launch_witness :
    (handlePlan Toy.idle (Toy.plan "digest001")).2 = some (.launch (Toy.plan "digest001")) ∧
    Toy.idle.fab.Endpoints "a" = [] ∧
    (rolloutBeforeKill Toy.lib Toy.node1 Toy.host Toy.host2 Toy.idle (Toy.plan "digest001")
      (Toy.plan "digest002") Toy.child1).fab.Endpoints "a" =
        [{ AppName := "a", URL := "http://127.0.0.1:8080", NodeID := "node-1" }] ∧
    Toy.child1.URL = "http://127.0.0.1:8080" ∧
    ((Task.run Toy.lib Toy.node1 Toy.host 2 Toy.idle (.launch (Toy.plan "digest001"))).map
        Prod.fst = [.sprouted Toy.child1, .recorded (Toy.plan "digest001").AppName Toy.child1] ∧
      handlePlan (launchHalfway Toy.lib Toy.node1 Toy.host Toy.idle (Toy.plan "digest001"))
          (Toy.plan "digest002") =
        (launchHalfway Toy.lib Toy.node1 Toy.host Toy.idle (Toy.plan "digest001"),
          some (.blueGreen (Toy.plan "digest002") Toy.child1)) ∧
      (Task.run Toy.lib Toy.node1 Toy.host2 4
          (launchHalfway Toy.lib Toy.node1 Toy.host Toy.idle (Toy.plan "digest001"))
          (.blueGreen (Toy.plan "digest002") Toy.child1)).map
          (fun st => (st.1,
            nodeCount Toy.node1.ID (st.2.fab.Endpoints (Toy.plan "digest001").AppName))) =
        [(.sprouted (Toy.child2 "digest002"), 0), (.slept, 0),
          (.registered { AppName := (Toy.plan "digest002").AppName,
                         URL := (Toy.child2 "digest002").URL, NodeID := Toy.node1.ID }, 1),
          (.recorded (Toy.plan "digest002").AppName (Toy.child2 "digest002"), 1)] ∧
      (Toy.idle.fab.Endpoints (Toy.plan "digest001").AppName = [] →
        ∀ st ∈ (Task.run Toy.lib Toy.node1 Toy.host2 4
            (launchHalfway Toy.lib Toy.node1 Toy.host Toy.idle (Toy.plan "digest001"))
            (.blueGreen (Toy.plan "digest002") Toy.child1)).take 2,
          st.2.fab.Endpoints (Toy.plan "digest001").AppName = []) ∧
      ({ AppName := (Toy.plan "digest001").AppName, URL := Toy.child1.URL,
         NodeID := Toy.node1.ID } : Endpoint) ∈
        (rolloutBeforeKill Toy.lib Toy.node1 Toy.host Toy.host2 Toy.idle (Toy.plan "digest001")
          (Toy.plan "digest002") Toy.child1).fab.Endpoints (Toy.plan "digest001").AppName ∧
      (∀ ep ∈ (rolloutBeforeKill Toy.lib Toy.node1 Toy.host Toy.host2 Toy.idle
          (Toy.plan "digest001") (Toy.plan "digest002") Toy.child1).fab.Endpoints
            (Toy.plan "digest001").AppName,
        ep.NodeID = Toy.node1.ID →
          ep = { AppName := (Toy.plan "digest001").AppName, URL := Toy.child1.URL,
                 NodeID := Toy.node1.ID }) ∧
      Toy.child1 ∈ (rolloutBeforeKill Toy.lib Toy.node1 Toy.host Toy.host2 Toy.idle
        (Toy.plan "digest001") (Toy.plan "digest002") Toy.child1).alive ∧
      Task.step Toy.lib Toy.node1 Toy.host2
          (rolloutBeforeKill Toy.lib Toy.node1 Toy.host Toy.host2 Toy.idle
            (Toy.plan "digest001") (Toy.plan "digest002") Toy.child1)
          (.bgKill (Toy.plan "digest002") Toy.child1 (Toy.child2 "digest002")) =
        (.killed Toy.child1,
          (rolloutBeforeKill Toy.lib Toy.node1 Toy.host Toy.host2 Toy.idle
            (Toy.plan "digest001") (Toy.plan "digest002") Toy.child1).withoutChild Toy.child1,
          none)) := by
  set_option maxRecDepth 1000000 in
  exact ⟨by decide, by decide, by decide, by decide,
    rollout_beside_launch Toy.lib Toy.node1 Toy.host Toy.host2 Toy.idle (Toy.plan "digest001")
      (Toy.plan "digest002") Toy.child1 (Toy.child2 "digest002") _ _ (by decide) (by decide)
      (by decide) (Prod.ext (by decide) rfl) (Prod.ext (by decide) rfl)⟩

/-- The order of a rollout that runs on its own.  A `blueGreenDeploy` whose
sprout succeeds, run
without another goroutine of the agent in between, does its five steps in the
order sprout, sleep, register, store the record, kill.  When `Endpoints(app)`
has exactly one entry of this node at its start, it has exactly one after every
step; from the registration on, that entry is the endpoint of the new child, so
the old child is killed when the registered URL is the new one; and an old
child that was alive at the start is alive, together with the new one, after
each of the first four steps. -/
theorem blueGreen_cutover (L : Lib) (a : Agent) (h : Host) (s : AgentState) (plan : Plan)
    (oldProc newProc : procInfo) (fs1 : FS)
    (hs : sproutProcess L a h s.fs plan = (.ok newProc, fs1))
    (hone : nodeCount a.ID (s.fab.Endpoints plan.AppName) = 1) :
    (blueGreenDeploy L a h s plan oldProc).map Prod.fst =
      [.sprouted newProc, .slept,
        .registered { AppName := plan.AppName, URL := newProc.URL, NodeID := a.ID },
        .recorded plan.AppName newProc, .killed oldProc] ∧
    (∀ st ∈ blueGreenDeploy L a h s plan oldProc,
      nodeCount a.ID (st.2.fab.Endpoints plan.AppName) = 1) ∧
    (∀ st ∈ (blueGreenDeploy L a h s plan oldProc).drop 2,
      ∀ ep ∈ st.2.fab.Endpoints plan.AppName, ep.NodeID = a.ID →
        ep = { AppName := plan.AppName, URL := newProc.URL, NodeID := a.ID }) ∧
    (oldProc ∈ s.alive → ∀ st ∈ (blueGreenDeploy L a h s plan oldProc).take 4,
      oldProc ∈ st.2.alive ∧ newProc ∈ st.2.alive) := by
  have hreg := nodeCount_Register_same s.fab
    { AppName := plan.AppName, URL := newProc.URL, NodeID := a.ID }
  have hmem := mem_Register_same s.fab
    { AppName := plan.AppName, URL := newProc.URL, NodeID := a.ID }
  simp only at hreg hmem
  rw [hone] at hreg
  have huniq : ∀ ep ∈ (s.fab.RegisterEndpoint
        { AppName := plan.AppName, URL := newProc.URL, NodeID := a.ID }).Endpoints plan.AppName,
      ep.NodeID = a.ID →
        ep = { AppName := plan.AppName, URL := newProc.URL, NodeID := a.ID } := by
    intro ep hep hid
    exact unique_of_countP_le_one (fun ep => decide (ep.NodeID = a.ID)) _
      (by unfold nodeCount at hreg; omega) ep _ hep hmem (by simpa using hid) (by simp)
  rw [blueGreen_ok L a h s plan oldProc newProc fs1 hs]
  refine ⟨rfl, ?_, ?_, ?_⟩
  · intro st hst
    simp only [List.mem_cons, List.mem_nil_iff, or_false] at hst
    rcases hst with h1 | h1 | h1 | h1 | h1 <;> subst h1
    · exact hone
    · exact hone
    · exact hreg
    · exact hreg
    · exact hreg
  · intro st hst
    simp only [List.drop_succ_cons, List.drop_zero, List.mem_cons, List.mem_nil_iff,
      or_false] at hst
    rcases hst with h1 | h1 | h1 <;> subst h1 <;> exact huniq
  · intro hold st hst
    simp only [List.take_succ_cons, List.take_zero, List.mem_cons, List.mem_nil_iff,
      or_false] at hst
    rcases hst with h1 | h1 | h1 | h1 <;> subst h1 <;>
      simp [AgentState.withChild, AgentState.withEndpoint, AgentState.withRecord, hold]

/-- The agent of the small library that runs `digest001`, with its endpoint
registered, rolls out `digest002`: an instance of `blueGreen_cutover`. -/
theorem blueGreen_cutover_witness :
    sproutProcess Toy.lib Toy.node1 Toy.host2 Toy.running.fs (Toy.plan "digest002") =
      (.ok (Toy.child2 "digest002"),
        (sproutProcess Toy.lib Toy.node1 Toy.host2 Toy.running.fs (Toy.plan "digest002")).2) ∧
    nodeCount Toy.node1.ID (Toy.running.fab.Endpoints (Toy.plan "digest002").AppName) = 1 ∧
    Toy.child1 ∈ Toy.running.alive ∧
    ((blueGreenDeploy Toy.lib Toy.node1 Toy.host2 Toy.running (Toy.plan "digest002")
        Toy.child1).map Prod.fst =
      [.sprouted (Toy.child2 "digest002"), .slept,
        .registered { AppName := "a", URL := "http://127.0.0.1:8081", NodeID := "node-1" },
        .recorded "a" (Toy.child2 "digest002"), .killed Toy.child1] ∧
    (∀ st ∈ blueGreenDeploy Toy.lib Toy.node1 Toy.host2 Toy.running (Toy.plan "digest002")
        Toy.child1,
      nodeCount Toy.node1.ID (st.2.fab.Endpoints (Toy.plan "digest002").AppName) = 1) ∧
    (∀ st ∈ (blueGreenDeploy Toy.lib Toy.node1 Toy.host2 Toy.running (Toy.plan "digest002")
        Toy.child1).drop 2,
      ∀ ep ∈ st.2.fab.Endpoints (Toy.plan "digest002").AppName, ep.NodeID = Toy.node1.ID →
        ep = { AppName := (Toy.plan "digest002").AppName, URL := (Toy.child2 "digest002").URL,
               NodeID := Toy.node1.ID }) ∧
    (Toy.child1 ∈ Toy.running.alive →
      ∀ st ∈ (blueGreenDeploy Toy.lib Toy.node1 Toy.host2 Toy.running (Toy.plan "digest002")
        Toy.child1).take 4,
      Toy.child1 ∈ st.2.alive ∧ Toy.child2 "digest002" ∈ st.2.alive)) := by
  set_option maxRecDepth 1000000 in
  exact ⟨Prod.ext (by decide) rfl, by decide, by decide,
    blueGreen_cutover Toy.lib Toy.node1 Toy.host2 Toy.running (Toy.plan "digest002")
      Toy.child1 (Toy.child2 "digest002") _ (Prod.ext (by decide) rfl) (by decide)⟩

/-- The failing input evaluated: a rollout beside a launch that has not finished.
`launchProcess` stores the record before it registers the endpoint (agent.go
lines 155 and 160).  A plan for `digest002` handled in between starts a rollout
with the record of the first child as the old one.  After the sprout and after
the sleep of this rollout `Endpoints("a")` is empty.  And when the launch
registers its endpoint just before the rollout kills the old child, the child
is killed while its URL is the registered one. -/
theorem blueGreen_beside_launch :
    (Task.run Toy.lib Toy.node1 Toy.host 2 Toy.idle (.launch (Toy.plan "digest001"))).map
        Prod.fst = [.sprouted Toy.child1, .recorded "a" Toy.child1] ∧
    (handlePlan Toy.midLaunch (Toy.plan "digest002")).2 =
      some (.blueGreen (Toy.plan "digest002") Toy.child1) ∧
    (blueGreenDeploy Toy.lib Toy.node1 Toy.host2 Toy.midLaunch (Toy.plan "digest002")
        Toy.child1).map (fun st => (st.1, st.2.fab.Endpoints "a")) =
      [(.sprouted (Toy.child2 "digest002"), []), (.slept, []),
        (.registered { AppName := "a", URL := "http://127.0.0.1:8081", NodeID := "node-1" },
          [{ AppName := "a", URL := "http://127.0.0.1:8081", NodeID := "node-1" }]),
        (.recorded "a" (Toy.child2 "digest002"),
          [{ AppName := "a", URL := "http://127.0.0.1:8081", NodeID := "node-1" }]),
        (.killed Toy.child1,
          [{ AppName := "a", URL := "http://127.0.0.1:8081", NodeID := "node-1" }])] ∧
    Toy.beforeKill.fab.Endpoints "a" =
      [{ AppName := "a", URL := Toy.child1.URL, NodeID := "node-1" }] ∧
    Toy.child1 ∈ Toy.beforeKill.alive ∧
    (Task.step Toy.lib Toy.node1 Toy.host2 Toy.beforeKill
      (.bgKill (Toy.plan "digest002") Toy.child1 (Toy.child2 "digest002"))).1 =
        .killed Toy.child1 ∧
    Toy.child1 ∉ (Task.step Toy.lib Toy.node1 Toy.host2 Toy.beforeKill
      (.bgKill (Toy.plan "digest002") Toy.child1 (Toy.child2 "digest002"))).2.1.alive := by
  set_option maxRecDepth 1000000 in
  exact ⟨by decide, by decide, by decide, by decide, by decide, by decide, by decide⟩

/-! ## C19: The environment of the child -/

/-- C19, the environment of the child.  The `Env` of the command that a
successful sprout starts is the parent environment, then one `k=v` entry for
each pair of the manifest `env` in the order in which `range` visits the map
(each pair once), then `PORT=` with the free port as the last element.  Of
several entries with one key the last counts, so the entry that counts for
`PORT` is the one of the agent, and for the key of a manifest entry other than
`PORT` the entry that counts is one of the manifest, not one of the parent. -/
theorem sprout_environment (L : Lib) (a : Agent) (h : Host) (fs fs1 : FS) (plan : Plan)
    (proc : procInfo) (m : Manifest)
    (hs : sproutProcess L a h fs plan = (.ok proc, fs1))
    (hv : Verify L fs (a.Repo.Path plan.Digest) = .ok m)
    (hperm : (h.rangeOrder m.Env).Perm m.Env) :
    ∃ mid, proc.Process.Env = h.environ ++ mid ++ ["PORT=" ++ toString proc.Port] ∧
      mid.Perm (m.Env.map (fun kv => kv.1 ++ "=" ++ kv.2)) ∧
      h.freePort = some proc.Port ∧
      envLast proc.Process.Env "PORT" = some ("PORT=" ++ toString proc.Port) ∧
      ∀ kv ∈ m.Env, envKey (kv.1 ++ "=" ++ kv.2) ≠ "PORT" →
        ∃ e ∈ mid, envLast proc.Process.Env (envKey (kv.1 ++ "=" ++ kv.2)) = some e := by
  obtain ⟨m2, port, hv2, hp, _, _, hport, _, _, henv⟩ := sprout_ok_inv L a h fs fs1 plan proc hs
  rw [hv] at hv2
  simp only [Outcome.ok.injEq] at hv2
  subst hv2
  subst hport
  refine ⟨(h.rangeOrder m.Env).map (fun kv => kv.1 ++ "=" ++ kv.2), henv, hperm.map _, hp, ?_, ?_⟩
  · rw [henv]
    unfold envLast
    rw [List.filter_append]
    simp [envKey_port]
  · intro kv hkv hne
    rw [henv]
    unfold envLast
    have hmem : kv.1 ++ "=" ++ kv.2 ∈
        (h.rangeOrder m.Env).map (fun kv => kv.1 ++ "=" ++ kv.2) :=
      List.mem_map.mpr ⟨kv, hperm.mem_iff.mpr hkv, rfl⟩
    have hfm : kv.1 ++ "=" ++ kv.2 ∈
        ((h.rangeOrder m.Env).map (fun kv => kv.1 ++ "=" ++ kv.2)).filter
          (fun e => decide (envKey e = envKey (kv.1 ++ "=" ++ kv.2))) := by
      simp only [List.mem_filter, decide_eq_true_eq, and_true]
      exact hmem
    have hne2 : envKey ("PORT=" ++ toString proc.Port) ≠ envKey (kv.1 ++ "=" ++ kv.2) := by
      rw [envKey_port]; exact fun h3 => hne h3.symm
    rw [List.filter_append, List.filter_append]
    have hport : List.filter (fun e => decide (envKey e = envKey (kv.1 ++ "=" ++ kv.2)))
        ["PORT=" ++ toString proc.Port] = [] := by
      simp [hne2]
    rw [hport, List.append_nil]
    have hnil := List.ne_nil_of_mem hfm
    rw [List.getLast?_append_of_ne_nil _ hnil]
    obtain ⟨e, he⟩ := Option.isSome_iff_exists.mp (by
      rw [List.getLast?_isSome]; exact hnil : (List.getLast? _).isSome = true)
    exact ⟨e, (List.mem_filter.mp (List.mem_of_getLast?_eq_some he)).1, he⟩

/-- Witness for C19: the parent sets `PATH` and `PORT`, the manifest sets `PATH`,
`PORT` and `MODE`, and `range` visits the map in reverse.  The child gets
`PORT=8081` of the agent, `PATH=/opt` and `MODE=x` of the manifest. -/
theorem sprout_environment_witness :
    sproutProcess Toy.libEnv Toy.node1 Toy.host3 Toy.envRepoFS (Toy.plan "digest003") =
      (.ok Toy.childEnv,
        (sproutProcess Toy.libEnv Toy.node1 Toy.host3 Toy.envRepoFS (Toy.plan "digest003")).2) ∧
    Verify Toy.libEnv Toy.envRepoFS (Toy.node1.Repo.Path (Toy.plan "digest003").Digest) =
      .ok Toy.envPacked ∧
    Toy.envPacked.Env = [("PATH", "/opt"), ("PORT", "9"), ("MODE", "x")] ∧
    Toy.host3.environ = ["PATH=/bin", "PORT=1"] ∧
    envLast Toy.childEnv.Process.Env "PATH" = some "PATH=/opt" ∧
    envLast Toy.childEnv.Process.Env "MODE" = some "MODE=x" ∧
    (∃ mid, Toy.childEnv.Process.Env =
        Toy.host3.environ ++ mid ++ ["PORT=" ++ toString Toy.childEnv.Port] ∧
      mid.Perm (Toy.envPacked.Env.map (fun kv => kv.1 ++ "=" ++ kv.2)) ∧
      Toy.host3.freePort = some Toy.childEnv.Port ∧
      envLast Toy.childEnv.Process.Env "PORT" = some ("PORT=" ++ toString Toy.childEnv.Port) ∧
      ∀ kv ∈ Toy.envPacked.Env, envKey (kv.1 ++ "=" ++ kv.2) ≠ "PORT" →
        ∃ e ∈ mid, envLast Toy.childEnv.Process.Env (envKey (kv.1 ++ "=" ++ kv.2)) = some e) := by
  set_option maxRecDepth 1000000 in
  exact ⟨Prod.ext (by decide) rfl, by decide, by decide, by decide, by decide, by decide,
    sprout_environment Toy.libEnv Toy.node1 Toy.host3 Toy.envRepoFS _ (Toy.plan "digest003")
      Toy.childEnv Toy.envPacked (Prod.ext (by decide) rfl) (by decide) (by decide)⟩

/-! ## C20: A plan with the running digest -/

/-- C20, a plan with the running digest is ignored.  In a state where `P.app`
has a record with the digest of `P`, `handlePlan(P)` returns the state as it
was (records, fabric with endpoints and budgets, live children) and starts no
goroutine, whatever the budget of `P.app` is. -/
theorem handlePlan_same_digest (s : AgentState) (P : Plan) (proc : procInfo)
    (hrec : mapGet s.procs P.AppName = some proc) (hd : proc.Digest = P.Digest) :
    handlePlan s P = (s, none) := by
  simp [handlePlan, hrec, hd]

/-- Witness for C20: the agent that runs `digest001` ignores a plan for it; also
without a budget, and with a budget that is used up. -/
theorem handlePlan_same_digest_witness :
    handlePlan Toy.running (Toy.plan "digest001") = (Toy.running, none) ∧
    handlePlan { Toy.running with fab := Fabric.New } (Toy.plan "digest001") =
      ({ Toy.running with fab := Fabric.New }, none) ∧
    handlePlan { Toy.running with
        fab := Toy.running.fab.SetBudget
          { AppName := "a", MaxInstances := 0, CPUmilli := 0, MemoryMB := 0 } }
      (Toy.plan "digest001") =
      ({ Toy.running with
        fab := Toy.running.fab.SetBudget
          { AppName := "a", MaxInstances := 0, CPUmilli := 0, MemoryMB := 0 } }, none) := by
  set_option maxRecDepth 1000000 in
  exact ⟨handlePlan_same_digest Toy.running (Toy.plan "digest001") Toy.child1 (by decide)
      (by decide),
    handlePlan_same_digest _ (Toy.plan "digest001") Toy.child1 (by decide) (by decide),
    handlePlan_same_digest _ (Toy.plan "digest001") Toy.child1 (by decide) (by decide)⟩

end Mesh
